import Mathlib

/-
Verification development for the `cluster-poc` carpool assignment engine.

The definitions below are a shallow embedding of the Python sources:
  * `app/models/carpool.py`  — the pydantic data model,
  * `app/services/carpool.py` — the assignment engine
    (`prepare_df`, `group_same_addresses`, `group_close_coordinates`,
     `_find_vehicle_idx_with_less_trips`, `assign_bookings_to_vehicles`,
     `assign_to_vehicle`, `calculate`).

Modelling conventions:
  * Timezone-aware instants are modelled as `Int` minutes; `timedelta`
    comparisons on aware datetimes are plain integer comparisons.
  * The external address/time resolver (`app/utils/timeaddr.py`, backed by the
    `dateutil`/`pytz` libraries and a static ZIP asset) is a parameter
    `resolve : String → String → String → Option Int`; the `try/except` in
    `prepare_df` that converts resolver exceptions into a missing pickup
    instant is the `Option` result.
  * The sklearn `KMeans.fit_predict` call is a parameter
    `kf : List (Int × Int) → Nat → List Nat` (coordinates ↦ zero-based labels);
    the code runs it with `random_state=None`, so nothing pins down which
    labelling a given run produces.
  * A pandas `DataFrame` of bookings is a `List Row` in input order; the pandas
    integer index is the `idx` field.  Boolean-mask writes (`df.loc[mask, c]`)
    become conditional `List.map` updates.
  * The `Dict[Vehicle, List[Trip]]` accumulator of `assign_to_vehicle` is an
    insertion-ordered association list; `Vehicle.__hash__`/`__eq__` compare by
    `id`, so lookups compare the `id` field only.
  * The `cluster_id` column does not exist until some pass executes a
    `df.loc[mask, "cluster_id"] = ...` write; only the dropoff loop of
    `group_same_addresses` can create it (the pickup loop reads the column
    before its first write, `group_close_coordinates` reads it on entry and
    `assign_to_vehicle` reads it unconditionally), so the column exists iff the
    dropoff pass stamped at least once.  Its presence is threaded explicitly:
    `group_same_addresses` returns the rows paired with the presence flag, and
    the later stages take the flag and return `none` — the pandas
    `KeyError('cluster_id')` — when they read a missing column.
  * Python exceptions that abort the request (`UnboundLocalError` in
    `_find_vehicle_idx_with_less_trips` on an empty fleet, the pandas
    `KeyError` of `prepare_df` on an empty booking list, the pandas
    `KeyError('cluster_id')` reads above) are `Option.none`.
-/

set_option maxHeartbeats 1600000

namespace CarpoolPoc

/-- Instants are minutes on a single global timeline (`datetime` in the code). -/
abbrev DT := Int

/-- Booking model, `app/models/carpool.py` (`class Booking`). -/
structure Booking where
  id : String
  client_name : String
  pickup_time : Option String
  pickup_address : String
  pickup_latitude : Int
  pickup_longitude : Int
  appointment_time : Option String
  dropoff_address : String
  dropoff_latitude : Int
  dropoff_longitude : Int
  passenger_count : Int := 1
deriving DecidableEq, Repr

/-- Vehicle model, `app/models/carpool.py` (`class Vehicle`).  Its Python
`__eq__`/`__hash__` compare the `id` field only; every map keyed by vehicles
below therefore compares `Vehicle.id`. -/
structure Vehicle where
  id : String
  driver_name : Option String := none
  capacity : Int
deriving DecidableEq, Repr

instance : Inhabited Vehicle := ⟨⟨"", none, 0⟩⟩

/-- Carpool configuration, `app/models/carpool.py` (`class CarpoolConfig`). -/
structure CarpoolConfig where
  max_wait_minutes : Int := 60
  pool_neighbors : Bool := false
  geo_clusters : Nat := 8
deriving DecidableEq, Repr

/-- Request model, `app/models/carpool.py` (`class CarpoolRequest`). -/
structure CarpoolRequest where
  date : String
  bookings : List Booking
  vehicles : List Vehicle
  config : Option CarpoolConfig := none
deriving DecidableEq, Repr

/-- Trip model, `app/models/carpool.py` (`class Trip`). -/
structure Trip where
  bookings : List Booking
  start_time : Option DT := none
deriving DecidableEq, Repr

/-- Derived attribute `Trip.total_passengers` of `app/models/carpool.py`. -/
def Trip.total_passengers (t : Trip) : Int :=
  (t.bookings.map (fun b => b.passenger_count)).sum

/-- Per-vehicle plan, `app/models/carpool.py` (`class VehiclePlan`). -/
structure VehiclePlan where
  vehicle : Vehicle
  trips : List Trip
deriving DecidableEq, Repr

/-- Response model, `app/models/carpool.py` (`class CarpoolResponse`). -/
structure CarpoolResponse where
  date : String
  plan : List VehiclePlan
deriving DecidableEq, Repr

/-- One row of the working `DataFrame` built by `prepare_df`: the raw booking
(column `raw`), the resolved instants, and the cluster annotation columns
(`NaN` = `none`).  `idx` is the pandas row index. -/
structure Row where
  idx : Nat
  raw : Booking
  pickup_datetime : Option DT
  appointment_datetime : Option DT
  cluster_id : Option Nat
  group_key : Option String
deriving DecidableEq, Repr

/-! ### Generic list helpers mirroring the pandas primitives used. -/

/-- Stable insertion of `a` into a list sorted ascending by `key`; on ties the
already-present element (which came earlier in the original list) stays first.
This models the stability contract of Python `sorted` / pandas sorts. -/
def insertSortedBy {α : Type} (key : α → Int) (a : α) : List α → List α
  | [] => [a]
  | x :: xs => if key x < key a then x :: insertSortedBy key a xs else a :: x :: xs

/-- Stable sort, ascending by `key` (Python `sorted(iterable, key=...)`). -/
def sortedBy {α : Type} (key : α → Int) : List α → List α
  | [] => []
  | a :: rest => insertSortedBy key a (sortedBy key rest)

/-- Helper for `uniqueInOrder`: keep the values not seen yet, left to right. -/
def uniqueInOrderGo {α : Type} [DecidableEq α] (seen : List α) : List α → List α
  | [] => []
  | a :: rest =>
    if a ∈ seen then uniqueInOrderGo seen rest
    else a :: uniqueInOrderGo (a :: seen) rest

/-- Distinct values of a list in first-appearance order: pandas
`Series.unique()`. -/
def uniqueInOrder {α : Type} [DecidableEq α] (l : List α) : List α :=
  uniqueInOrderGo [] l

/-- Number of occurrences of `a` in `l`. -/
def countOcc (l : List String) (a : String) : Nat :=
  (l.filter (fun x => decide (x = a))).length

/-- pandas `Series.value_counts()`: distinct values with their multiplicities,
sorted by descending count, ties in first-appearance order. -/
def value_counts (l : List String) : List (String × Nat) :=
  sortedBy (fun p => -(p.2 : Int)) ((uniqueInOrder l).map (fun a => (a, countOcc l a)))

/-! ### `prepare_df` -/

/-- The `isin([None, "", "OPEN"])` test of `prepare_df` on a time column. -/
def isOpenTime : Option String → Bool
  | none => true
  | some s => decide (s = "" ∨ s = "OPEN")

/-- Resolved pickup instant of a booking: `prepare_df` leaves the
`pickup_datetime` cell `NaN` when the pickup time is absent/`""`/`"OPEN"`,
and otherwise stores the resolver's answer (`None` when it raised). -/
def resolvedPickup (resolve : String → String → String → Option DT)
    (date : String) (b : Booking) : Option DT :=
  if isOpenTime b.pickup_time then none
  else resolve date (b.pickup_time.getD "") b.pickup_address

/-- Resolved appointment instant (column `appointment_datetime`). -/
def resolvedAppointment (resolve : String → String → String → Option DT)
    (date : String) (b : Booking) : Option DT :=
  if isOpenTime b.appointment_time then none
  else resolve date (b.appointment_time.getD "") b.dropoff_address

/-- `prepare_df` of `app/services/carpool.py`.  On an empty booking list the
Python code raises a pandas `KeyError` (no columns), hence `none`. -/
def prepare_df (resolve : String → String → String → Option DT)
    (request : CarpoolRequest) : Option (List Row) :=
  if request.bookings.isEmpty then none
  else some <| request.bookings.enum.map fun p =>
    { idx := p.1
      raw := p.2
      pickup_datetime := resolvedPickup resolve request.date p.2
      appointment_datetime := resolvedAppointment resolve request.date p.2
      cluster_id := none
      group_key := none }

/-! ### `group_same_addresses` -/

/-- Dropoff pass of `group_same_addresses`: walk the `value_counts` items; for
each address with count > 1 stamp every row with that dropoff address with the
next cluster id and the `DROPOFF=<addr>` group key. -/
def assignDropoff : List (String × Nat) → List Row → Nat → List Row × Nat
  | [], df, cid => (df, cid)
  | (addr, cnt) :: rest, df, cid =>
    if cnt > 1 then
      assignDropoff rest
        (df.map fun r =>
          if r.raw.dropoff_address = addr then
            { r with cluster_id := some cid, group_key := some ("DROPOFF=" ++ addr) }
          else r)
        (cid + 1)
    else assignDropoff rest df cid

/-- Pickup pass of `group_same_addresses`: for each pickup address whose total
count exceeds 1, stamp the *still unclustered* rows with that pickup address;
the id advances only when the mask matched at least one row. -/
def assignPickup : List (String × Nat) → List Row → Nat → List Row × Nat
  | [], df, cid => (df, cid)
  | (addr, cnt) :: rest, df, cid =>
    if cnt > 1 then
      if df.any (fun r => r.cluster_id.isNone && decide (r.raw.pickup_address = addr)) then
        assignPickup rest
          (df.map fun r =>
            if r.cluster_id.isNone && decide (r.raw.pickup_address = addr) then
              { r with cluster_id := some cid, group_key := some ("PICKUP=" ++ addr) }
            else r)
          (cid + 1)
      else assignPickup rest df cid
    else assignPickup rest df cid

/-- `group_same_addresses` of `app/services/carpool.py`.  The result pairs the
rows with the presence of the `cluster_id` column: the column is created by the
first dropoff stamp (`df.loc[mask, "cluster_id"] = cluster_id` under
`if cnt > 1`), i.e. exactly when the dropoff counter moved past its initial 1.
When no dropoff stamp ran, the pickup loop's read
`df["cluster_id"].isna()` (executed for the first pickup address with
count > 1) raises `KeyError('cluster_id')` — the `none` outcome; when no
pickup address repeats either, the pass completes with the column still
absent. -/
def group_same_addresses (df : List Row) : Option (List Row × Bool) :=
  let drop_counts := value_counts (df.map (fun r => r.raw.dropoff_address))
  let pickup_counts := value_counts (df.map (fun r => r.raw.pickup_address))
  let d := assignDropoff drop_counts df 1
  if 1 < d.2 then some ((assignPickup pickup_counts d.1 d.2).1, true)
  else if pickup_counts.any (fun p => decide (1 < p.2)) then none
  else some (d.1, false)

/-! ### `group_close_coordinates` -/

/-- Largest assigned cluster id (`df["cluster_id"].dropna().max()`), 0 when
nothing is assigned (the caller guards that case). -/
def maxClusterId (df : List Row) : Nat :=
  (df.filterMap (fun r => r.cluster_id)).foldl max 0

/-- Body of `group_close_coordinates` of `app/services/carpool.py` once the
`cluster_id` column exists.  `kf` stands for `KMeans(...).fit_predict` on the
pickup coordinates of the unclustered rows; its zero-based labels are written
back offset by the next free cluster id. -/
def geoStamp (kf : List (Int × Int) → Nat → List Nat)
    (df : List Row) (n_clusters : Nat) : List Row :=
  let df_na := df.filter (fun r => r.cluster_id.isNone)
  if df_na.isEmpty then df
  else if df_na.length < n_clusters then df
  else
    let start := if (df.filterMap (fun r => r.cluster_id)).isEmpty then 1
                 else maxClusterId df + 1
    let labels := kf (df_na.map (fun r => (r.raw.pickup_latitude, r.raw.pickup_longitude))) n_clusters
    let pairs := (df_na.map (fun r => r.idx)).zip labels
    df.map fun r =>
      match pairs.lookup r.idx with
      | some lab =>
        { r with cluster_id := some (start + lab), group_key := some ("GEO-" ++ toString lab) }
      | none => r

/-- `group_close_coordinates` of `app/services/carpool.py`.  Its first
statement reads the `cluster_id` column (`mask = df["cluster_id"].isna()`), so
on a frame without that column it raises `KeyError('cluster_id')` — the `none`
outcome; `has_col` is the column's presence as produced by
`group_same_addresses`. -/
def group_close_coordinates (kf : List (Int × Int) → Nat → List Nat)
    (df : List Row) (has_col : Bool) (n_clusters : Nat) : Option (List Row) :=
  if has_col then some (geoStamp kf df n_clusters) else none

/-! ### The vehicle → trips accumulator (`Dict[Vehicle, List[Trip]]`) -/

/-- Insertion-ordered dictionary keyed by vehicles (compared by `id`). -/
abbrev VDict := List (Vehicle × List Trip)

/-- Membership test for a vehicle id among the dictionary keys. -/
def dictContains (d : VDict) (vid : String) : Bool :=
  d.any (fun e => decide (e.1.id = vid))

/-- Dictionary lookup (`result.get(v)` / `result[v]`): first entry whose key
has the given id. -/
def dictGet (d : VDict) (vid : String) : Option (List Trip) :=
  (d.find? (fun e => decide (e.1.id = vid))).map (fun e => e.2)

/-- `result[vehicle] = []`: replace the value of an existing key (keeping the
first key object, as a Python dict does) or append a fresh entry. -/
def dictSetEmpty (d : VDict) (v : Vehicle) : VDict :=
  if dictContains d v.id then
    d.map (fun e => if e.1.id = v.id then (e.1, ([] : List Trip)) else e)
  else d ++ [(v, [])]

/-- `result[current_vehicle].append(trip)`. -/
def dictAppendTrip : VDict → String → Trip → VDict
  | [], _, _ => []
  | e :: rest, vid, t =>
    if e.1.id = vid then (e.1, e.2 ++ [t]) :: rest
    else e :: dictAppendTrip rest vid t

/-- Replace the trips list of the (first) entry with the given id. -/
def dictSetTrips : VDict → String → List Trip → VDict
  | [], _, _ => []
  | e :: rest, vid, ts =>
    if e.1.id = vid then (e.1, ts) :: rest
    else e :: dictSetTrips rest vid ts

/-! ### `_find_vehicle_idx_with_less_trips` -/

/-- Loop body of `_find_vehicle_idx_with_less_trips`: `i` is the enumeration
counter, `min`/`min_idx` the running minimum (initially `999999999` and the
unbound `min_idx`, whose use before assignment is the `none` outcome). -/
def findIdxGo (result : VDict) : Nat → List Vehicle → Int → Option Nat → Option Nat
  | _, [], _, min_idx => min_idx
  | i, v :: vs, min, min_idx =>
    let trips := (dictGet result v.id).getD []
    if trips.isEmpty then some i
    else if (trips.length : Int) < min then findIdxGo result (i + 1) vs trips.length (some i)
    else findIdxGo result (i + 1) vs min min_idx

/-- `_find_vehicle_idx_with_less_trips` of `app/services/carpool.py`: the index
of the first vehicle with no trips yet, else the earliest index attaining the
minimum trip count; `none` models the `UnboundLocalError` raised when the
vehicle list is empty (`min_idx` never assigned). -/
def find_vehicle_idx_with_less_trips (vehicles : List Vehicle) (result : VDict) : Option Nat :=
  findIdxGo result 0 vehicles 999999999 none

/-! ### `assign_bookings_to_vehicles` -/

/-- The mutable locals of `assign_bookings_to_vehicles`: the shared accumulator
`result`, the round-robin position `idx_vehicle`, and the open `current_trip`. -/
structure PackState where
  result : VDict
  idx_vehicle : Nat
  current_trip : Option Trip
deriving Repr

/-- `close_current_vehicle`: append the open trip (if any) to the current
vehicle's list and advance the round-robin index. -/
def close_current_vehicle (vehicles : List Vehicle) (s : PackState) : PackState :=
  match s.current_trip with
  | some t =>
    { result := dictAppendTrip s.result (vehicles.getD s.idx_vehicle default).id t
      idx_vehicle := (s.idx_vehicle + 1) % vehicles.length
      current_trip := none }
  | none => s

/-- Body of the greedy loop over the time-sorted rows (step 2 of
`assign_bookings_to_vehicles`): open a trip, extend it when the booking fits
the wait window (measured from the trip's `start_time` anchor) and the current
vehicle's remaining capacity, otherwise close the trip and open a new one. -/
def pack_step (vehicles : List Vehicle) (max_wait_minutes : Int)
    (s : PackState) (r : Row) : PackState :=
  match s.current_trip with
  | none =>
    { s with current_trip := some { bookings := [r.raw], start_time := r.pickup_datetime } }
  | some t =>
    if r.pickup_datetime.getD 0 - t.start_time.getD 0 ≤ max_wait_minutes ∧
        (vehicles.getD s.idx_vehicle default).capacity ≥
          t.total_passengers + r.raw.passenger_count then
      { s with current_trip := some { t with bookings := t.bookings ++ [r.raw] } }
    else
      let s := close_current_vehicle vehicles s
      { s with current_trip := some { bookings := [r.raw], start_time := r.pickup_datetime } }

/-- Scan one vehicle's trips in creation order and append the booking to the
first trip the vehicle still has capacity for (step 3, inner loop). -/
def placeInTrips (cap : Int) (b : Booking) : List Trip → Option (List Trip)
  | [] => none
  | t :: rest =>
    if cap ≥ t.total_passengers + b.passenger_count then
      some ({ t with bookings := t.bookings ++ [b] } :: rest)
    else (placeInTrips cap b rest).map (fun ts => t :: ts)

/-- Scan vehicles in (capacity-sorted) order, trying `placeInTrips` on each
vehicle's accumulated trips. -/
def placeInExisting (d : VDict) (b : Booking) : List Vehicle → Option VDict
  | [] => none
  | v :: vs =>
    match placeInTrips v.capacity b ((dictGet d v.id).getD []) with
    | some ts => some (dictSetTrips d v.id ts)
    | none => placeInExisting d b vs

/-- Body of the loop over rows without a pickup instant (step 3 of
`assign_bookings_to_vehicles`): place into the first existing trip with spare
capacity, else open a fresh single-booking trip and close it immediately. -/
def fill_step (vehicles : List Vehicle) (s : PackState) (r : Row) : PackState :=
  match placeInExisting s.result r.raw vehicles with
  | some d => { s with result := d }
  | none =>
    close_current_vehicle vehicles
      { s with current_trip := some { bookings := [r.raw], start_time := none } }

/-- `assign_bookings_to_vehicles` of `app/services/carpool.py`, for one
cluster's rows against the shared accumulator.  `none` when
`_find_vehicle_idx_with_less_trips` raises (empty vehicle list). -/
def assign_bookings_to_vehicles (df : List Row) (vehicles : List Vehicle)
    (result : VDict) (max_wait_minutes : Int) : Option VDict :=
  let df_has_pickup :=
    sortedBy (fun r => r.pickup_datetime.getD 0) (df.filter (fun r => r.pickup_datetime.isSome))
  let df_no_pickup := df.filter (fun r => r.pickup_datetime.isNone)
  match find_vehicle_idx_with_less_trips vehicles result with
  | none => none
  | some i =>
    let s := df_has_pickup.foldl (pack_step vehicles max_wait_minutes)
      { result := result, idx_vehicle := i, current_trip := none }
    let s := close_current_vehicle vehicles s
    let s := df_no_pickup.foldl (fill_step vehicles) s
    some s.result

/-! ### `assign_to_vehicle` -/

/-- Cluster ids in the order `df_clustered["cluster_id"].unique()` yields them:
first appearance among the clustered rows. -/
def cluster_ids_order (df : List Row) : List Nat :=
  uniqueInOrder ((df.filter (fun r => r.cluster_id.isSome)).filterMap (fun r => r.cluster_id))

/-- The `for cluster_id in df_clustered["cluster_id"].unique()` loop: run
`assign_bookings_to_vehicles` on each cluster's rows in turn, threading the
shared accumulator. -/
def packClusters (clustered : List Row) (vehicles : List Vehicle)
    (max_wait_minutes : Int) : List Nat → VDict → Option VDict
  | [], result => some result
  | c :: cs, result =>
    match assign_bookings_to_vehicles
        (clustered.filter (fun r => decide (r.cluster_id = some c)))
        vehicles result max_wait_minutes with
    | none => none
    | some result => packClusters clustered vehicles max_wait_minutes cs result

/-- Body of step 3 of `assign_to_vehicle`: each non-clustered row becomes its
own trip on the current vehicle, then the index advances round-robin. -/
def distribute_step (vehicles : List Vehicle) (p : VDict × Nat) (r : Row) : VDict × Nat :=
  (dictAppendTrip p.1 (vehicles.getD p.2 default).id { bookings := [r.raw], start_time := none },
   (p.2 + 1) % vehicles.length)

/-- Body of `assign_to_vehicle` of `app/services/carpool.py` once the
`cluster_id` column exists. -/
def assign_to_vehicle_go (df : List Row) (vehicles : List Vehicle)
    (max_wait_minutes : Int) : Option (List VehiclePlan) :=
  let result : VDict := vehicles.foldl dictSetEmpty []
  let sorted_vehicles := sortedBy (fun v => -v.capacity) vehicles
  let clustered := df.filter (fun r => r.cluster_id.isSome)
  match packClusters clustered sorted_vehicles max_wait_minutes (cluster_ids_order df) result with
  | none => none
  | some result =>
    let non_clustered :=
      sortedBy (fun r => r.raw.passenger_count) (df.filter (fun r => r.cluster_id.isNone))
    match find_vehicle_idx_with_less_trips sorted_vehicles result with
    | none => none
    | some i =>
      let p := non_clustered.foldl (distribute_step sorted_vehicles) (result, i)
      some (p.1.map (fun e => { vehicle := e.1, trips := e.2 }))

/-- `assign_to_vehicle` of `app/services/carpool.py`.  Its step 2 reads the
`cluster_id` column unconditionally (`df[df["cluster_id"].notna()]`), so on a
frame without that column it raises `KeyError('cluster_id')` — the `none`
outcome; `has_col` is the column's presence as produced by the grouping
passes. -/
def assign_to_vehicle (df : List Row) (has_col : Bool) (vehicles : List Vehicle)
    (max_wait_minutes : Int) : Option (List VehiclePlan) :=
  if has_col then assign_to_vehicle_go df vehicles max_wait_minutes else none

/-! ### `calculate` -/

/-- `calculate` of `app/services/carpool.py`: the whole pipeline, parametrised
by the external resolver and the k-means labelling.  Each stage's `none`
(resolver-independent `KeyError` of `prepare_df` on an empty booking list,
`KeyError('cluster_id')` of the grouping/assignment stages on a frame whose
dropoff pass never created the column, `UnboundLocalError` of
`_find_vehicle_idx_with_less_trips` on an empty fleet) aborts the request with
no plan. -/
def calculate (resolve : String → String → String → Option DT)
    (kf : List (Int × Int) → Nat → List Nat)
    (request : CarpoolRequest) : Option CarpoolResponse :=
  match prepare_df resolve request with
  | none => none
  | some df =>
    match group_same_addresses df with
    | none => none
    | some p =>
      let config := request.config.getD {}
      match (if config.pool_neighbors then
          group_close_coordinates kf p.1 p.2 config.geo_clusters
        else some p.1) with
      | none => none
      | some df2 =>
        (assign_to_vehicle df2 p.2 request.vehicles config.max_wait_minutes).map
          (fun plan => { date := request.date, plan := plan })

/-- Model validation performed before the engine runs
(`app/models/carpool.py` + FastAPI): the pydantic models declare only field
types — no `min_length` on `vehicles`, no positivity bound on
`Vehicle.capacity`, no lower bound on `Booking.passenger_count` — so every
structurally well-typed request (every value of `CarpoolRequest` in this
embedding) passes validation. -/
def request_model_validates (_ : CarpoolRequest) : Bool := true

end CarpoolPoc

namespace CarpoolPoc

/-! ### Derived observations on plans and accumulator states -/

/-- All bookings of a trips list, in trip and in-trip order. -/
def tripsBookings (ts : List Trip) : List Booking :=
  (ts.map (fun t => t.bookings)).flatten

/-- All bookings stored in the accumulator. -/
def dictBookings (d : VDict) : List Booking :=
  (d.map (fun e => tripsBookings e.2)).flatten

/-- All bookings held by a packing state (accumulator plus open trip). -/
def stateBookings (s : PackState) : List Booking :=
  dictBookings s.result ++ (match s.current_trip with | some t => t.bookings | none => [])

/-- All bookings appearing across a plan's trips. -/
def planBookings (plan : List VehiclePlan) : List Booking :=
  (plan.map (fun vp => tripsBookings vp.trips)).flatten

/-- Capacity predicate of the spec: every trip's passenger total is at most
the capacity of the vehicle it is assigned to. -/
def planCapacityOk (plan : List VehiclePlan) : Bool :=
  plan.all fun vp => vp.trips.all fun t => t.total_passengers ≤ vp.vehicle.capacity

/-- Wait-window predicate of the spec: in every anchored trip, every member
booking with a resolved pickup instant is within `mw` minutes of the anchor. -/
def planWindowOk (resolve : String → String → String → Option DT) (date : String)
    (mw : Int) (plan : List VehiclePlan) : Bool :=
  plan.all fun vp => vp.trips.all fun t =>
    match t.start_time with
    | none => true
    | some a => t.bookings.all fun b =>
        match resolvedPickup resolve date b with
        | none => true
        | some p => p - a ≤ mw

/-- Trip count of each vehicle plan, in plan order. -/
def tripCounts (plan : List VehiclePlan) : List Nat :=
  plan.map fun vp => vp.trips.length

/-- Number of trips accumulated for a vehicle id. -/
def countTrips (d : VDict) (vid : String) : Nat :=
  ((dictGet d vid).getD []).length

/-- Trip count per vehicle of the accumulator, read in the order of `vehicles`. -/
def countsIn (vehicles : List Vehicle) (d : VDict) : List Nat :=
  vehicles.map fun v => countTrips d v.id

/-- Positional form of the round-robin load shape: reading the accumulator in
the order of `vehicles`, the first `m` vehicles hold `q+1` trips and the rest
hold `q`. -/
def PosShape (vehicles : List Vehicle) (d : VDict) (q m : Nat) : Prop :=
  ∀ j, (hj : j < vehicles.length) →
    countTrips d (vehicles.get ⟨j, hj⟩).id = if j < m then q + 1 else q

/-- Balanced load in the sense of the spec: any two per-vehicle trip counts
differ by at most 1. -/
def balancedCounts (l : List Nat) : Bool :=
  l.all fun a => l.all fun b => a ≤ b + 1

/-- Do two booking ids share one trip of the plan? -/
def inSameTrip (plan : List VehiclePlan) (i1 i2 : String) : Bool :=
  plan.any fun vp => vp.trips.any fun t =>
    (t.bookings.any fun b => decide (b.id = i1)) && (t.bookings.any fun b => decide (b.id = i2))

/-- Ascending order of a list of cluster ids, as the spec's words
"in ascending numeric order" read. -/
def isAscending : List Nat → Bool
  | [] => true
  | [_] => true
  | a :: b :: rest => decide (a ≤ b) && isAscending (b :: rest)

/-- Helper for `dedupByVid`: drop vehicles whose id was already seen. -/
def dedupByVidGo (seen : List String) : List Vehicle → List Vehicle
  | [] => []
  | v :: vs => if v.id ∈ seen then dedupByVidGo seen vs else v :: dedupByVidGo (v.id :: seen) vs

/-- Stated from the claim's words (refinement reference): one vehicle per
distinct identifier, keeping the first entry bearing each id, in input order. -/
def dedupByVid (vs : List Vehicle) : List Vehicle := dedupByVidGo [] vs

/-- Contract of the k-means labelling on `n` samples and `k` clusters: one
zero-based label per sample, every label below `k`, every cluster inhabited. -/
def kmeansLabelsValid (n k : Nat) (labels : List Nat) : Bool :=
  decide (labels.length = n) && (labels.all fun l => decide (l < k)) &&
    ((List.range k).all fun l => labels.contains l)

/-! ### Concrete inputs used by scenarios, counterexamples and witnesses -/

/-- Booking literal with the fields the engine inspects; coordinates zero. -/
def mkBooking (bid : String) (pt : Option String) (pa da : String) (pc : Int) : Booking :=
  { id := bid, client_name := bid, pickup_time := pt, pickup_address := pa,
    pickup_latitude := 0, pickup_longitude := 0, appointment_time := none,
    dropoff_address := da, dropoff_latitude := 0, dropoff_longitude := 0,
    passenger_count := pc }

/-- Booking literal with explicit pickup coordinates, 9:00 AM pickup. -/
def mkGeoBooking (bid : String) (lat lng : Int) : Booking :=
  { id := bid, client_name := bid, pickup_time := some "9:00 AM",
    pickup_address := "P" ++ bid ++ " 10001", pickup_latitude := lat, pickup_longitude := lng,
    appointment_time := none, dropoff_address := "D" ++ bid ++ " 10001",
    dropoff_latitude := 0, dropoff_longitude := 0, passenger_count := 1 }

/-- Concrete stand-in for the address/time resolver: a lookup table for the
few clock times the concrete requests use (ZIP 10001 resolves). -/
def rvT : String → String → String → Option DT := fun _ t _ =>
  if t = "9:00 AM" then some 540 else if t = "9:10 AM" then some 550
  else if t = "9:40 AM" then some 580 else if t = "11:00 AM" then some 660 else none

/-- Degenerate k-means stand-in for runs where the geo step is off. -/
def kf0 : List (Int × Int) → Nat → List Nat := fun _ _ => []

/-- Scenario request of the spec: three bookings sharing a dropoff at 9:00,
9:10 and 9:40, one vehicle of capacity 4, `max_wait_minutes = 30`. -/
def req3 : CarpoolRequest :=
  { date := "01/02/2026"
    bookings := [mkBooking "B1" (some "9:00 AM") "P1 10001" "123 Main St 10001" 1,
                 mkBooking "B2" (some "9:10 AM") "P2 10001" "123 Main St 10001" 1,
                 mkBooking "B3" (some "9:40 AM") "P3 10001" "123 Main St 10001" 1]
    vehicles := [{ id := "V1", capacity := 4 }]
    config := some { max_wait_minutes := 30 } }

/-- Expected response for `req3`, as the spec's scenario dictates: trip
[9:00, 9:10] anchored at 9:00, then trip [9:40] anchored at 9:40, both on the
single vehicle. -/
def resp3 : CarpoolResponse :=
  { date := "01/02/2026"
    plan := [{ vehicle := { id := "V1", capacity := 4 }
               trips := [{ bookings := [mkBooking "B1" (some "9:00 AM") "P1 10001" "123 Main St 10001" 1,
                                        mkBooking "B2" (some "9:10 AM") "P2 10001" "123 Main St 10001" 1]
                           start_time := some 540 },
                         { bookings := [mkBooking "B3" (some "9:40 AM") "P3 10001" "123 Main St 10001" 1]
                           start_time := some 580 }] }] }

/-- Same cluster shape with a negative configured wait window. -/
def req3n : CarpoolRequest :=
  { date := "01/02/2026"
    bookings := [mkBooking "B1" (some "9:00 AM") "P1 10001" "123 Main St 10001" 1,
                 mkBooking "B2" (some "9:10 AM") "P2 10001" "123 Main St 10001" 1]
    vehicles := [{ id := "V1", capacity := 4 }]
    config := some { max_wait_minutes := -1 } }

/-- A five-passenger and a one-passenger booking sharing a dropoff address (so
the dropoff pass forms a cluster and the run completes), one vehicle of
capacity 4: the packer opens the trip `[B1]` with 5 passengers on a capacity-4
vehicle without any check. -/
def req2 : CarpoolRequest :=
  { date := "01/02/2026"
    bookings := [mkBooking "B1" (some "9:00 AM") "P1 10001" "D1 10001" 5,
                 mkBooking "B2" (some "9:10 AM") "P2 10001" "D1 10001" 1]
    vehicles := [{ id := "V1", capacity := 4 }]
    config := none }

/-- Two bookings sharing a dropoff, pickups two hours apart, roomy vehicle. -/
def req5 : CarpoolRequest :=
  { date := "01/02/2026"
    bookings := [mkBooking "B1" (some "9:00 AM") "P1 10001" "123 Main St 10001" 1,
                 mkBooking "B2" (some "11:00 AM") "P2 10001" "123 Main St 10001" 1]
    vehicles := [{ id := "V1", capacity := 10 }]
    config := some { max_wait_minutes := 30 } }

/-- Five bookings over two shared dropoff addresses, arranged so that the
less frequent address appears first in the input. -/
def req7 : CarpoolRequest :=
  { date := "01/02/2026"
    bookings := [mkBooking "B1" none "P1 10001" "X 10001" 1,
                 mkBooking "B2" none "P2 10001" "Y 10001" 1,
                 mkBooking "B3" none "P3 10001" "Y 10001" 1,
                 mkBooking "B4" none "P4 10001" "X 10001" 1,
                 mkBooking "B5" none "P5 10001" "Y 10001" 1]
    vehicles := [{ id := "V1", capacity := 4 }]
    config := none }

/-- A fleet with a duplicated vehicle id, one two-trip cluster. -/
def req4 : CarpoolRequest :=
  { date := "01/02/2026"
    bookings := [mkBooking "B1" (some "9:00 AM") "P1 10001" "123 Main St 10001" 1,
                 mkBooking "B2" (some "9:40 AM") "P2 10001" "123 Main St 10001" 1]
    vehicles := [{ id := "A", capacity := 5 }, { id := "A", capacity := 5 },
                 { id := "B", capacity := 4 }]
    config := some { max_wait_minutes := 30 } }

/-- Expected response for `req4`: both round-robin slots of the duplicated
id `A` feed the single accumulator entry `A`, so `A` carries both trips and
`B` none, and the plan lists one entry per distinct id (first occurrence). -/
def resp4 : CarpoolResponse :=
  { date := "01/02/2026"
    plan := [{ vehicle := { id := "A", capacity := 5 }
               trips := [{ bookings := [mkBooking "B1" (some "9:00 AM") "P1 10001" "123 Main St 10001" 1]
                           start_time := some 540 },
                         { bookings := [mkBooking "B2" (some "9:40 AM") "P2 10001" "123 Main St 10001" 1]
                           start_time := some 580 }] },
             { vehicle := { id := "B", capacity := 4 }
               trips := [] }] }

/-- A structurally broken request: empty vehicle list (the two bookings share
a dropoff, so the run reaches the packer, whose
`_find_vehicle_idx_with_less_trips` then raises `UnboundLocalError`). -/
def req8 : CarpoolRequest :=
  { date := "01/02/2026"
    bookings := [mkBooking "B1" (some "9:00 AM") "P1 10001" "D1 10001" 1,
                 mkBooking "B2" (some "9:10 AM") "P2 10001" "D1 10001" 1]
    vehicles := []
    config := none }

/-- A structurally broken request: capacity 0 and passenger counts −1 (the two
bookings share a dropoff, so the engine runs to completion and silently
produces a plan). -/
def req8b : CarpoolRequest :=
  { date := "01/02/2026"
    bookings := [mkBooking "B1" (some "9:00 AM") "P1 10001" "D1 10001" (-1),
                 mkBooking "B2" (some "9:10 AM") "P2 10001" "D1 10001" (-1)]
    vehicles := [{ id := "V1", capacity := 0 }]
    config := none }

/-- Two bookings sharing a dropoff (so the dropoff pass creates the
`cluster_id` column and the run completes) plus four geo bookings at the
corners of a 1×4 rectangle, with `pool_neighbors` on and two geo clusters:
both the left/right and the top/bottom split of the four unclustered rows are
stable k-means partitions. -/
def req9 : CarpoolRequest :=
  { date := "01/02/2026"
    bookings := [mkBooking "A1" (some "9:00 AM") "PA1 10001" "DD 10001" 1,
                 mkBooking "A2" (some "9:10 AM") "PA2 10001" "DD 10001" 1,
                 mkGeoBooking "B1" 0 0, mkGeoBooking "B2" 0 4,
                 mkGeoBooking "B3" 1 0, mkGeoBooking "B4" 1 4]
    vehicles := [{ id := "V1", capacity := 4 }]
    config := some { max_wait_minutes := 60, pool_neighbors := true, geo_clusters := 2 } }

/-- Left/right k-means outcome on the four unclustered rows of `req9`. -/
def kfA : List (Int × Int) → Nat → List Nat := fun _ _ => [0, 0, 1, 1]

/-- Top/bottom k-means outcome on the four unclustered rows of `req9`. -/
def kfB : List (Int × Int) → Nat → List Nat := fun _ _ => [0, 1, 0, 1]

/-! ### Predicates used by the invariant proofs -/

/-- Key objects of the accumulator, in insertion order. -/
def dictKeys (d : VDict) : List Vehicle := d.map fun e => e.1

/-- Core columns of a row: everything the annotators never touch. -/
def rowCore (r : Row) : Nat × Booking × Option DT × Option DT :=
  (r.idx, r.raw, r.pickup_datetime, r.appointment_datetime)

/-- Wait-window property of one trip, relative to a pickup resolution `rp`:
every member with a resolved pickup lies within `mw` of the anchor. -/
def TripWin (rp : Booking → Option DT) (mw : Int) (t : Trip) : Prop :=
  ∀ a, t.start_time = some a → ∀ b ∈ t.bookings, ∀ p, rp b = some p → p - a ≤ mw

/-- Capacity property of one trip against a capacity bound, with the
single-booking escape hatch the code actually guarantees. -/
def TripCapOk (cap : Int) (t : Trip) : Prop :=
  t.total_passengers ≤ cap ∨ t.bookings.length = 1

/-- Every trip of the accumulator satisfies `Q` for its entry's vehicle. -/
def DictAll (Q : Vehicle → Trip → Prop) (d : VDict) : Prop :=
  ∀ e ∈ d, ∀ t ∈ e.2, Q e.1 t

/-- Some trip of the accumulator contains all bookings of `S`. -/
def dictHasTripWith (d : VDict) (S : List Booking) : Prop :=
  ∃ e ∈ d, ∃ t ∈ e.2, ∀ b ∈ S, b ∈ t.bookings

/-- Some trip of the plan contains all bookings of `S`. -/
def planHasTripWith (plan : List VehiclePlan) (S : List Booking) : Prop :=
  ∃ vp ∈ plan, ∃ t ∈ vp.trips, ∀ b ∈ S, b ∈ t.bookings

/-- Load shape maintained by the round-robin: the counts, read in
capacity-sorted vehicle order, are `q+1` on a proper prefix and `q` after it. -/
def ShapeCounts (n : Nat) (counts : List Nat) : Prop :=
  ∃ q m, m < n ∧ counts = List.replicate m (q + 1) ++ List.replicate (n - m) q

/-- Total loop work `packClusters` performs on the given cluster ids: the rows
of each cluster plus one trip-closing per cluster.  It bounds the number of
trip-closing events, and hence every per-vehicle trip count, which must stay
below the `999999999` sentinel of `_find_vehicle_idx_with_less_trips`. -/
def packWeight (clustered : List Row) (cids : List Nat) : Nat :=
  (cids.map (fun c =>
    (clustered.filter (fun r => decide (r.cluster_id = some c))).length + 1)).sum

/-- The accumulator invariant of the round-robin: every vehicle id is a key of
the accumulator and the trip counts have positional shape `(q, m)` with the
boundary `m` strictly inside the vehicle list. -/
def ShapeAt (vehicles : List Vehicle) (d : VDict) (q m : Nat) : Prop :=
  m < vehicles.length ∧ (∀ v ∈ vehicles, dictContains d v.id = true) ∧
    PosShape vehicles d q m

/-- `ShapeAt` lifted to the packer state: the round-robin index sits exactly at
the shape boundary. -/
def PackShape (vehicles : List Vehicle) (s : PackState) (q m : Nat) : Prop :=
  ShapeAt vehicles s.result q m ∧ s.idx_vehicle = m

/-- Two distinct-id vehicles, for exercising the balance theorem. -/
def c4vehiclesW : List Vehicle :=
  [{ id := "A", capacity := 4 }, { id := "B", capacity := 4 }]

/-- Two one-row clusters, for exercising the balance theorem. -/
def c4rowsW : List Row :=
  [{ idx := 0, raw := mkBooking "b1" (some "9:00 AM") "P1" "D1" 1,
     pickup_datetime := some 540, appointment_datetime := none,
     cluster_id := some 0, group_key := some "D1" },
   { idx := 1, raw := mkBooking "b2" (some "11:00 AM") "P2" "D2" 1,
     pickup_datetime := some 660, appointment_datetime := none,
     cluster_id := some 1, group_key := some "D2" }]

/-- The accumulator `packClusters` produces on the two one-row clusters. -/
def c4dW : VDict :=
  (packClusters c4rowsW c4vehiclesW 0 [0, 1] (c4vehiclesW.foldl dictSetEmpty [])).getD []

/-- Trip-content refinement between accumulators: every trip of `d` has a
trip of `d2` holding at least the same bookings.  All accumulator operations
of the engine only append trips or grow a trip's booking list, so this order
is preserved from any intermediate state to the final plan. -/
def dictSub (d d2 : VDict) : Prop :=
  ∀ e ∈ d, ∀ t ∈ e.2, ∃ e2 ∈ d2, ∃ t2 ∈ e2.2, ∀ b ∈ t.bookings, b ∈ t2.bookings

/-- Unclustered three-row frame whose first two rows share the dropoff
address `D`: input for the dropoff-cohesion witness. -/
def c5dfW : List Row :=
  [{ idx := 0, raw := mkBooking "a" (some "9:00 AM") "P1" "D" 1,
     pickup_datetime := some 540, appointment_datetime := none,
     cluster_id := none, group_key := none },
   { idx := 1, raw := mkBooking "b" (some "9:10 AM") "P2" "D" 1,
     pickup_datetime := some 550, appointment_datetime := none,
     cluster_id := none, group_key := none },
   { idx := 2, raw := mkBooking "c" (some "9:40 AM") "P3" "E" 1,
     pickup_datetime := some 580, appointment_datetime := none,
     cluster_id := none, group_key := none }]

/-- Unclustered four-row frame whose first two rows share the dropoff address
`D` (so the dropoff pass creates the `cluster_id` column) and whose last two
rows share the pickup address `P` with distinct dropoffs (so the pickup pass
stamps them): input for the pickup-cohesion witness. -/
def c5dfW2 : List Row :=
  [{ idx := 0, raw := mkBooking "a" (some "9:00 AM") "P1" "D" 1,
     pickup_datetime := some 540, appointment_datetime := none,
     cluster_id := none, group_key := none },
   { idx := 1, raw := mkBooking "b" (some "9:10 AM") "P2" "D" 1,
     pickup_datetime := some 550, appointment_datetime := none,
     cluster_id := none, group_key := none },
   { idx := 2, raw := mkBooking "c" (some "9:40 AM") "P" "E1" 1,
     pickup_datetime := some 580, appointment_datetime := none,
     cluster_id := none, group_key := none },
   { idx := 3, raw := mkBooking "d" (some "9:50 AM") "P" "E2" 1,
     pickup_datetime := some 590, appointment_datetime := none,
     cluster_id := none, group_key := none }]

/-- A two-row cluster (id 1) for the single-trip witness. -/
def c5dfW3 : List Row :=
  [{ idx := 0, raw := mkBooking "a" (some "9:00 AM") "P1" "D" 1,
     pickup_datetime := some 540, appointment_datetime := none,
     cluster_id := some 1, group_key := some "DROPOFF=D" },
   { idx := 1, raw := mkBooking "b" (some "9:10 AM") "P2" "D" 1,
     pickup_datetime := some 550, appointment_datetime := none,
     cluster_id := some 1, group_key := some "DROPOFF=D" }]

/-- One vehicle with room for the whole two-row cluster. -/
def c5vehW : List Vehicle := [{ id := "V", capacity := 4 }]

/-- First row of `c5dfW` as the dropoff pass stamps it. -/
def c5r1W : Row :=
  { idx := 0, raw := mkBooking "a" (some "9:00 AM") "P1" "D" 1,
    pickup_datetime := some 540, appointment_datetime := none,
    cluster_id := some 1, group_key := some "DROPOFF=D" }

/-- Second row of `c5dfW` as the dropoff pass stamps it. -/
def c5r2W : Row :=
  { idx := 1, raw := mkBooking "b" (some "9:10 AM") "P2" "D" 1,
    pickup_datetime := some 550, appointment_datetime := none,
    cluster_id := some 1, group_key := some "DROPOFF=D" }

/-- Third row of `c5dfW2` as the pickup pass stamps it (the dropoff pass used
id 1, so the pickup cluster gets id 2). -/
def c5rP0W : Row :=
  { idx := 2, raw := mkBooking "c" (some "9:40 AM") "P" "E1" 1,
    pickup_datetime := some 580, appointment_datetime := none,
    cluster_id := some 2, group_key := some "PICKUP=P" }

/-- Fourth row of `c5dfW2` as the pickup pass stamps it. -/
def c5rP1W : Row :=
  { idx := 3, raw := mkBooking "d" (some "9:50 AM") "P" "E2" 1,
    pickup_datetime := some 590, appointment_datetime := none,
    cluster_id := some 2, group_key := some "PICKUP=P" }

/-- The output frame of `group_same_addresses` on `c5dfW` (column created by
the dropoff pass). -/
def c5outW : List Row × Bool := (group_same_addresses c5dfW).getD ([], false)

/-- The output frame of `group_same_addresses` on `c5dfW2`. -/
def c5outW2 : List Row × Bool := (group_same_addresses c5dfW2).getD ([], false)

/-- A deterministic two-cluster labelling standing for `fit_predict`. -/
def c6kfW : List (Int × Int) → Nat → List Nat := fun _ _ => [0, 0]

/-- A frame with one address-clustered row and two unclustered rows, input of
the geo pass. -/
def c6dfaW : List Row :=
  [c5r1W,
   { idx := 1, raw := mkBooking "x" (some "9:10 AM") "PX" "DX" 1,
     pickup_datetime := some 550, appointment_datetime := none,
     cluster_id := none, group_key := none },
   { idx := 2, raw := mkBooking "y" (some "9:40 AM") "PY" "DY" 1,
     pickup_datetime := some 580, appointment_datetime := none,
     cluster_id := none, group_key := none }]

/-- Second row of `c6dfaW` as the geo pass stamps it (offset 2 = max id + 1). -/
def c6g1W : Row :=
  { idx := 1, raw := mkBooking "x" (some "9:10 AM") "PX" "DX" 1,
    pickup_datetime := some 550, appointment_datetime := none,
    cluster_id := some 2, group_key := some "GEO-0" }

/-- Third row of `c6dfaW` as the geo pass stamps it. -/
def c6g2W : Row :=
  { idx := 2, raw := mkBooking "y" (some "9:40 AM") "PY" "DY" 1,
    pickup_datetime := some 580, appointment_datetime := none,
    cluster_id := some 2, group_key := some "GEO-0" }

/-- The geo pass output on `c6dfaW` (the frame's `cluster_id` column exists). -/
def c6outW : List Row := geoStamp c6kfW c6dfaW 2

/-- The plan produced on the two-row cluster (the frame's `cluster_id` column
exists). -/
def c5planW : List VehiclePlan := (assign_to_vehicle c5dfW3 true c5vehW 30).getD []

end CarpoolPoc

namespace CarpoolPoc

/-! ### Claim C2 — capacity invariant (counterexample) -/

/-- Claim C2 as stated is false on the code: on `req2` (a five-passenger and a
one-passenger booking sharing a dropoff — the dropoff pass forms a cluster, so
the run completes — and one vehicle of capacity 4) the produced plan contains
a trip whose passenger total exceeds the capacity of the vehicle it is
assigned to: the packer opens the trip `[B1]` with 5 > 4 passengers without
any capacity check (capacity is only checked when appending to a non-empty
trip). -/
theorem c2_capacity_counterexample :
    (calculate rvT kf0 req2).map (fun r => planCapacityOk r.plan) = some false := by
  decide

/-! ### Claim C3 — wait-window bound (counterexample) -/

/-- Claim C3 as stated is false on the code when the configured window is
negative: on `req3n` (`max_wait_minutes = -1`) the packer still opens a trip
anchored at its first booking, whose own pickup instant violates
`pickup − anchor ≤ max_wait_minutes` (`0 ≤ -1` fails). -/
theorem c3_window_counterexample :
    (calculate rvT kf0 req3n).map
        (fun r => planWindowOk rvT req3n.date (req3n.config.getD {}).max_wait_minutes r.plan)
      = some false := by
  decide

/-! ### Claim C4 — round-robin balance (counterexample) -/

/-- Claim C4 as stated is false on the code when the vehicle list repeats an
identifier: on `req4` (vehicles `A`, `A`, `B`; one cluster yielding two trips)
both round-robin slots of the duplicated id feed the single dict entry `A`,
so after packing the only cluster the per-vehicle trip counts are `A ↦ 2`,
`B ↦ 0`, which differ by more than 1 (nothing later changes the accumulator:
the final plan shows those counts). -/
theorem c4_balance_counterexample :
    (calculate rvT kf0 req4).map
        (fun r => (r.plan.map fun vp => (vp.vehicle.id, vp.trips.length),
                   balancedCounts (tripCounts r.plan)))
      = some ([("A", 2), ("B", 0)], false) := by
  decide

/-! ### Claim C5 — address cohesion (counterexample) -/

/-- Claim C5 as stated is false on the code: on `req5` the two bookings share
dropoff address `123 Main St 10001` (count 2 > 1) and do receive the same
cluster id, and capacity permits riding together (2 ≤ 10), yet the pickup
instants lie 120 minutes apart with a 30-minute window, so the packer puts
them in different trips of the final plan. -/
theorem c5_cohesion_counterexample :
    ((prepare_df rvT req5).map fun df =>
        (group_same_addresses df).map fun out => out.1.map fun r => r.cluster_id)
        = some (some [some 1, some 1])
      ∧ (req5.vehicles.all fun v =>
          (req5.bookings.map fun b => b.passenger_count).sum ≤ v.capacity) = true
      ∧ (calculate rvT kf0 req5).map (fun r => inSameTrip r.plan "B1" "B2") = some false := by
  decide

/-! ### Claim C7 — per-cluster invocation order (counterexample) -/

/-- Claim C7 as stated is false on the code: `assign_to_vehicle` iterates
`df_clustered["cluster_id"].unique()`, i.e. first-appearance order.  On `req7`
the more frequent dropoff address `Y` receives cluster id 1 and the earlier-
appearing address `X` id 2, so the clusters are processed in order `[2, 1]`,
not ascending. -/
theorem c7_order_counterexample :
    ((prepare_df rvT req7).map fun df =>
        (group_same_addresses df).map fun out => cluster_ids_order out.1)
        = some (some [2, 1])
      ∧ ((prepare_df rvT req7).map fun df =>
          (group_same_addresses df).map fun out =>
            isAscending (cluster_ids_order out.1)) = some (some false) := by
  decide

/-! ### Claim C8 — structural validation (code bug) -/

/-- Claim C8 names the intended behaviour (spec §7: structural errors "must be
rejected before the engine runs, with a validation error"), but the pydantic
models declare no such constraints: the empty-fleet request `req8` (whose
shared-dropoff bookings carry the run into the packer) passes model validation
and then crashes inside the engine (`_find_vehicle_idx_with_less_trips` never
assigns `min_idx` — `UnboundLocalError`, surfaced as HTTP 500, not a
validation error), while `req8b` (capacity 0, passenger counts −1, again a
cluster-forming run) is accepted and the engine happily produces a plan. -/
theorem c8_validation_gap :
    request_model_validates req8 = true ∧ calculate rvT kf0 req8 = none
      ∧ request_model_validates req8b = true ∧ (calculate rvT kf0 req8b).isSome = true := by
  decide

/-! ### Claim C9 — determinism (counterexample and amended theorem) -/

/-- Claim C9 as stated is false on the code when `pool_neighbors` is enabled:
on `req9` (whose shared-dropoff pair creates the `cluster_id` column, so the
run reaches the k-means step on the four remaining unclustered rows) the code
calls `KMeans` with `random_state=None`, so two runs on the identical request
may legitimately return either of the two stable partitions `kfA` (left/right)
and `kfB` (top/bottom) — both satisfy the k-means output contract — and the
resulting plans differ. -/
theorem c9_determinism_counterexample :
    kmeansLabelsValid 4 2 [0, 0, 1, 1] = true
      ∧ kmeansLabelsValid 4 2 [0, 1, 0, 1] = true
      ∧ calculate rvT kfA req9 ≠ calculate rvT kfB req9 := by
  decide

/-- Claim C9 amended: with `pool_neighbors` disabled (the default) the plan is
a function of the request and resolver alone — the k-means primitive, the only
randomized component, is never consulted — so identical runs coincide. -/
theorem c9_deterministic_without_pooling
    (resolve : String → String → String → Option DT)
    (kf1 kf2 : List (Int × Int) → Nat → List Nat) (request : CarpoolRequest)
    (h : (request.config.getD {}).pool_neighbors = false) :
    calculate resolve kf1 request = calculate resolve kf2 request := by
  cases hdf : prepare_df resolve request with
  | none => simp only [calculate, hdf]
  | some df =>
    cases hgsa : group_same_addresses df with
    | none => simp only [calculate, hdf, hgsa]
    | some out => simp only [calculate, hdf, hgsa, h, Bool.false_eq_true, if_false]

/-- Witness for `c9_deterministic_without_pooling` at the concrete request
`req2`, whose configuration leaves `pool_neighbors` at its default `false`. -/
theorem c9_deterministic_without_pooling_witness :
    calculate rvT kfA req2 = calculate rvT kfB req2 :=
  c9_deterministic_without_pooling rvT kfA kfB req2 (by decide)

end CarpoolPoc

namespace CarpoolPoc

/-! ### Generic helper lemmas -/

theorem insertSortedBy_perm {α : Type} (key : α → Int) (a : α) (l : List α) :
    List.Perm (insertSortedBy key a l) (a :: l) := by
  induction l with
  | nil => exact List.Perm.refl _
  | cons x xs ih =>
    simp only [insertSortedBy]
    split
    · exact (ih.cons x).trans (List.Perm.swap a x xs)
    · exact List.Perm.refl _

theorem sortedBy_perm {α : Type} (key : α → Int) (l : List α) :
    List.Perm (sortedBy key l) l := by
  induction l with
  | nil => exact List.Perm.refl _
  | cons a rest ih => exact (insertSortedBy_perm key a _).trans (ih.cons a)

theorem mem_sortedBy {α : Type} {key : α → Int} {l : List α} {x : α} :
    x ∈ sortedBy key l ↔ x ∈ l :=
  (sortedBy_perm key l).mem_iff

/-! ### Accumulator bookkeeping lemmas -/

theorem dictBookings_cons (e : Vehicle × List Trip) (rest : VDict) :
    dictBookings (e :: rest) = tripsBookings e.2 ++ dictBookings rest := rfl

theorem tripsBookings_append (ts : List Trip) (t : Trip) :
    tripsBookings (ts ++ [t]) = tripsBookings ts ++ t.bookings := by
  simp [tripsBookings]

theorem dictKeys_appendTrip (d : VDict) (vid : String) (t : Trip) :
    dictKeys (dictAppendTrip d vid t) = dictKeys d := by
  induction d with
  | nil => rfl
  | cons e rest ih =>
    simp only [dictAppendTrip]
    split
    · rfl
    · simpa [dictKeys] using congrArg (List.cons e.1) (by simpa [dictKeys] using ih)

theorem dictKeys_setTrips (d : VDict) (vid : String) (ts : List Trip) :
    dictKeys (dictSetTrips d vid ts) = dictKeys d := by
  induction d with
  | nil => rfl
  | cons e rest ih =>
    simp only [dictSetTrips]
    split
    · rfl
    · simpa [dictKeys] using congrArg (List.cons e.1) (by simpa [dictKeys] using ih)

theorem dictContains_eq (d : VDict) (vid : String) :
    dictContains d vid = true ↔ ∃ v ∈ dictKeys d, v.id = vid := by
  simp [dictContains, dictKeys, List.any_eq_true]

theorem dictContains_keys (d : VDict) (vid : String) :
    dictContains d vid = (dictKeys d).any (fun v => decide (v.id = vid)) := by
  simp only [dictContains, dictKeys]
  induction d with
  | nil => rfl
  | cons e rest ih => simp [List.any_cons, ih]

theorem dictBookings_appendTrip (d : VDict) (vid : String) (t : Trip)
    (h : dictContains d vid = true) :
    List.Perm (dictBookings (dictAppendTrip d vid t)) (dictBookings d ++ t.bookings) := by
  induction d with
  | nil => simp [dictContains] at h
  | cons e rest ih =>
    by_cases he : e.1.id = vid
    · simp only [dictAppendTrip, if_pos he, dictBookings_cons, tripsBookings_append]
      simpa [List.append_assoc] using
        List.Perm.append_left (tripsBookings e.2)
          (@List.perm_append_comm _ t.bookings (dictBookings rest))
    · have h' : dictContains rest vid = true := by
        simpa [dictContains, List.any_cons, he] using h
      simp only [dictAppendTrip, if_neg he, dictBookings_cons]
      simpa [List.append_assoc] using
        List.Perm.append_left (tripsBookings e.2) (ih h')

end CarpoolPoc

namespace CarpoolPoc

theorem getD_mem_of_lt {α : Type} [Inhabited α] :
    ∀ (l : List α) (i : Nat), i < l.length → l.getD i default ∈ l := by
  intro l
  induction l with
  | nil => intro i h; exact absurd h (Nat.not_lt_zero i)
  | cons a t ih =>
    intro i h
    cases i with
    | zero => simp [List.getD]
    | succ j =>
      have := ih j (Nat.lt_of_succ_lt_succ h)
      simp only [List.getD] at this ⊢
      exact List.mem_cons_of_mem a this

theorem contains_all_of_keys_eq {d d' : VDict} (h : dictKeys d' = dictKeys d)
    (vehicles : List Vehicle) (hk : ∀ v ∈ vehicles, dictContains d v.id = true) :
    ∀ v ∈ vehicles, dictContains d' v.id = true := by
  intro v hv
  rw [dictContains_keys, h, ← dictContains_keys]
  exact hk v hv

theorem placeInTrips_bookings (cap : Int) (b : Booking) :
    ∀ (ts ts' : List Trip), placeInTrips cap b ts = some ts' →
      List.Perm (tripsBookings ts') (tripsBookings ts ++ [b]) := by
  intro ts
  induction ts with
  | nil => intro ts' h; simp [placeInTrips] at h
  | cons t rest ih =>
    intro ts' h
    simp only [placeInTrips] at h
    split at h
    · cases h
      simp only [tripsBookings, List.map_cons, List.flatten_cons]
      simpa [List.append_assoc] using
        List.Perm.append_left t.bookings
          (@List.perm_append_comm _ [b] ((rest.map Trip.bookings).flatten))
    · rcases Option.map_eq_some'.mp h with ⟨rest', hr, rfl⟩
      have hp := ih rest' hr
      simp only [tripsBookings, List.map_cons, List.flatten_cons] at hp ⊢
      simpa [List.append_assoc] using List.Perm.append_left t.bookings hp

theorem dictBookings_setTrips (vid : String) (b : Booking) :
    ∀ (d : VDict) (ts₀ ts' : List Trip), dictGet d vid = some ts₀ →
      List.Perm (tripsBookings ts') (tripsBookings ts₀ ++ [b]) →
      List.Perm (dictBookings (dictSetTrips d vid ts')) (dictBookings d ++ [b]) := by
  intro d
  induction d with
  | nil => intro ts₀ ts' h _; simp [dictGet] at h
  | cons e rest ih =>
    intro ts₀ ts' h hp
    by_cases he : e.1.id = vid
    · have h0 : ts₀ = e.2 := by
        simp [dictGet, List.find?, he] at h
        exact h.symm
      subst h0
      simp only [dictSetTrips, if_pos he, dictBookings_cons]
      refine (hp.append_right (dictBookings rest)).trans ?_
      simpa [List.append_assoc] using
        List.Perm.append_left (tripsBookings e.2)
          (@List.perm_append_comm _ [b] (dictBookings rest))
    · have h' : dictGet rest vid = some ts₀ := by
        simpa [dictGet, List.find?, he] using h
      simp only [dictSetTrips, if_neg he, dictBookings_cons]
      simpa [List.append_assoc] using
        List.Perm.append_left (tripsBookings e.2) (ih ts₀ ts' h' hp)

theorem placeInExisting_spec (b : Booking) :
    ∀ (vs : List Vehicle) (d d' : VDict), placeInExisting d b vs = some d' →
      List.Perm (dictBookings d') (dictBookings d ++ [b]) ∧ dictKeys d' = dictKeys d := by
  intro vs
  induction vs with
  | nil => intro d d' h; simp [placeInExisting] at h
  | cons v rest ih =>
    intro d d' h
    simp only [placeInExisting] at h
    cases hg : placeInTrips v.capacity b ((dictGet d v.id).getD []) with
    | none => rw [hg] at h; exact ih d d' h
    | some ts =>
      rw [hg] at h
      cases h
      have hget : ∃ ts₀, dictGet d v.id = some ts₀ := by
        cases hd : dictGet d v.id with
        | none => rw [hd] at hg; simp [placeInTrips] at hg
        | some ts₀ => exact ⟨ts₀, rfl⟩
      rcases hget with ⟨ts₀, hts₀⟩
      rw [hts₀] at hg
      have hp := placeInTrips_bookings v.capacity b ts₀ ts (by simpa using hg)
      exact ⟨dictBookings_setTrips v.id b d ts₀ ts hts₀ hp, dictKeys_setTrips d v.id ts⟩

end CarpoolPoc

namespace CarpoolPoc

theorem close_current_vehicle_spec (vehicles : List Vehicle) (s : PackState)
    (hk : ∀ v ∈ vehicles, dictContains s.result v.id = true)
    (hi : s.idx_vehicle < vehicles.length) :
    List.Perm (stateBookings (close_current_vehicle vehicles s)) (stateBookings s)
      ∧ dictKeys (close_current_vehicle vehicles s).result = dictKeys s.result
      ∧ (close_current_vehicle vehicles s).idx_vehicle < vehicles.length
      ∧ (close_current_vehicle vehicles s).current_trip = none := by
  cases hct : s.current_trip with
  | none =>
    have hcl : close_current_vehicle vehicles s = s := by
      simp [close_current_vehicle, hct]
    rw [hcl]
    exact ⟨List.Perm.refl _, rfl, hi, hct⟩
  | some t =>
    have hmem := getD_mem_of_lt vehicles s.idx_vehicle hi
    have hc := hk _ hmem
    have hcl : close_current_vehicle vehicles s =
        (⟨dictAppendTrip s.result (vehicles.getD s.idx_vehicle default).id t,
          (s.idx_vehicle + 1) % vehicles.length, none⟩ : PackState) := by
      simp [close_current_vehicle, hct]
    rw [hcl]
    refine ⟨?_, dictKeys_appendTrip _ _ _,
      Nat.mod_lt _ (Nat.lt_of_le_of_lt (Nat.zero_le _) hi), rfl⟩
    have h1 : stateBookings (⟨dictAppendTrip s.result (vehicles.getD s.idx_vehicle default).id t,
        (s.idx_vehicle + 1) % vehicles.length, none⟩ : PackState)
        = dictBookings (dictAppendTrip s.result (vehicles.getD s.idx_vehicle default).id t) := by
      simp [stateBookings]
    have h2 : stateBookings s = dictBookings s.result ++ t.bookings := by
      simp [stateBookings, hct]
    rw [h1, h2]
    exact dictBookings_appendTrip s.result _ t hc

theorem pack_step_spec (vehicles : List Vehicle) (mw : Int) (s : PackState) (r : Row)
    (hk : ∀ v ∈ vehicles, dictContains s.result v.id = true)
    (hi : s.idx_vehicle < vehicles.length) :
    List.Perm (stateBookings (pack_step vehicles mw s r)) (stateBookings s ++ [r.raw])
      ∧ dictKeys (pack_step vehicles mw s r).result = dictKeys s.result
      ∧ (pack_step vehicles mw s r).idx_vehicle < vehicles.length := by
  cases hct : s.current_trip with
  | none =>
    have hps : pack_step vehicles mw s r =
        { s with current_trip := some { bookings := [r.raw], start_time := r.pickup_datetime } } := by
      simp [pack_step, hct]
    rw [hps]
    refine ⟨?_, rfl, hi⟩
    have h1 : stateBookings { s with
        current_trip := some { bookings := [r.raw], start_time := r.pickup_datetime } }
        = dictBookings s.result ++ [r.raw] := by
      simp [stateBookings]
    have h2 : stateBookings s = dictBookings s.result := by
      simp [stateBookings, hct]
    rw [h1, h2]
  | some t =>
    have hps : pack_step vehicles mw s r =
        (if r.pickup_datetime.getD 0 - t.start_time.getD 0 ≤ mw ∧
            (vehicles.getD s.idx_vehicle default).capacity ≥
              t.total_passengers + r.raw.passenger_count then
          { s with current_trip := some { t with bookings := t.bookings ++ [r.raw] } }
        else
          { close_current_vehicle vehicles s with
            current_trip := some { bookings := [r.raw], start_time := r.pickup_datetime } }) := by
      simp [pack_step, hct]
    rw [hps]
    split
    · refine ⟨?_, rfl, hi⟩
      have h1 : stateBookings { s with
          current_trip := some { t with bookings := t.bookings ++ [r.raw] } }
          = dictBookings s.result ++ (t.bookings ++ [r.raw]) := by
        simp [stateBookings]
      have h2 : stateBookings s = dictBookings s.result ++ t.bookings := by
        simp [stateBookings, hct]
      rw [h1, h2, ← List.append_assoc]
    · obtain ⟨hperm, hkeys, hidx, hcur⟩ := close_current_vehicle_spec vehicles s hk hi
      refine ⟨?_, hkeys, hidx⟩
      have h1 : stateBookings { close_current_vehicle vehicles s with
          current_trip := some { bookings := [r.raw], start_time := r.pickup_datetime } }
          = dictBookings (close_current_vehicle vehicles s).result ++ [r.raw] := by
        simp [stateBookings]
      have h2 : stateBookings (close_current_vehicle vehicles s)
          = dictBookings (close_current_vehicle vehicles s).result := by
        simp [stateBookings, hcur]
      rw [h1, ← h2]
      exact hperm.append_right [r.raw]

theorem fill_step_spec (vehicles : List Vehicle) (s : PackState) (r : Row)
    (hk : ∀ v ∈ vehicles, dictContains s.result v.id = true)
    (hi : s.idx_vehicle < vehicles.length)
    (hcur : s.current_trip = none) :
    List.Perm (stateBookings (fill_step vehicles s r)) (stateBookings s ++ [r.raw])
      ∧ dictKeys (fill_step vehicles s r).result = dictKeys s.result
      ∧ (fill_step vehicles s r).idx_vehicle < vehicles.length
      ∧ (fill_step vehicles s r).current_trip = none := by
  cases hpl : placeInExisting s.result r.raw vehicles with
  | some d =>
    have hfs : fill_step vehicles s r = { s with result := d } := by
      simp [fill_step, hpl]
    rw [hfs]
    obtain ⟨hperm, hkeys⟩ := placeInExisting_spec r.raw vehicles s.result d hpl
    refine ⟨?_, hkeys, hi, hcur⟩
    have h1 : stateBookings { s with result := d } = dictBookings d ++
        (match s.current_trip with | some t => t.bookings | none => []) := by
      simp [stateBookings]
    rw [h1, hcur]
    have h2 : stateBookings s = dictBookings s.result := by
      simp [stateBookings, hcur]
    rw [h2]
    simpa using hperm
  | none =>
    have hfs : fill_step vehicles s r = close_current_vehicle vehicles
        { s with current_trip := some { bookings := [r.raw], start_time := none } } := by
      simp [fill_step, hpl]
    rw [hfs]
    have hk' : ∀ v ∈ vehicles, dictContains (PackState.result { s with
        current_trip := some { bookings := [r.raw], start_time := none } }) v.id = true := hk
    have hi' : (PackState.idx_vehicle { s with
        current_trip := some { bookings := [r.raw], start_time := none } }) < vehicles.length := hi
    obtain ⟨hperm, hkeys, hidx, hnone⟩ := close_current_vehicle_spec vehicles _ hk' hi'
    refine ⟨?_, hkeys, hidx, hnone⟩
    refine hperm.trans ?_
    have h1 : stateBookings { s with
        current_trip := some { bookings := [r.raw], start_time := none } }
        = dictBookings s.result ++ [r.raw] := by
      simp [stateBookings]
    have h2 : stateBookings s = dictBookings s.result := by
      simp [stateBookings, hcur]
    rw [h1, h2]

theorem foldl_pack_spec (vehicles : List Vehicle) (mw : Int) :
    ∀ (rows : List Row) (s : PackState),
      (∀ v ∈ vehicles, dictContains s.result v.id = true) →
      s.idx_vehicle < vehicles.length →
      List.Perm (stateBookings (rows.foldl (pack_step vehicles mw) s))
          (stateBookings s ++ rows.map (fun r => r.raw))
        ∧ dictKeys (rows.foldl (pack_step vehicles mw) s).result = dictKeys s.result
        ∧ (rows.foldl (pack_step vehicles mw) s).idx_vehicle < vehicles.length := by
  intro rows
  induction rows with
  | nil => intro s _ hi; exact ⟨by simp, rfl, hi⟩
  | cons r rows ih =>
    intro s hk hi
    obtain ⟨hp1, hkeys1, hi1⟩ := pack_step_spec vehicles mw s r hk hi
    have hk1 := contains_all_of_keys_eq hkeys1 vehicles hk
    obtain ⟨hp2, hkeys2, hi2⟩ := ih (pack_step vehicles mw s r) hk1 hi1
    refine ⟨?_, hkeys2.trans hkeys1, hi2⟩
    simp only [List.foldl_cons]
    refine hp2.trans ?_
    refine (hp1.append_right _).trans ?_
    rw [List.map_cons, List.append_assoc, List.singleton_append]

theorem foldl_fill_spec (vehicles : List Vehicle) :
    ∀ (rows : List Row) (s : PackState),
      (∀ v ∈ vehicles, dictContains s.result v.id = true) →
      s.idx_vehicle < vehicles.length →
      s.current_trip = none →
      List.Perm (stateBookings (rows.foldl (fill_step vehicles) s))
          (stateBookings s ++ rows.map (fun r => r.raw))
        ∧ dictKeys (rows.foldl (fill_step vehicles) s).result = dictKeys s.result
        ∧ (rows.foldl (fill_step vehicles) s).idx_vehicle < vehicles.length
        ∧ (rows.foldl (fill_step vehicles) s).current_trip = none := by
  intro rows
  induction rows with
  | nil => intro s _ hi hc; exact ⟨by simp, rfl, hi, hc⟩
  | cons r rows ih =>
    intro s hk hi hc
    obtain ⟨hp1, hkeys1, hi1, hc1⟩ := fill_step_spec vehicles s r hk hi hc
    have hk1 := contains_all_of_keys_eq hkeys1 vehicles hk
    obtain ⟨hp2, hkeys2, hi2, hc2⟩ := ih (fill_step vehicles s r) hk1 hi1 hc1
    refine ⟨?_, hkeys2.trans hkeys1, hi2, hc2⟩
    simp only [List.foldl_cons]
    refine hp2.trans ?_
    refine (hp1.append_right _).trans ?_
    rw [List.map_cons, List.append_assoc, List.singleton_append]

theorem findIdxGo_bound (result : VDict) :
    ∀ (vs : List Vehicle) (i : Nat) (min : Int) (mi : Option Nat),
      (∀ j, mi = some j → j < i) →
      ∀ j, findIdxGo result i vs min mi = some j → j < i + vs.length := by
  intro vs
  induction vs with
  | nil =>
    intro i min mi hmi j hj
    simp only [findIdxGo] at hj
    exact Nat.lt_of_lt_of_le (hmi j hj) (Nat.le_add_right i 0)
  | cons v vs ih =>
    intro i min mi hmi j hj
    simp only [findIdxGo] at hj
    split at hj
    · cases hj
      simp only [List.length_cons]
      omega
    · split at hj
      · have := ih (i + 1) _ (some i) (by intro k hk; cases hk; omega) j hj
        simp only [List.length_cons]
        omega
      · have := ih (i + 1) min mi (fun k hk => Nat.lt_succ_of_lt (hmi k hk)) j hj
        simp only [List.length_cons]
        omega

theorem find_vehicle_idx_lt (vehicles : List Vehicle) (result : VDict) (i : Nat)
    (h : find_vehicle_idx_with_less_trips vehicles result = some i) : i < vehicles.length := by
  have := findIdxGo_bound result vehicles 0 999999999 none (by intro j hj; cases hj) i h
  omega

theorem filter_pickup_split (df : List Row) :
    List.Perm (df.filter (fun r => r.pickup_datetime.isSome) ++
        df.filter (fun r => r.pickup_datetime.isNone)) df := by
  have h : df.filter (fun r => r.pickup_datetime.isNone)
      = df.filter (fun r => !(r.pickup_datetime.isSome)) := by
    apply List.filter_congr
    intro r _
    cases r.pickup_datetime <;> rfl
  rw [h]
  exact List.filter_append_perm _ df

theorem assign_bookings_eq (df : List Row) (vehicles : List Vehicle) (result : VDict)
    (mw : Int) (i : Nat)
    (hidx : find_vehicle_idx_with_less_trips vehicles result = some i) :
    assign_bookings_to_vehicles df vehicles result mw =
      some (PackState.result
        ((df.filter (fun r => r.pickup_datetime.isNone)).foldl (fill_step vehicles)
          (close_current_vehicle vehicles
            ((sortedBy (fun r => r.pickup_datetime.getD 0)
                (df.filter (fun r => r.pickup_datetime.isSome))).foldl
              (pack_step vehicles mw)
              (⟨result, i, none⟩ : PackState))))) := by
  simp only [assign_bookings_to_vehicles, hidx]

theorem assign_bookings_spec (df : List Row) (vehicles : List Vehicle) (result : VDict)
    (mw : Int) (d' : VDict)
    (h : assign_bookings_to_vehicles df vehicles result mw = some d')
    (hk : ∀ v ∈ vehicles, dictContains result v.id = true) :
    List.Perm (dictBookings d') (dictBookings result ++ df.map (fun r => r.raw))
      ∧ dictKeys d' = dictKeys result := by
  cases hidx : find_vehicle_idx_with_less_trips vehicles result with
  | none =>
    rw [assign_bookings_to_vehicles, hidx] at h
    exact Option.noConfusion h
  | some i =>
    rw [assign_bookings_eq df vehicles result mw i hidx] at h
    have hi := find_vehicle_idx_lt vehicles result i hidx
    have hk0 : ∀ v ∈ vehicles,
        dictContains (PackState.result (⟨result, i, none⟩ : PackState)) v.id = true := hk
    obtain ⟨hp1, hkeys1, hi1⟩ := foldl_pack_spec vehicles mw
      (sortedBy (fun r => r.pickup_datetime.getD 0)
        (df.filter (fun r => r.pickup_datetime.isSome)))
      (⟨result, i, none⟩ : PackState) hk0 hi
    have hk1 := contains_all_of_keys_eq hkeys1 vehicles hk
    obtain ⟨hp2, hkeys2, hi2, hc2⟩ := close_current_vehicle_spec vehicles _ hk1 hi1
    have hk2 := contains_all_of_keys_eq (hkeys2.trans hkeys1) vehicles hk
    obtain ⟨hp3, hkeys3, hi3, hc3⟩ := foldl_fill_spec vehicles
      (df.filter (fun r => r.pickup_datetime.isNone)) _ hk2 hi2 hc2
    cases h
    constructor
    · have hfinal : dictBookings (PackState.result
          ((df.filter (fun r => r.pickup_datetime.isNone)).foldl
            (fill_step vehicles) (close_current_vehicle vehicles
              ((sortedBy (fun r => r.pickup_datetime.getD 0)
                  (df.filter (fun r => r.pickup_datetime.isSome))).foldl
                (pack_step vehicles mw)
                (⟨result, i, none⟩ : PackState)))))
          = stateBookings ((df.filter (fun r => r.pickup_datetime.isNone)).foldl
            (fill_step vehicles) (close_current_vehicle vehicles
              ((sortedBy (fun r => r.pickup_datetime.getD 0)
                  (df.filter (fun r => r.pickup_datetime.isSome))).foldl
                (pack_step vehicles mw)
                (⟨result, i, none⟩ : PackState)))) := by
        simp [stateBookings, hc3]
      rw [hfinal]
      refine hp3.trans ?_
      refine ((hp2.trans hp1).append_right _).trans ?_
      have hmaps : stateBookings (⟨result, i, none⟩ : PackState) = dictBookings result := by
        simp [stateBookings]
      rw [hmaps, List.append_assoc]
      refine List.Perm.append_left (dictBookings result) ?_
      have hsortmap : List.Perm
          ((sortedBy (fun r => r.pickup_datetime.getD 0)
            (df.filter (fun r => r.pickup_datetime.isSome))).map (fun r => r.raw))
          ((df.filter (fun r => r.pickup_datetime.isSome)).map (fun r => r.raw)) :=
        (sortedBy_perm _ _).map _
      refine (hsortmap.append_right _).trans ?_
      rw [← List.map_append]
      exact (filter_pickup_split df).map _
    · exact hkeys3.trans (hkeys2.trans hkeys1)

end CarpoolPoc

namespace CarpoolPoc

theorem clusterPartitionGo (l : List Row) :
    ∀ (K : List Nat) (seen : List Nat),
      List.Perm
        (((uniqueInOrderGo seen K).map
            (fun c => l.filter (fun r => decide (r.cluster_id = some c)))).flatten)
        (l.filter (fun r =>
          decide (r.cluster_id ∈ K.map some) && !decide (r.cluster_id ∈ seen.map some))) := by
  intro K
  induction K with
  | nil =>
    intro seen
    simp [uniqueInOrderGo]
  | cons a K ih =>
    intro seen
    by_cases ha : a ∈ seen
    · have hGo : uniqueInOrderGo seen (a :: K) = uniqueInOrderGo seen K := by
        simp [uniqueInOrderGo, ha]
      rw [hGo]
      refine (ih seen).trans ?_
      have heq : l.filter (fun r =>
            decide (r.cluster_id ∈ K.map some) && !decide (r.cluster_id ∈ seen.map some))
          = l.filter (fun r =>
            decide (r.cluster_id ∈ (a :: K).map some) && !decide (r.cluster_id ∈ seen.map some)) := by
        apply List.filter_congr
        intro r _
        cases hc : r.cluster_id with
        | none => simp
        | some c =>
          by_cases hca : c = a
          · subst hca
            simp [ha]
          · simp [hca]
      rw [heq]
    · have hGo : uniqueInOrderGo seen (a :: K) = a :: uniqueInOrderGo (a :: seen) K := by
        simp [uniqueInOrderGo, ha]
      rw [hGo]
      simp only [List.map_cons, List.flatten_cons]
      refine (List.Perm.append_left _ (ih (a :: seen))).trans ?_
      have hsplit := List.filter_append_perm (fun r => decide (r.cluster_id = some a))
        (l.filter (fun r =>
          decide (r.cluster_id ∈ (a :: K).map some) && !decide (r.cluster_id ∈ seen.map some)))
      have hq : (l.filter (fun r =>
            decide (r.cluster_id ∈ (a :: K).map some) &&
              !decide (r.cluster_id ∈ seen.map some))).filter
            (fun r => decide (r.cluster_id = some a))
          = l.filter (fun r => decide (r.cluster_id = some a)) := by
        rw [List.filter_filter]
        apply List.filter_congr
        intro r _
        cases hc : r.cluster_id with
        | none => simp
        | some c =>
          by_cases hca : c = a
          · subst hca
            simp [ha]
          · simp [hca]
      have hnq : (l.filter (fun r =>
            decide (r.cluster_id ∈ (a :: K).map some) &&
              !decide (r.cluster_id ∈ seen.map some))).filter
            (fun r => !decide (r.cluster_id = some a))
          = l.filter (fun r =>
            decide (r.cluster_id ∈ K.map some) &&
              !decide (r.cluster_id ∈ (a :: seen).map some)) := by
        rw [List.filter_filter]
        apply List.filter_congr
        intro r _
        cases hc : r.cluster_id with
        | none => simp
        | some c =>
          by_cases hca : c = a
          · subst hca
            simp
          · simp [hca]
      rw [hq, hnq] at hsplit
      exact hsplit

theorem clusterPartition (l : List Row) (hall : ∀ r ∈ l, r.cluster_id.isSome = true) :
    List.Perm
      (((uniqueInOrder (l.filterMap (fun r => r.cluster_id))).map
          (fun c => l.filter (fun r => decide (r.cluster_id = some c)))).flatten)
      l := by
  refine (clusterPartitionGo l (l.filterMap (fun r => r.cluster_id)) []).trans ?_
  have heq : l.filter (fun r =>
        decide (r.cluster_id ∈ (l.filterMap (fun r => r.cluster_id)).map some) &&
          !decide (r.cluster_id ∈ ([] : List Nat).map some)) = l := by
    apply List.filter_eq_self.mpr
    intro r hr
    have hs := hall r hr
    cases hc : r.cluster_id with
    | none => rw [hc] at hs; simp at hs
    | some c =>
      simp only [hc, List.map_nil, List.mem_nil_iff, decide_False, Bool.not_false,
        Bool.and_true, decide_eq_true_eq, List.mem_map, List.mem_filterMap]
      exact ⟨c, ⟨r, hr, hc⟩, rfl⟩
  rw [heq]

theorem packClusters_spec (clustered : List Row) (vehicles : List Vehicle) (mw : Int) :
    ∀ (ids : List Nat) (result d' : VDict),
      packClusters clustered vehicles mw ids result = some d' →
      (∀ v ∈ vehicles, dictContains result v.id = true) →
      List.Perm (dictBookings d')
          (dictBookings result ++
            ((ids.map (fun c =>
              clustered.filter (fun r => decide (r.cluster_id = some c)))).flatten).map
              (fun r => r.raw))
        ∧ dictKeys d' = dictKeys result := by
  intro ids
  induction ids with
  | nil =>
    intro result d' h hk
    cases h
    exact ⟨by simp, rfl⟩
  | cons c ids ih =>
    intro result d' h hk
    simp only [packClusters] at h
    cases hstep : assign_bookings_to_vehicles
        (clustered.filter (fun r => decide (r.cluster_id = some c))) vehicles result mw with
    | none => rw [hstep] at h; exact Option.noConfusion h
    | some r1 =>
      rw [hstep] at h
      obtain ⟨hp1, hkeys1⟩ := assign_bookings_spec _ vehicles result mw r1 hstep hk
      have hk1 := contains_all_of_keys_eq hkeys1 vehicles hk
      obtain ⟨hp2, hkeys2⟩ := ih r1 d' h hk1
      refine ⟨?_, hkeys2.trans hkeys1⟩
      refine hp2.trans ?_
      refine (hp1.append_right _).trans ?_
      rw [List.map_cons, List.flatten_cons, List.map_append, List.append_assoc]

end CarpoolPoc

namespace CarpoolPoc

theorem dictKeys_setEmpty (d : VDict) (v : Vehicle) :
    dictKeys (dictSetEmpty d v)
      = if dictContains d v.id then dictKeys d else dictKeys d ++ [v] := by
  simp only [dictSetEmpty]
  split
  · simp only [dictKeys, List.map_map]
    apply List.map_congr_left
    intro e _
    by_cases hc : e.1.id = v.id <;> simp [hc]
  · simp [dictKeys]

theorem dictContains_setEmpty_self (d : VDict) (v : Vehicle) :
    dictContains (dictSetEmpty d v) v.id = true := by
  by_cases hc : dictContains d v.id
  · rw [dictContains_keys, dictKeys_setEmpty, if_pos hc, ← dictContains_keys]
    exact hc
  · rw [dictContains_keys, dictKeys_setEmpty, if_neg hc]
    simp [List.any_append]

theorem dictContains_setEmpty_mono (d : VDict) (v : Vehicle) (x : String)
    (h : dictContains d x = true) : dictContains (dictSetEmpty d v) x = true := by
  by_cases hc : dictContains d v.id
  · rw [dictContains_keys, dictKeys_setEmpty, if_pos hc, ← dictContains_keys]
    exact h
  · rw [dictContains_keys, dictKeys_setEmpty, if_neg hc]
    rw [dictContains_keys] at h
    simp [List.any_append, h]

theorem foldl_setEmpty_preserves (vs : List Vehicle) :
    ∀ (acc : VDict) (x : String), dictContains acc x = true →
      dictContains (vs.foldl dictSetEmpty acc) x = true := by
  induction vs with
  | nil => intro acc x h; exact h
  | cons w vs ih =>
    intro acc x h
    exact ih _ x (dictContains_setEmpty_mono acc w x h)

theorem initDict_contains (vehicles : List Vehicle) :
    ∀ (acc : VDict), ∀ v ∈ vehicles,
      dictContains (vehicles.foldl dictSetEmpty acc) v.id = true := by
  induction vehicles with
  | nil => intro acc v hv; simp at hv
  | cons w vs ih =>
    intro acc v hv
    simp only [List.foldl_cons]
    rcases List.mem_cons.mp hv with h | h
    · subst h
      exact foldl_setEmpty_preserves vs _ v.id (dictContains_setEmpty_self acc v)
    · exact ih (dictSetEmpty acc w) v h

theorem initDict_values_nil (vehicles : List Vehicle) :
    ∀ (acc : VDict), (∀ e ∈ acc, e.2 = ([] : List Trip)) →
      ∀ e ∈ vehicles.foldl dictSetEmpty acc, e.2 = ([] : List Trip) := by
  induction vehicles with
  | nil => intro acc h; exact h
  | cons w vs ih =>
    intro acc h
    simp only [List.foldl_cons]
    refine ih _ ?_
    intro e he
    simp only [dictSetEmpty] at he
    split at he
    · rcases List.mem_map.mp he with ⟨e0, he0, rfl⟩
      by_cases hc : e0.1.id = w.id
      · simp [hc]
      · simp only [hc, if_false]
        exact h e0 he0
    · rcases List.mem_append.mp he with h1 | h1
      · exact h e h1
      · simp only [List.mem_singleton] at h1
        rw [h1]

theorem dictBookings_nil_of_values (d : VDict) (h : ∀ e ∈ d, e.2 = ([] : List Trip)) :
    dictBookings d = [] := by
  induction d with
  | nil => rfl
  | cons e rest ih =>
    rw [dictBookings_cons, h e (List.mem_cons_self _ _),
      ih (fun x hx => h x (List.mem_cons_of_mem _ hx))]
    rfl

theorem distribute_step_spec (vehicles : List Vehicle) (p : VDict × Nat) (r : Row)
    (hk : ∀ v ∈ vehicles, dictContains p.1 v.id = true)
    (hi : p.2 < vehicles.length) :
    List.Perm (dictBookings (distribute_step vehicles p r).1) (dictBookings p.1 ++ [r.raw])
      ∧ dictKeys (distribute_step vehicles p r).1 = dictKeys p.1
      ∧ (distribute_step vehicles p r).2 < vehicles.length := by
  have hmem := getD_mem_of_lt vehicles p.2 hi
  have hc := hk _ hmem
  refine ⟨?_, dictKeys_appendTrip _ _ _,
    Nat.mod_lt _ (Nat.lt_of_le_of_lt (Nat.zero_le _) hi)⟩
  have hb := dictBookings_appendTrip p.1 (vehicles.getD p.2 default).id
    ⟨[r.raw], none⟩ hc
  simpa [distribute_step] using hb

theorem foldl_distribute_spec (vehicles : List Vehicle) :
    ∀ (rows : List Row) (p : VDict × Nat),
      (∀ v ∈ vehicles, dictContains p.1 v.id = true) →
      p.2 < vehicles.length →
      List.Perm (dictBookings (rows.foldl (distribute_step vehicles) p).1)
          (dictBookings p.1 ++ rows.map (fun r => r.raw))
        ∧ dictKeys (rows.foldl (distribute_step vehicles) p).1 = dictKeys p.1
        ∧ (rows.foldl (distribute_step vehicles) p).2 < vehicles.length := by
  intro rows
  induction rows with
  | nil => intro p _ hi; exact ⟨by simp, rfl, hi⟩
  | cons r rows ih =>
    intro p hk hi
    obtain ⟨hp1, hkeys1, hi1⟩ := distribute_step_spec vehicles p r hk hi
    have hk1 := contains_all_of_keys_eq hkeys1 vehicles hk
    obtain ⟨hp2, hkeys2, hi2⟩ := ih (distribute_step vehicles p r) hk1 hi1
    refine ⟨?_, hkeys2.trans hkeys1, hi2⟩
    simp only [List.foldl_cons]
    refine hp2.trans ?_
    refine (hp1.append_right _).trans ?_
    rw [List.map_cons, List.append_assoc, List.singleton_append]

theorem filter_cluster_split (df : List Row) :
    List.Perm (df.filter (fun r => r.cluster_id.isSome) ++
        df.filter (fun r => r.cluster_id.isNone)) df := by
  have h : df.filter (fun r => r.cluster_id.isNone)
      = df.filter (fun r => !(r.cluster_id.isSome)) := by
    apply List.filter_congr
    intro r _
    cases r.cluster_id <;> rfl
  rw [h]
  exact List.filter_append_perm _ df

theorem planBookings_of_dict (d : VDict) :
    planBookings (d.map (fun e => { vehicle := e.1, trips := e.2 })) = dictBookings d := by
  simp [planBookings, dictBookings, List.map_map]
  rfl

theorem plan_vehicles_of_dict (d : VDict) :
    (d.map (fun e => ({ vehicle := e.1, trips := e.2 } : VehiclePlan))).map
        (fun vp => vp.vehicle) = dictKeys d := by
  simp [dictKeys, List.map_map]

theorem assign_to_vehicle_go_eq (df : List Row) (vehicles : List Vehicle) (mw : Int)
    (result1 : VDict) (i : Nat)
    (hpc : packClusters (df.filter (fun r => r.cluster_id.isSome))
      (sortedBy (fun v => -v.capacity) vehicles) mw (cluster_ids_order df)
      (vehicles.foldl dictSetEmpty []) = some result1)
    (hidx : find_vehicle_idx_with_less_trips
      (sortedBy (fun v => -v.capacity) vehicles) result1 = some i) :
    assign_to_vehicle_go df vehicles mw = some
      (((sortedBy (fun r => r.raw.passenger_count)
          (df.filter (fun r => r.cluster_id.isNone))).foldl
        (distribute_step (sortedBy (fun v => -v.capacity) vehicles))
        (result1, i)).1.map (fun e => { vehicle := e.1, trips := e.2 })) := by
  simp only [assign_to_vehicle_go, hpc, hidx]

theorem assign_to_vehicle_go_spec (df : List Row) (vehicles : List Vehicle) (mw : Int)
    (plan : List VehiclePlan) (h : assign_to_vehicle_go df vehicles mw = some plan) :
    List.Perm (planBookings plan) (df.map (fun r => r.raw))
      ∧ plan.map (fun vp => vp.vehicle) = dictKeys (vehicles.foldl dictSetEmpty []) := by
  cases hpc : packClusters (df.filter (fun r => r.cluster_id.isSome))
      (sortedBy (fun v => -v.capacity) vehicles) mw (cluster_ids_order df)
      (vehicles.foldl dictSetEmpty []) with
  | none =>
    have hnone : assign_to_vehicle_go df vehicles mw = none := by
      simp only [assign_to_vehicle_go, hpc]
    rw [hnone] at h
    exact Option.noConfusion h
  | some result1 =>
    cases hidx : find_vehicle_idx_with_less_trips
        (sortedBy (fun v => -v.capacity) vehicles) result1 with
    | none =>
      have hnone : assign_to_vehicle_go df vehicles mw = none := by
        simp only [assign_to_vehicle_go, hpc, hidx]
      rw [hnone] at h
      exact Option.noConfusion h
    | some i =>
      rw [assign_to_vehicle_go_eq df vehicles mw result1 i hpc hidx] at h
      have hkInit : ∀ v ∈ sortedBy (fun v => -v.capacity) vehicles,
          dictContains (vehicles.foldl dictSetEmpty []) v.id = true := by
        intro v hv
        exact initDict_contains vehicles [] v (mem_sortedBy.mp hv)
      obtain ⟨hp1, hkeys1⟩ := packClusters_spec
        (df.filter (fun r => r.cluster_id.isSome))
        (sortedBy (fun v => -v.capacity) vehicles) mw
        (cluster_ids_order df) (vehicles.foldl dictSetEmpty []) result1 hpc hkInit
      have hk1 := contains_all_of_keys_eq hkeys1 _ hkInit
      have hi := find_vehicle_idx_lt _ result1 i hidx
      obtain ⟨hp2, hkeys2, hi2⟩ := foldl_distribute_spec
        (sortedBy (fun v => -v.capacity) vehicles)
        (sortedBy (fun r => r.raw.passenger_count) (df.filter (fun r => r.cluster_id.isNone)))
        (result1, i) hk1 hi
      cases h
      constructor
      · rw [planBookings_of_dict]
        refine hp2.trans ?_
        refine (hp1.append_right _).trans ?_
        rw [dictBookings_nil_of_values _ (initDict_values_nil vehicles [] (by intro e he; simp at he))]
        rw [List.nil_append]
        have hclustered : List.Perm
            (((cluster_ids_order df).map (fun c =>
              (df.filter (fun r => r.cluster_id.isSome)).filter
                (fun r => decide (r.cluster_id = some c)))).flatten)
            (df.filter (fun r => r.cluster_id.isSome)) := by
          apply clusterPartition
          intro r hr
          exact (List.mem_filter.mp hr).2
        have hnc : List.Perm
            ((sortedBy (fun r => r.raw.passenger_count)
              (df.filter (fun r => r.cluster_id.isNone))).map (fun r => r.raw))
            ((df.filter (fun r => r.cluster_id.isNone)).map (fun r => r.raw)) :=
          (sortedBy_perm _ _).map _
        refine (List.Perm.append (hclustered.map _) hnc).trans ?_
        rw [← List.map_append]
        exact (filter_cluster_split df).map _
      · rw [plan_vehicles_of_dict]
        exact hkeys2.trans hkeys1

end CarpoolPoc

namespace CarpoolPoc

theorem assignDropoff_core :
    ∀ (C : List (String × Nat)) (df : List Row) (cid : Nat),
      ((assignDropoff C df cid).1).map rowCore = df.map rowCore := by
  intro C
  induction C with
  | nil => intro df cid; rfl
  | cons p rest ih =>
    intro df cid
    obtain ⟨addr, cnt⟩ := p
    simp only [assignDropoff]
    split
    · rw [ih, List.map_map]
      apply List.map_congr_left
      intro r _
      by_cases hc : r.raw.dropoff_address = addr <;> simp [rowCore, hc]
    · exact ih df cid

theorem assignPickup_core :
    ∀ (C : List (String × Nat)) (df : List Row) (cid : Nat),
      ((assignPickup C df cid).1).map rowCore = df.map rowCore := by
  intro C
  induction C with
  | nil => intro df cid; rfl
  | cons p rest ih =>
    intro df cid
    obtain ⟨addr, cnt⟩ := p
    simp only [assignPickup]
    split
    · split
      · rw [ih, List.map_map]
        apply List.map_congr_left
        intro r _
        simp only [Function.comp]
        split <;> simp [rowCore]
      · exact ih df cid
    · exact ih df cid

theorem group_same_addresses_cases (df : List Row) (out : List Row × Bool)
    (h : group_same_addresses df = some out) :
    (out = ((assignPickup (value_counts (df.map (fun r => r.raw.pickup_address)))
        (assignDropoff (value_counts (df.map (fun r => r.raw.dropoff_address))) df 1).1
        (assignDropoff (value_counts (df.map (fun r => r.raw.dropoff_address))) df 1).2).1,
        true)
      ∧ 1 < (assignDropoff (value_counts (df.map (fun r => r.raw.dropoff_address))) df 1).2)
    ∨ (out = ((assignDropoff (value_counts (df.map (fun r => r.raw.dropoff_address))) df 1).1,
        false)
      ∧ ¬ 1 < (assignDropoff (value_counts (df.map (fun r => r.raw.dropoff_address))) df 1).2
      ∧ (value_counts (df.map (fun r => r.raw.pickup_address))).any
          (fun p => decide (1 < p.2)) = false) := by
  simp only [group_same_addresses] at h
  by_cases hcol : 1 < (assignDropoff
      (value_counts (df.map (fun r => r.raw.dropoff_address))) df 1).2
  · rw [if_pos hcol] at h
    exact Or.inl ⟨(Option.some.inj h).symm, hcol⟩
  · rw [if_neg hcol] at h
    by_cases hpu : (value_counts (df.map (fun r => r.raw.pickup_address))).any
        (fun p => decide (1 < p.2)) = true
    · rw [if_pos hpu] at h
      exact Option.noConfusion h
    · rw [if_neg hpu] at h
      exact Or.inr ⟨(Option.some.inj h).symm, hcol, Bool.eq_false_iff.mpr hpu⟩

theorem group_same_addresses_col (df : List Row) (out : List Row × Bool)
    (h : group_same_addresses df = some out) (hcol : out.2 = true) :
    out.1 = (assignPickup (value_counts (df.map (fun r => r.raw.pickup_address)))
      (assignDropoff (value_counts (df.map (fun r => r.raw.dropoff_address))) df 1).1
      (assignDropoff (value_counts (df.map (fun r => r.raw.dropoff_address))) df 1).2).1 := by
  rcases group_same_addresses_cases df out h with ⟨he, _⟩ | ⟨he, _, _⟩
  · simp only [he]
  · rw [he] at hcol
    exact absurd hcol (by simp)

theorem group_same_addresses_core (df : List Row) (out : List Row × Bool)
    (h : group_same_addresses df = some out) :
    out.1.map rowCore = df.map rowCore := by
  rcases group_same_addresses_cases df out h with ⟨he, _⟩ | ⟨he, _, _⟩
  · simp only [he]
    rw [assignPickup_core, assignDropoff_core]
  · simp only [he]
    rw [assignDropoff_core]

theorem group_close_coordinates_col (kf : List (Int × Int) → Nat → List Nat)
    (df : List Row) (n : Nat) :
    group_close_coordinates kf df true n = some (geoStamp kf df n) := rfl

theorem group_close_coordinates_nocol (kf : List (Int × Int) → Nat → List Nat)
    (df : List Row) (n : Nat) :
    group_close_coordinates kf df false n = none := rfl

theorem assign_to_vehicle_col (df : List Row) (vehicles : List Vehicle) (mw : Int) :
    assign_to_vehicle df true vehicles mw = assign_to_vehicle_go df vehicles mw := rfl

theorem assign_to_vehicle_nocol (df : List Row) (vehicles : List Vehicle) (mw : Int) :
    assign_to_vehicle df false vehicles mw = none := rfl

theorem assignDropoff_cid_mono :
    ∀ (items : List (String × Nat)) (df : List Row) (cid : Nat),
      cid ≤ (assignDropoff items df cid).2 := by
  intro items
  induction items with
  | nil => intro df cid; exact Nat.le_refl cid
  | cons it rest ih =>
    intro df cid
    obtain ⟨a, n⟩ := it
    simp only [assignDropoff]
    split
    · exact le_trans (Nat.le_succ cid) (ih _ (cid + 1))
    · exact ih df cid

theorem assignDropoff_cid_stamp (a : String) (n : Nat) (hn : 1 < n) :
    ∀ (items : List (String × Nat)) (df : List Row) (cid : Nat), (a, n) ∈ items →
      cid < (assignDropoff items df cid).2 := by
  intro items
  induction items with
  | nil =>
    intro df cid hmem
    exact absurd hmem (List.not_mem_nil _)
  | cons it rest ih =>
    intro df cid hmem
    obtain ⟨b, m⟩ := it
    rcases List.mem_cons.mp hmem with he | hr
    · injection he with h1 h2
      have hm : m > 1 := by rw [← h2]; exact hn
      simp only [assignDropoff, if_pos hm]
      exact lt_of_lt_of_le (Nat.lt_succ_self cid) (assignDropoff_cid_mono rest _ (cid + 1))
    · by_cases hm2 : m > 1
      · have hd : assignDropoff ((b, m) :: rest) df cid =
            assignDropoff rest (df.map fun r =>
              if r.raw.dropoff_address = b then
                { r with cluster_id := some cid, group_key := some ("DROPOFF=" ++ b) }
              else r) (cid + 1) := by
          simp only [assignDropoff, if_pos hm2]
        rw [hd]
        have h3 := ih (df.map fun r =>
          if r.raw.dropoff_address = b then
            { r with cluster_id := some cid, group_key := some ("DROPOFF=" ++ b) }
          else r) (cid + 1) hr
        omega
      · have hd : assignDropoff ((b, m) :: rest) df cid = assignDropoff rest df cid := by
          simp only [assignDropoff, if_neg hm2]
        rw [hd]
        exact ih df cid hr

theorem geoStamp_core (kf : List (Int × Int) → Nat → List Nat)
    (df : List Row) (k : Nat) :
    (geoStamp kf df k).map rowCore = df.map rowCore := by
  simp only [geoStamp]
  split
  · rfl
  · split
    · rfl
    · rw [List.map_map]
      apply List.map_congr_left
      intro r _
      simp only [Function.comp]
      split
      · simp [rowCore]
      · rfl

theorem raw_of_core {df df' : List Row} (h : df'.map rowCore = df.map rowCore) :
    df'.map (fun r => r.raw) = df.map (fun r => r.raw) := by
  have h2 := congrArg (List.map (fun p : Nat × Booking × Option DT × Option DT => p.2.1)) h
  simpa [List.map_map, rowCore, Function.comp] using h2

theorem enumFrom_map_snd :
    ∀ (n : Nat) (l : List Booking), (List.enumFrom n l).map (fun p => p.2) = l := by
  intro n l
  induction l generalizing n with
  | nil => rfl
  | cons b bs ih => simp [List.enumFrom, ih]

theorem prepare_df_raw (resolve : String → String → String → Option DT)
    (request : CarpoolRequest) (df : List Row)
    (h : prepare_df resolve request = some df) :
    df.map (fun r => r.raw) = request.bookings := by
  simp only [prepare_df] at h
  split at h
  · exact Option.noConfusion h
  · cases h
    rw [List.map_map]
    have : List.enum request.bookings = List.enumFrom 0 request.bookings := rfl
    rw [this]
    exact enumFrom_map_snd 0 request.bookings

theorem calculate_some (resolve : String → String → String → Option DT)
    (kf : List (Int × Int) → Nat → List Nat) (request : CarpoolRequest)
    (resp : CarpoolResponse) (h : calculate resolve kf request = some resp) :
    ∃ df out, prepare_df resolve request = some df ∧
      group_same_addresses df = some out ∧ out.2 = true := by
  cases hdf : prepare_df resolve request with
  | none =>
    simp only [calculate, hdf] at h
    exact Option.noConfusion h
  | some df =>
    cases hgsa : group_same_addresses df with
    | none =>
      simp only [calculate, hdf, hgsa] at h
      exact Option.noConfusion h
    | some out =>
      cases hcol : out.2 with
      | true => exact ⟨df, out, rfl, hgsa, hcol⟩
      | false =>
        exfalso
        simp only [calculate, hdf, hgsa, hcol] at h
        by_cases hp : (request.config.getD {}).pool_neighbors = true
        · simp only [hp, if_true, group_close_coordinates_nocol] at h
          exact Option.noConfusion h
        · simp only [hp, Bool.false_eq_true, if_false, assign_to_vehicle_nocol,
            Option.map_none'] at h
          exact Option.noConfusion h

theorem calculate_eq (resolve : String → String → String → Option DT)
    (kf : List (Int × Int) → Nat → List Nat) (request : CarpoolRequest)
    (df : List Row) (out : List Row × Bool)
    (hdf : prepare_df resolve request = some df)
    (hgsa : group_same_addresses df = some out) (hcol : out.2 = true) :
    calculate resolve kf request =
      (assign_to_vehicle_go
        (if (request.config.getD {}).pool_neighbors then
          geoStamp kf out.1 (request.config.getD {}).geo_clusters
        else out.1)
        request.vehicles (request.config.getD {}).max_wait_minutes).map
        (fun plan => { date := request.date, plan := plan }) := by
  simp only [calculate, hdf, hgsa, hcol]
  by_cases hp : (request.config.getD {}).pool_neighbors = true
  · simp only [hp, if_true, group_close_coordinates_col, assign_to_vehicle_col]
  · simp only [hp, Bool.false_eq_true, if_false, assign_to_vehicle_col]

/-- Claim C1 — coverage: whenever the engine produces a plan for a request
with at least one vehicle, the multiset of booking identifiers across all
trips of the plan is exactly the multiset of input booking identifiers: every
input booking lands in exactly one trip of one vehicle plan, none duplicated,
none dropped. -/
theorem c1_coverage (resolve : String → String → String → Option DT)
    (kf : List (Int × Int) → Nat → List Nat) (request : CarpoolRequest)
    (resp : CarpoolResponse)
    (hv : request.vehicles ≠ [])
    (h : calculate resolve kf request = some resp) :
    List.Perm ((planBookings resp.plan).map (fun b => b.id))
      (request.bookings.map (fun b => b.id)) := by
  rcases calculate_some resolve kf request resp h with ⟨df, out, hdf, hgsa, hcol⟩
  rw [calculate_eq resolve kf request df out hdf hgsa hcol] at h
  rcases Option.map_eq_some'.mp h with ⟨plan, hassign, hresp⟩
  subst hresp
  obtain ⟨hperm, _⟩ := assign_to_vehicle_go_spec _ request.vehicles _ plan hassign
  have hcore : (if (request.config.getD {}).pool_neighbors then
        geoStamp kf out.1 (request.config.getD {}).geo_clusters
      else out.1).map rowCore = df.map rowCore := by
    split
    · rw [geoStamp_core, group_same_addresses_core df out hgsa]
    · exact group_same_addresses_core df out hgsa
  have hraw := raw_of_core hcore
  rw [prepare_df_raw resolve request df hdf] at hraw
  rw [hraw] at hperm
  exact hperm.map (fun b => b.id)

/-- Witness for `c1_coverage` at the concrete scenario request `req3`. -/
theorem c1_coverage_witness :
    req3.vehicles ≠ [] ∧ calculate rvT kf0 req3 = some resp3 ∧
      List.Perm ((planBookings resp3.plan).map (fun b => b.id))
        (req3.bookings.map (fun b => b.id)) :=
  ⟨by decide, by decide, c1_coverage rvT kf0 req3 resp3 (by decide) (by decide)⟩

end CarpoolPoc

namespace CarpoolPoc

/-! ### Generic preservation of per-trip invariants through the engine -/

theorem close_keys (vehicles : List Vehicle) (s : PackState) :
    dictKeys (close_current_vehicle vehicles s).result = dictKeys s.result := by
  cases hct : s.current_trip with
  | none => simp [close_current_vehicle, hct]
  | some t => simp [close_current_vehicle, hct, dictKeys_appendTrip]

theorem pack_keys (vehicles : List Vehicle) (mw : Int) (s : PackState) (r : Row) :
    dictKeys (pack_step vehicles mw s r).result = dictKeys s.result := by
  cases hct : s.current_trip with
  | none => simp [pack_step, hct]
  | some t =>
    simp only [pack_step, hct]
    split
    · rfl
    · exact close_keys vehicles s

theorem fill_keys (vehicles : List Vehicle) (s : PackState) (r : Row) :
    dictKeys (fill_step vehicles s r).result = dictKeys s.result := by
  cases hpl : placeInExisting s.result r.raw vehicles with
  | some d =>
    have := (placeInExisting_spec r.raw vehicles s.result d hpl).2
    simp [fill_step, hpl, this]
  | none =>
    simp only [fill_step, hpl]
    exact close_keys vehicles _

theorem DictAll_appendTrip {Q : Vehicle → Trip → Prop} :
    ∀ (d : VDict) (vid : String) (t : Trip),
      DictAll Q d → (∀ e ∈ d, e.1.id = vid → Q e.1 t) →
      DictAll Q (dictAppendTrip d vid t) := by
  intro d
  induction d with
  | nil => intro vid t _ _; intro e he; simp [dictAppendTrip] at he
  | cons e rest ih =>
    intro vid t hd ht
    simp only [dictAppendTrip]
    split
    · intro e' he'
      rcases List.mem_cons.mp he' with h | h
      · subst h
        intro tr htr
        rcases List.mem_append.mp htr with h1 | h1
        · exact hd e (List.mem_cons_self _ _) tr h1
        · simp only [List.mem_singleton] at h1
          subst h1
          exact ht e (List.mem_cons_self _ _) (by assumption)
      · exact hd e' (List.mem_cons_of_mem _ h)
    · intro e' he'
      rcases List.mem_cons.mp he' with h | h
      · subst h
        exact hd e' (List.mem_cons_self _ _)
      · exact ih vid t (fun x hx => hd x (List.mem_cons_of_mem _ hx))
          (fun x hx => ht x (List.mem_cons_of_mem _ hx)) e' h

theorem placeInTrips_pres {Q : Trip → Prop} (cap : Int) (b : Booking)
    (hstep : ∀ t : Trip, Q t → cap ≥ t.total_passengers + b.passenger_count →
      Q { t with bookings := t.bookings ++ [b] }) :
    ∀ (ts ts' : List Trip), placeInTrips cap b ts = some ts' →
      (∀ t ∈ ts, Q t) → ∀ t ∈ ts', Q t := by
  intro ts
  induction ts with
  | nil => intro ts' h _; simp [placeInTrips] at h
  | cons t rest ih =>
    intro ts' h hts
    simp only [placeInTrips] at h
    split at h
    · cases h
      intro t' ht'
      rcases List.mem_cons.mp ht' with h1 | h1
      · subst h1
        exact hstep t (hts t (List.mem_cons_self _ _)) (by assumption)
      · exact hts t' (List.mem_cons_of_mem _ h1)
    · rcases Option.map_eq_some'.mp h with ⟨rest', hr, rfl⟩
      intro t' ht'
      rcases List.mem_cons.mp ht' with h1 | h1
      · subst h1
        exact hts t' (List.mem_cons_self _ _)
      · exact ih rest' hr (fun x hx => hts x (List.mem_cons_of_mem _ hx)) t' h1

theorem DictAll_setTrips_first {Q : Vehicle → Trip → Prop} :
    ∀ (d : VDict) (vid : String) (ts₀ ts' : List Trip),
      dictGet d vid = some ts₀ → DictAll Q d →
      (∀ (w : Vehicle), w ∈ dictKeys d → w.id = vid →
        (∀ t ∈ ts₀, Q w t) → ∀ t ∈ ts', Q w t) →
      DictAll Q (dictSetTrips d vid ts') := by
  intro d
  induction d with
  | nil => intro vid ts₀ ts' h _ _; simp [dictGet] at h
  | cons e rest ih =>
    intro vid ts₀ ts' h hd hts
    by_cases he : e.1.id = vid
    · have h0 : ts₀ = e.2 := by
        simp [dictGet, List.find?, he] at h
        exact h.symm
      subst h0
      simp only [dictSetTrips, if_pos he]
      intro e' he'
      rcases List.mem_cons.mp he' with h1 | h1
      · subst h1
        exact hts e.1 (List.mem_map_of_mem _ (List.mem_cons_self _ _)) he
          (hd e (List.mem_cons_self _ _))
      · exact hd e' (List.mem_cons_of_mem _ h1)
    · have h' : dictGet rest vid = some ts₀ := by
        simpa [dictGet, List.find?, he] using h
      simp only [dictSetTrips, if_neg he]
      intro e' he'
      rcases List.mem_cons.mp he' with h1 | h1
      · subst h1
        exact hd e' (List.mem_cons_self _ _)
      · refine ih vid ts₀ ts' h' (fun x hx => hd x (List.mem_cons_of_mem _ hx)) ?_ e' h1
        intro w hw hwid
        exact hts w (List.mem_cons_of_mem _ hw) hwid

theorem placeInExisting_pres {Q : Vehicle → Trip → Prop} (b : Booking) :
    ∀ (vs : List Vehicle) (d d' : VDict), placeInExisting d b vs = some d' →
      DictAll Q d →
      (∀ v ∈ vs, ∀ (w : Vehicle), w ∈ dictKeys d → w.id = v.id → ∀ t, Q w t →
        v.capacity ≥ t.total_passengers + b.passenger_count →
        Q w { t with bookings := t.bookings ++ [b] }) →
      DictAll Q d' := by
  intro vs
  induction vs with
  | nil => intro d d' h _ _; simp [placeInExisting] at h
  | cons v rest ih =>
    intro d d' h hd hstep
    simp only [placeInExisting] at h
    cases hg : placeInTrips v.capacity b ((dictGet d v.id).getD []) with
    | none =>
      rw [hg] at h
      exact ih d d' h hd (fun x hx => hstep x (List.mem_cons_of_mem _ hx))
    | some ts =>
      rw [hg] at h
      cases h
      have hget : ∃ ts₀, dictGet d v.id = some ts₀ := by
        cases hdg : dictGet d v.id with
        | none => rw [hdg] at hg; simp [placeInTrips] at hg
        | some ts₀ => exact ⟨ts₀, rfl⟩
      rcases hget with ⟨ts₀, hts₀⟩
      rw [hts₀] at hg
      refine DictAll_setTrips_first d v.id ts₀ ts hts₀ hd ?_
      intro w hwmem hw hts₀Q
      exact placeInTrips_pres v.capacity b
        (fun t ht hcap => hstep v (List.mem_cons_self _ _) w hwmem hw t ht hcap)
        ts₀ ts (by simpa using hg) hts₀Q

end CarpoolPoc

namespace CarpoolPoc

theorem total_passengers_append (t : Trip) (b : Booking) :
    Trip.total_passengers { t with bookings := t.bookings ++ [b] }
      = t.total_passengers + b.passenger_count := by
  simp [Trip.total_passengers]

theorem close_pres {Q Qopen : Vehicle → Trip → Prop} (vehicles : List Vehicle) (s : PackState)
    (hi : s.idx_vehicle < vehicles.length)
    (hd : DictAll Q s.result)
    (hopen : ∀ t, s.current_trip = some t → Qopen (vehicles.getD s.idx_vehicle default) t)
    (hQclose : ∀ v t, Qopen v t → Q v t)
    (hid : ∀ w ∈ dictKeys s.result, ∀ v ∈ vehicles, w.id = v.id → ∀ t, Q v t → Q w t) :
    DictAll Q (close_current_vehicle vehicles s).result
      ∧ (close_current_vehicle vehicles s).current_trip = none
      ∧ (close_current_vehicle vehicles s).idx_vehicle < vehicles.length := by
  cases hct : s.current_trip with
  | none =>
    have hcl : close_current_vehicle vehicles s = s := by
      simp [close_current_vehicle, hct]
    rw [hcl]
    exact ⟨hd, hct, hi⟩
  | some t =>
    have hcl : close_current_vehicle vehicles s =
        (⟨dictAppendTrip s.result (vehicles.getD s.idx_vehicle default).id t,
          (s.idx_vehicle + 1) % vehicles.length, none⟩ : PackState) := by
      simp [close_current_vehicle, hct]
    rw [hcl]
    refine ⟨?_, rfl, Nat.mod_lt _ (Nat.lt_of_le_of_lt (Nat.zero_le _) hi)⟩
    refine DictAll_appendTrip s.result _ t hd ?_
    intro e he heid
    exact hid e.1 (List.mem_map_of_mem _ he) (vehicles.getD s.idx_vehicle default)
      (getD_mem_of_lt vehicles s.idx_vehicle hi) heid t
      (hQclose _ t (hopen t hct))

theorem pack_step_pres {Q Qopen : Vehicle → Trip → Prop} (vehicles : List Vehicle)
    (mw : Int) (s : PackState) (r : Row)
    (hi : s.idx_vehicle < vehicles.length)
    (hd : DictAll Q s.result)
    (hopen : ∀ t, s.current_trip = some t → Qopen (vehicles.getD s.idx_vehicle default) t)
    (hQclose : ∀ v t, Qopen v t → Q v t)
    (hnew : ∀ v, Qopen v ⟨[r.raw], r.pickup_datetime⟩)
    (happend : ∀ v t, Qopen v t →
      r.pickup_datetime.getD 0 - t.start_time.getD 0 ≤ mw →
      v.capacity ≥ t.total_passengers + r.raw.passenger_count →
      Qopen v { t with bookings := t.bookings ++ [r.raw] })
    (hid : ∀ w ∈ dictKeys s.result, ∀ v ∈ vehicles, w.id = v.id → ∀ t, Q v t → Q w t) :
    DictAll Q (pack_step vehicles mw s r).result
      ∧ (∀ t, (pack_step vehicles mw s r).current_trip = some t →
          Qopen (vehicles.getD (pack_step vehicles mw s r).idx_vehicle default) t)
      ∧ (pack_step vehicles mw s r).idx_vehicle < vehicles.length := by
  cases hct : s.current_trip with
  | none =>
    have hps : pack_step vehicles mw s r =
        { s with current_trip := some { bookings := [r.raw], start_time := r.pickup_datetime } } := by
      simp [pack_step, hct]
    rw [hps]
    refine ⟨hd, ?_, hi⟩
    intro t ht
    cases ht
    exact hnew _
  | some t =>
    have hps : pack_step vehicles mw s r =
        (if r.pickup_datetime.getD 0 - t.start_time.getD 0 ≤ mw ∧
            (vehicles.getD s.idx_vehicle default).capacity ≥
              t.total_passengers + r.raw.passenger_count then
          { s with current_trip := some { t with bookings := t.bookings ++ [r.raw] } }
        else
          { close_current_vehicle vehicles s with
            current_trip := some { bookings := [r.raw], start_time := r.pickup_datetime } }) := by
      simp [pack_step, hct]
    rw [hps]
    split
    · refine ⟨hd, ?_, hi⟩
      intro t' ht'
      cases ht'
      rename_i hcond
      exact happend _ t (hopen t hct) hcond.1 hcond.2
    · obtain ⟨hd', hcur', hi'⟩ := close_pres vehicles s hi hd hopen hQclose hid
      refine ⟨hd', ?_, hi'⟩
      intro t' ht'
      cases ht'
      exact hnew _

theorem fill_step_pres {Q Qopen : Vehicle → Trip → Prop} (vehicles : List Vehicle)
    (s : PackState) (r : Row)
    (hi : s.idx_vehicle < vehicles.length)
    (hcur : s.current_trip = none)
    (hd : DictAll Q s.result)
    (hQclose : ∀ v t, Qopen v t → Q v t)
    (hfillnew : ∀ v, Qopen v ⟨[r.raw], none⟩)
    (hfillappend : ∀ v ∈ vehicles, ∀ (w : Vehicle), w ∈ dictKeys s.result → w.id = v.id →
      ∀ t, Q w t → v.capacity ≥ t.total_passengers + r.raw.passenger_count →
      Q w { t with bookings := t.bookings ++ [r.raw] })
    (hid : ∀ w ∈ dictKeys s.result, ∀ v ∈ vehicles, w.id = v.id → ∀ t, Q v t → Q w t) :
    DictAll Q (fill_step vehicles s r).result
      ∧ (fill_step vehicles s r).current_trip = none
      ∧ (fill_step vehicles s r).idx_vehicle < vehicles.length := by
  cases hpl : placeInExisting s.result r.raw vehicles with
  | some d =>
    have hfs : fill_step vehicles s r = { s with result := d } := by
      simp [fill_step, hpl]
    rw [hfs]
    refine ⟨?_, hcur, hi⟩
    exact placeInExisting_pres r.raw vehicles s.result d hpl hd hfillappend
  | none =>
    have hfs : fill_step vehicles s r = close_current_vehicle vehicles
        { s with current_trip := some { bookings := [r.raw], start_time := none } } := by
      simp [fill_step, hpl]
    rw [hfs]
    obtain ⟨hd', hc', hi'⟩ := close_pres vehicles
      { s with current_trip := some { bookings := [r.raw], start_time := none } }
      hi hd (by intro t ht; cases ht; exact hfillnew _) hQclose hid
    exact ⟨hd', hc', hi'⟩

theorem foldl_pack_keys (vehicles : List Vehicle) (mw : Int) :
    ∀ (rows : List Row) (s : PackState),
      dictKeys (rows.foldl (pack_step vehicles mw) s).result = dictKeys s.result := by
  intro rows
  induction rows with
  | nil => intro s; rfl
  | cons r rows ih =>
    intro s
    simp only [List.foldl_cons]
    rw [ih, pack_keys]

theorem foldl_fill_keys (vehicles : List Vehicle) :
    ∀ (rows : List Row) (s : PackState),
      dictKeys (rows.foldl (fill_step vehicles) s).result = dictKeys s.result := by
  intro rows
  induction rows with
  | nil => intro s; rfl
  | cons r rows ih =>
    intro s
    simp only [List.foldl_cons]
    rw [ih, fill_keys]

theorem foldl_pack_pres {Q Qopen : Vehicle → Trip → Prop} (vehicles : List Vehicle) (mw : Int) :
    ∀ (rows : List Row) (s : PackState),
      s.idx_vehicle < vehicles.length →
      DictAll Q s.result →
      (∀ t, s.current_trip = some t → Qopen (vehicles.getD s.idx_vehicle default) t) →
      (∀ v t, Qopen v t → Q v t) →
      (∀ r ∈ rows, ∀ v, Qopen v ⟨[r.raw], r.pickup_datetime⟩) →
      (∀ r ∈ rows, ∀ v t, Qopen v t →
        r.pickup_datetime.getD 0 - t.start_time.getD 0 ≤ mw →
        v.capacity ≥ t.total_passengers + r.raw.passenger_count →
        Qopen v { t with bookings := t.bookings ++ [r.raw] }) →
      (∀ w ∈ dictKeys s.result, ∀ v ∈ vehicles, w.id = v.id → ∀ t, Q v t → Q w t) →
      DictAll Q (rows.foldl (pack_step vehicles mw) s).result
        ∧ (∀ t, (rows.foldl (pack_step vehicles mw) s).current_trip = some t →
            Qopen (vehicles.getD (rows.foldl (pack_step vehicles mw) s).idx_vehicle default) t)
        ∧ (rows.foldl (pack_step vehicles mw) s).idx_vehicle < vehicles.length := by
  intro rows
  induction rows with
  | nil =>
    intro s hi hd hopen _ _ _ _
    exact ⟨hd, hopen, hi⟩
  | cons r rows ih =>
    intro s hi hd hopen hQclose hnew happend hid
    obtain ⟨hd1, hopen1, hi1⟩ := pack_step_pres vehicles mw s r hi hd hopen hQclose
      (hnew r (List.mem_cons_self _ _)) (happend r (List.mem_cons_self _ _)) hid
    have hid1 : ∀ w ∈ dictKeys (pack_step vehicles mw s r).result, ∀ v ∈ vehicles,
        w.id = v.id → ∀ t, Q v t → Q w t := by
      rw [pack_keys]
      exact hid
    simp only [List.foldl_cons]
    exact ih (pack_step vehicles mw s r) hi1 hd1 hopen1 hQclose
      (fun x hx => hnew x (List.mem_cons_of_mem _ hx))
      (fun x hx => happend x (List.mem_cons_of_mem _ hx)) hid1

theorem foldl_fill_pres {Q Qopen : Vehicle → Trip → Prop} (vehicles : List Vehicle) :
    ∀ (rows : List Row) (s : PackState),
      s.idx_vehicle < vehicles.length →
      s.current_trip = none →
      DictAll Q s.result →
      (∀ v t, Qopen v t → Q v t) →
      (∀ r ∈ rows, ∀ v, Qopen v ⟨[r.raw], none⟩) →
      (∀ r ∈ rows, ∀ v ∈ vehicles, ∀ w ∈ dictKeys s.result, w.id = v.id →
        ∀ t, Q w t → v.capacity ≥ t.total_passengers + r.raw.passenger_count →
        Q w { t with bookings := t.bookings ++ [r.raw] }) →
      (∀ w ∈ dictKeys s.result, ∀ v ∈ vehicles, w.id = v.id → ∀ t, Q v t → Q w t) →
      DictAll Q (rows.foldl (fill_step vehicles) s).result := by
  intro rows
  induction rows with
  | nil =>
    intro s _ _ hd _ _ _ _
    exact hd
  | cons r rows ih =>
    intro s hi hc hd hQclose hfillnew hfillappend hid
    obtain ⟨hd1, hc1, hi1⟩ := fill_step_pres vehicles s r hi hc hd hQclose
      (hfillnew r (List.mem_cons_self _ _))
      (fun v hv w hwmem hwid => hfillappend r (List.mem_cons_self _ _) v hv w hwmem hwid) hid
    have hkeq : dictKeys (fill_step vehicles s r).result = dictKeys s.result :=
      fill_keys vehicles s r
    have hid1 : ∀ w ∈ dictKeys (fill_step vehicles s r).result, ∀ v ∈ vehicles,
        w.id = v.id → ∀ t, Q v t → Q w t := by
      rw [hkeq]
      exact hid
    simp only [List.foldl_cons]
    refine ih (fill_step vehicles s r) hi1 hc1 hd1 hQclose
      (fun x hx => hfillnew x (List.mem_cons_of_mem _ hx)) ?_ hid1
    intro x hx v hv w hwmem
    rw [hkeq] at hwmem
    exact hfillappend x (List.mem_cons_of_mem _ hx) v hv w hwmem

end CarpoolPoc

namespace CarpoolPoc

theorem assign_bookings_keys (df : List Row) (vehicles : List Vehicle) (result : VDict)
    (mw : Int) (d' : VDict)
    (h : assign_bookings_to_vehicles df vehicles result mw = some d') :
    dictKeys d' = dictKeys result := by
  cases hidx : find_vehicle_idx_with_less_trips vehicles result with
  | none =>
    rw [assign_bookings_to_vehicles, hidx] at h
    exact Option.noConfusion h
  | some i =>
    rw [assign_bookings_eq df vehicles result mw i hidx] at h
    cases h
    rw [foldl_fill_keys, close_keys, foldl_pack_keys]

theorem assign_bookings_pres {Q Qopen : Vehicle → Trip → Prop} (df : List Row)
    (vehicles : List Vehicle) (result : VDict) (mw : Int) (d' : VDict)
    (h : assign_bookings_to_vehicles df vehicles result mw = some d')
    (hd : DictAll Q result)
    (hQclose : ∀ v t, Qopen v t → Q v t)
    (hnew : ∀ r ∈ df, ∀ v, Qopen v ⟨[r.raw], r.pickup_datetime⟩)
    (happend : ∀ r ∈ df, ∀ v t, Qopen v t →
      r.pickup_datetime.getD 0 - t.start_time.getD 0 ≤ mw →
      v.capacity ≥ t.total_passengers + r.raw.passenger_count →
      Qopen v { t with bookings := t.bookings ++ [r.raw] })
    (hfillappend : ∀ r ∈ df, r.pickup_datetime.isNone = true →
      ∀ v ∈ vehicles, ∀ w ∈ dictKeys result, w.id = v.id →
      ∀ t, Q w t → v.capacity ≥ t.total_passengers + r.raw.passenger_count →
      Q w { t with bookings := t.bookings ++ [r.raw] })
    (hid : ∀ w ∈ dictKeys result, ∀ v ∈ vehicles, w.id = v.id → ∀ t, Q v t → Q w t) :
    DictAll Q d' := by
  cases hidx : find_vehicle_idx_with_less_trips vehicles result with
  | none =>
    rw [assign_bookings_to_vehicles, hidx] at h
    exact Option.noConfusion h
  | some i =>
    rw [assign_bookings_eq df vehicles result mw i hidx] at h
    have hi := find_vehicle_idx_lt vehicles result i hidx
    obtain ⟨hd1, hopen1, hi1⟩ := foldl_pack_pres vehicles mw
      (sortedBy (fun r => r.pickup_datetime.getD 0)
        (df.filter (fun r => r.pickup_datetime.isSome)))
      (⟨result, i, none⟩ : PackState) hi hd (by intro t ht; cases ht) hQclose
      (by
        intro x hx
        have hxdf : x ∈ df := List.mem_filter.mp (mem_sortedBy.mp hx) |>.1
        exact hnew x hxdf)
      (by
        intro x hx
        have hxdf : x ∈ df := List.mem_filter.mp (mem_sortedBy.mp hx) |>.1
        exact happend x hxdf)
      hid
    have hkeq1 : dictKeys ((sortedBy (fun r => r.pickup_datetime.getD 0)
        (df.filter (fun r => r.pickup_datetime.isSome))).foldl
          (pack_step vehicles mw) (⟨result, i, none⟩ : PackState)).result
        = dictKeys result := foldl_pack_keys vehicles mw _ _
    have hid1 : ∀ w ∈ dictKeys ((sortedBy (fun r => r.pickup_datetime.getD 0)
        (df.filter (fun r => r.pickup_datetime.isSome))).foldl
          (pack_step vehicles mw) (⟨result, i, none⟩ : PackState)).result,
        ∀ v ∈ vehicles, w.id = v.id → ∀ t, Q v t → Q w t := by
      rw [hkeq1]; exact hid
    obtain ⟨hd2, hc2, hi2⟩ := close_pres vehicles _ hi1 hd1 hopen1 hQclose hid1
    have hkeq2 : dictKeys (close_current_vehicle vehicles
        ((sortedBy (fun r => r.pickup_datetime.getD 0)
          (df.filter (fun r => r.pickup_datetime.isSome))).foldl
            (pack_step vehicles mw) (⟨result, i, none⟩ : PackState))).result
        = dictKeys result := by
      rw [close_keys, hkeq1]
    cases h
    refine foldl_fill_pres vehicles
      (df.filter (fun r => r.pickup_datetime.isNone)) _ hi2 hc2 hd2 hQclose ?_ ?_ ?_
    · intro x hx v
      obtain ⟨hxdf, hxnone⟩ := List.mem_filter.mp hx
      have hxn : x.pickup_datetime = none := by
        simpa [Option.isNone_iff_eq_none] using hxnone
      have hq := hnew x hxdf v
      rw [hxn] at hq
      exact hq
    · intro x hx v hv w hwmem
      rw [hkeq2] at hwmem
      obtain ⟨hxdf, hxnone⟩ := List.mem_filter.mp hx
      exact hfillappend x hxdf hxnone v hv w hwmem
    · rw [hkeq2]; exact hid

end CarpoolPoc

namespace CarpoolPoc

theorem packClusters_keys (clustered : List Row) (vehicles : List Vehicle) (mw : Int) :
    ∀ (ids : List Nat) (result d' : VDict),
      packClusters clustered vehicles mw ids result = some d' →
      dictKeys d' = dictKeys result := by
  intro ids
  induction ids with
  | nil => intro result d' h; cases h; rfl
  | cons c ids ih =>
    intro result d' h
    simp only [packClusters] at h
    cases hstep : assign_bookings_to_vehicles
        (clustered.filter (fun r => decide (r.cluster_id = some c))) vehicles result mw with
    | none => rw [hstep] at h; exact Option.noConfusion h
    | some r1 =>
      rw [hstep] at h
      exact (ih r1 d' h).trans (assign_bookings_keys _ vehicles result mw r1 hstep)

theorem packClusters_pres {Q Qopen : Vehicle → Trip → Prop} (clustered : List Row)
    (vehicles : List Vehicle) (mw : Int) :
    ∀ (ids : List Nat) (result d' : VDict),
      packClusters clustered vehicles mw ids result = some d' →
      DictAll Q result →
      (∀ v t, Qopen v t → Q v t) →
      (∀ r ∈ clustered, ∀ v, Qopen v ⟨[r.raw], r.pickup_datetime⟩) →
      (∀ r ∈ clustered, ∀ v t, Qopen v t →
        r.pickup_datetime.getD 0 - t.start_time.getD 0 ≤ mw →
        v.capacity ≥ t.total_passengers + r.raw.passenger_count →
        Qopen v { t with bookings := t.bookings ++ [r.raw] }) →
      (∀ r ∈ clustered, r.pickup_datetime.isNone = true →
        ∀ v ∈ vehicles, ∀ w ∈ dictKeys result, w.id = v.id →
        ∀ t, Q w t → v.capacity ≥ t.total_passengers + r.raw.passenger_count →
        Q w { t with bookings := t.bookings ++ [r.raw] }) →
      (∀ w ∈ dictKeys result, ∀ v ∈ vehicles, w.id = v.id → ∀ t, Q v t → Q w t) →
      DictAll Q d' := by
  intro ids
  induction ids with
  | nil =>
    intro result d' h hd _ _ _ _ _
    cases h
    exact hd
  | cons c ids ih =>
    intro result d' h hd hQclose hnew happend hfillappend hid
    simp only [packClusters] at h
    cases hstep : assign_bookings_to_vehicles
        (clustered.filter (fun r => decide (r.cluster_id = some c))) vehicles result mw with
    | none => rw [hstep] at h; exact Option.noConfusion h
    | some r1 =>
      rw [hstep] at h
      have hd1 : DictAll Q r1 := by
        refine assign_bookings_pres _ vehicles result mw r1 hstep hd hQclose ?_ ?_ ?_ hid
        · intro x hx
          exact hnew x (List.mem_filter.mp hx).1
        · intro x hx
          exact happend x (List.mem_filter.mp hx).1
        · intro x hx hxnone
          exact hfillappend x (List.mem_filter.mp hx).1 hxnone
      have hkeq : dictKeys r1 = dictKeys result :=
        assign_bookings_keys _ vehicles result mw r1 hstep
      refine ih r1 d' h hd1 hQclose hnew happend ?_ ?_
      · intro x hx hxnone v hv w hwmem
        rw [hkeq] at hwmem
        exact hfillappend x hx hxnone v hv w hwmem
      · intro w hwmem
        rw [hkeq] at hwmem
        exact hid w hwmem

theorem foldl_distribute_pres {Q : Vehicle → Trip → Prop} (vehicles : List Vehicle) :
    ∀ (rows : List Row) (p : VDict × Nat),
      DictAll Q p.1 →
      (∀ r ∈ rows, ∀ v, Q v ⟨[r.raw], none⟩) →
      DictAll Q (rows.foldl (distribute_step vehicles) p).1 := by
  intro rows
  induction rows with
  | nil => intro p hd _; exact hd
  | cons r rows ih =>
    intro p hd hq
    simp only [List.foldl_cons]
    refine ih (distribute_step vehicles p r) ?_
      (fun x hx => hq x (List.mem_cons_of_mem _ hx))
    refine DictAll_appendTrip p.1 _ _ hd ?_
    intro e _ _
    exact hq r (List.mem_cons_self _ _) e.1

theorem initDict_keys_mem (vehicles : List Vehicle) :
    ∀ (acc : VDict) (w : Vehicle), w ∈ dictKeys (vehicles.foldl dictSetEmpty acc) →
      w ∈ dictKeys acc ∨ w ∈ vehicles := by
  induction vehicles with
  | nil => intro acc w h; exact Or.inl h
  | cons v vs ih =>
    intro acc w h
    simp only [List.foldl_cons] at h
    rcases ih (dictSetEmpty acc v) w h with h1 | h1
    · rw [dictKeys_setEmpty] at h1
      split at h1
      · exact Or.inl h1
      · rcases List.mem_append.mp h1 with h2 | h2
        · exact Or.inl h2
        · simp only [List.mem_singleton] at h2
          subst h2
          exact Or.inr (List.mem_cons_self _ _)
    · exact Or.inr (List.mem_cons_of_mem _ h1)

theorem DictAll_init {Q : Vehicle → Trip → Prop} (vehicles : List Vehicle) :
    DictAll Q (vehicles.foldl dictSetEmpty []) := by
  intro e he t ht
  rw [initDict_values_nil vehicles [] (by intro x hx; simp at hx) e he] at ht
  simp at ht

theorem DictAll_plan {Q : Vehicle → Trip → Prop} (d : VDict) (h : DictAll Q d) :
    ∀ vp ∈ d.map (fun e => ({ vehicle := e.1, trips := e.2 } : VehiclePlan)),
      ∀ t ∈ vp.trips, Q vp.vehicle t := by
  intro vp hvp
  rcases List.mem_map.mp hvp with ⟨e, he, rfl⟩
  intro t ht
  exact h e he t ht

theorem assign_to_vehicle_go_pres {Q Qopen : Vehicle → Trip → Prop} (df : List Row)
    (vehicles : List Vehicle) (mw : Int) (plan : List VehiclePlan)
    (h : assign_to_vehicle_go df vehicles mw = some plan)
    (hQclose : ∀ v t, Qopen v t → Q v t)
    (hnew : ∀ r ∈ df, ∀ v, Qopen v ⟨[r.raw], r.pickup_datetime⟩)
    (happend : ∀ r ∈ df, ∀ v t, Qopen v t →
      r.pickup_datetime.getD 0 - t.start_time.getD 0 ≤ mw →
      v.capacity ≥ t.total_passengers + r.raw.passenger_count →
      Qopen v { t with bookings := t.bookings ++ [r.raw] })
    (hfillappend : ∀ r ∈ df, r.pickup_datetime.isNone = true →
      ∀ v ∈ vehicles, ∀ w ∈ vehicles, w.id = v.id →
      ∀ t, Q w t → v.capacity ≥ t.total_passengers + r.raw.passenger_count →
      Q w { t with bookings := t.bookings ++ [r.raw] })
    (hdist : ∀ r ∈ df, ∀ v, Q v ⟨[r.raw], none⟩)
    (hid : ∀ w ∈ vehicles, ∀ v ∈ vehicles, w.id = v.id → ∀ t, Q v t → Q w t) :
    ∀ vp ∈ plan, ∀ t ∈ vp.trips, Q vp.vehicle t := by
  cases hpc : packClusters (df.filter (fun r => r.cluster_id.isSome))
      (sortedBy (fun v => -v.capacity) vehicles) mw (cluster_ids_order df)
      (vehicles.foldl dictSetEmpty []) with
  | none =>
    have hnone : assign_to_vehicle_go df vehicles mw = none := by
      simp only [assign_to_vehicle_go, hpc]
    rw [hnone] at h
    exact Option.noConfusion h
  | some result1 =>
    cases hidx : find_vehicle_idx_with_less_trips
        (sortedBy (fun v => -v.capacity) vehicles) result1 with
    | none =>
      have hnone : assign_to_vehicle_go df vehicles mw = none := by
        simp only [assign_to_vehicle_go, hpc, hidx]
      rw [hnone] at h
      exact Option.noConfusion h
    | some i =>
      rw [assign_to_vehicle_go_eq df vehicles mw result1 i hpc hidx] at h
      have hkmem : ∀ w ∈ dictKeys (vehicles.foldl dictSetEmpty []), w ∈ vehicles := by
        intro w hw
        rcases initDict_keys_mem vehicles [] w hw with h1 | h1
        · simp [dictKeys] at h1
        · exact h1
      have hd1 : DictAll Q result1 := by
        refine packClusters_pres (df.filter (fun r => r.cluster_id.isSome))
          (sortedBy (fun v => -v.capacity) vehicles) mw
          (cluster_ids_order df) (vehicles.foldl dictSetEmpty []) result1 hpc
          (DictAll_init vehicles) hQclose ?_ ?_ ?_ ?_
        · intro x hx
          exact hnew x (List.mem_filter.mp hx).1
        · intro x hx
          exact happend x (List.mem_filter.mp hx).1
        · intro x hx hxnone v hv w hwmem
          exact hfillappend x (List.mem_filter.mp hx).1 hxnone v (mem_sortedBy.mp hv)
            w (hkmem w hwmem)
        · intro w hwmem v hv
          exact hid w (hkmem w hwmem) v (mem_sortedBy.mp hv)
      cases h
      refine DictAll_plan _ ?_
      refine foldl_distribute_pres (sortedBy (fun v => -v.capacity) vehicles) _
        (result1, i) hd1 ?_
      intro x hx
      exact hdist x (List.mem_filter.mp (mem_sortedBy.mp hx)).1

end CarpoolPoc

namespace CarpoolPoc

theorem core_mem {df df' : List Row} (h : df'.map rowCore = df.map rowCore) :
    ∀ r' ∈ df', ∃ r ∈ df, rowCore r' = rowCore r := by
  intro r' hr'
  have hmem : rowCore r' ∈ df.map rowCore := h ▸ List.mem_map_of_mem rowCore hr'
  rcases List.mem_map.mp hmem with ⟨r, hr, he⟩
  exact ⟨r, hr, he.symm⟩

theorem prepare_df_link (resolve : String → String → String → Option DT)
    (request : CarpoolRequest) (df : List Row)
    (h : prepare_df resolve request = some df) :
    ∀ r ∈ df, r.pickup_datetime = resolvedPickup resolve request.date r.raw := by
  simp only [prepare_df] at h
  split at h
  · exact Option.noConfusion h
  · cases h
    intro r hr
    rcases List.mem_map.mp hr with ⟨p, _, rfl⟩
    rfl

theorem annotated_core (kf : List (Int × Int) → Nat → List Nat)
    (request : CarpoolRequest) (df : List Row) (out : List Row × Bool)
    (hgsa : group_same_addresses df = some out) :
    (if (request.config.getD {}).pool_neighbors then
        geoStamp kf out.1 (request.config.getD {}).geo_clusters
      else out.1).map rowCore = df.map rowCore := by
  split
  · rw [geoStamp_core, group_same_addresses_core df out hgsa]
  · exact group_same_addresses_core df out hgsa

theorem annotated_link (resolve : String → String → String → Option DT)
    (kf : List (Int × Int) → Nat → List Nat) (request : CarpoolRequest) (df : List Row)
    (out : List Row × Bool)
    (hdf : prepare_df resolve request = some df)
    (hgsa : group_same_addresses df = some out) :
    ∀ r ∈ (if (request.config.getD {}).pool_neighbors then
        geoStamp kf out.1 (request.config.getD {}).geo_clusters
      else out.1),
      r.pickup_datetime = resolvedPickup resolve request.date r.raw := by
  intro r hr
  rcases core_mem (annotated_core kf request df out hgsa) r hr with ⟨r0, hr0, he⟩
  have h0 := prepare_df_link resolve request df hdf r0 hr0
  simp only [rowCore, Prod.mk.injEq] at he
  obtain ⟨_, hraw, hpd, _⟩ := he
  rw [hpd, hraw]
  exact h0

/-- Claim C3 (amended) — wait-window bound: provided the configured
`max_wait_minutes` is nonnegative, in every anchored trip of the final plan
(anchored trips are exactly the trips opened by the time-window packer) every
member booking with a resolved pickup instant lies within `max_wait_minutes`
of the trip's anchor — the comparison is always against the anchor, never the
previous booking; and on the spec's concrete scenario (9:00, 9:10, 9:40 to a
common dropoff, one vehicle of capacity 4, 30-minute window) the plan is
exactly trip [9:00, 9:10] followed by trip [9:40]. -/
theorem c3_window_bound :
    (∀ (resolve : String → String → String → Option DT)
        (kf : List (Int × Int) → Nat → List Nat)
        (request : CarpoolRequest) (resp : CarpoolResponse),
        0 ≤ (request.config.getD {}).max_wait_minutes →
        calculate resolve kf request = some resp →
        ∀ vp ∈ resp.plan, ∀ t ∈ vp.trips, ∀ a, t.start_time = some a →
          ∀ b ∈ t.bookings, ∀ p, resolvedPickup resolve request.date b = some p →
            p - a ≤ (request.config.getD {}).max_wait_minutes)
      ∧ calculate rvT kf0 req3 = some resp3 := by
  constructor
  · intro resolve kf request resp hmw h
    rcases calculate_some resolve kf request resp h with ⟨df, out, hdf, hgsa, hcol⟩
    · rw [calculate_eq resolve kf request df out hdf hgsa hcol] at h
      rcases Option.map_eq_some'.mp h with ⟨plan, hassign, hresp⟩
      subst hresp
      have hlink := annotated_link resolve kf request df out hdf hgsa
      have hpres := @assign_to_vehicle_go_pres
        (fun (_ : Vehicle) (t : Trip) =>
          TripWin (resolvedPickup resolve request.date)
            (request.config.getD {}).max_wait_minutes t)
        (fun (_ : Vehicle) (t : Trip) =>
          TripWin (resolvedPickup resolve request.date)
            (request.config.getD {}).max_wait_minutes t)
        _ request.vehicles _ plan hassign
        (fun _ _ hq => hq)
        (by
          intro r hr v a ha b hb p hp
          simp only [List.mem_singleton] at hb
          subst hb
          rw [← hlink r hr] at hp
          simp only at ha
          rw [ha] at hp
          injection hp with hap
          subst hap
          simpa using hmw)
        (by
          intro r hr v t hq hwin hcap a ha b hb p hp
          simp only at ha
          rcases List.mem_append.mp hb with h1 | h1
          · exact hq a ha b h1 p hp
          · simp only [List.mem_singleton] at h1
            subst h1
            rw [← hlink r hr] at hp
            rw [hp, ha] at hwin
            simpa using hwin)
        (by
          intro r hr hrnone v _ w _ _ t hq _ a ha b hb p hp
          simp only at ha
          rcases List.mem_append.mp hb with h1 | h1
          · exact hq a ha b h1 p hp
          · simp only [List.mem_singleton] at h1
            subst h1
            rw [← hlink r hr] at hp
            rw [Option.isNone_iff_eq_none.mp hrnone] at hp
            exact Option.noConfusion hp)
        (by
          intro r hr v a ha
          exact Option.noConfusion ha)
        (fun _ _ _ _ _ _ hq => hq)
      intro vp hvp t ht a ha b hb p hp
      exact hpres vp hvp t ht a ha b hb p hp
  · decide

/-- Witness for the universally quantified part of `c3_window_bound`,
instantiated at the concrete scenario run. -/
theorem c3_window_bound_witness :
    (0 : Int) ≤ (req3.config.getD {}).max_wait_minutes ∧
      calculate rvT kf0 req3 = some resp3 ∧
      ∀ vp ∈ resp3.plan, ∀ t ∈ vp.trips, ∀ a, t.start_time = some a →
        ∀ b ∈ t.bookings, ∀ p, resolvedPickup rvT req3.date b = some p →
          p - a ≤ (req3.config.getD {}).max_wait_minutes :=
  ⟨by decide, by decide,
    c3_window_bound.1 rvT kf0 req3 resp3 (by decide) (by decide)⟩

end CarpoolPoc

namespace CarpoolPoc

theorem nodup_vid_eq {vehicles : List Vehicle}
    (hnodup : (vehicles.map (fun v => v.id)).Nodup) :
    ∀ w ∈ vehicles, ∀ v ∈ vehicles, w.id = v.id → w = v := by
  intro w hw v hv he
  exact List.inj_on_of_nodup_map hnodup hw hv he

/-- Claim C2 (amended) — capacity: for every run on a fleet with pairwise
distinct vehicle ids, every trip of the final plan either respects its
vehicle's capacity or is a single booking whose passenger count alone exceeds
it; the engine checks capacity at every append to a non-empty trip but never
when opening a trip, so oversized trips are always singletons. -/
theorem c2_capacity_bound (resolve : String → String → String → Option DT)
    (kf : List (Int × Int) → Nat → List Nat) (request : CarpoolRequest)
    (resp : CarpoolResponse)
    (hnodup : (request.vehicles.map (fun v => v.id)).Nodup)
    (h : calculate resolve kf request = some resp) :
    ∀ vp ∈ resp.plan, ∀ t ∈ vp.trips,
      t.total_passengers ≤ vp.vehicle.capacity ∨
        ∃ b, t.bookings = [b] ∧ vp.vehicle.capacity < b.passenger_count := by
  rcases calculate_some resolve kf request resp h with ⟨df, out, hdf, hgsa, hcol⟩
  · rw [calculate_eq resolve kf request df out hdf hgsa hcol] at h
    rcases Option.map_eq_some'.mp h with ⟨plan, hassign, hresp⟩
    subst hresp
    have hwv := nodup_vid_eq hnodup
    have hpres := @assign_to_vehicle_go_pres
      (fun (w : Vehicle) (t : Trip) =>
        t.total_passengers ≤ w.capacity ∨ t.bookings.length = 1)
      (fun (w : Vehicle) (t : Trip) =>
        t.total_passengers ≤ w.capacity ∨ t.bookings.length = 1)
      _ request.vehicles _ plan hassign
      (fun _ _ hq => hq)
      (by intro r _ v; right; rfl)
      (by
        intro r _ v t _ _ hcap
        left
        rw [total_passengers_append]
        omega)
      (by
        intro r _ _ v hv w hw hwid t hq hcap
        have hv' := hwv w hw v hv hwid
        subst hv'
        left
        rw [total_passengers_append]
        omega)
      (by intro r _ v; right; rfl)
      (by
        intro w hw v hv hwid t hq
        have hv' := hwv w hw v hv hwid
        rw [hv']
        exact hq)
    intro vp hvp t ht
    rcases hpres vp hvp t ht with hle | hlen
    · exact Or.inl hle
    · by_cases hcap : t.total_passengers ≤ vp.vehicle.capacity
      · exact Or.inl hcap
      · right
        rcases List.length_eq_one.mp hlen with ⟨b, hb⟩
        refine ⟨b, hb, ?_⟩
        have hone : t.total_passengers = b.passenger_count := by
          simp [Trip.total_passengers, hb]
        omega

/-- Witness for `c2_capacity_bound` at the concrete scenario run. -/
theorem c2_capacity_bound_witness :
    (req3.vehicles.map (fun v => v.id)).Nodup ∧ calculate rvT kf0 req3 = some resp3 ∧
      ∀ vp ∈ resp3.plan, ∀ t ∈ vp.trips,
        t.total_passengers ≤ vp.vehicle.capacity ∨
          ∃ b, t.bookings = [b] ∧ vp.vehicle.capacity < b.passenger_count :=
  ⟨by decide, by decide, c2_capacity_bound rvT kf0 req3 resp3 (by decide) (by decide)⟩

end CarpoolPoc

namespace CarpoolPoc

theorem dedupByVidGo_congr :
    ∀ (l : List Vehicle) (s1 s2 : List String), (∀ x, x ∈ s1 ↔ x ∈ s2) →
      dedupByVidGo s1 l = dedupByVidGo s2 l := by
  intro l
  induction l with
  | nil => intro s1 s2 _; rfl
  | cons v vs ih =>
    intro s1 s2 hs
    simp only [dedupByVidGo]
    by_cases h1 : v.id ∈ s1
    · rw [if_pos h1, if_pos ((hs v.id).mp h1)]
      exact ih s1 s2 hs
    · rw [if_neg h1, if_neg (fun h => h1 ((hs v.id).mpr h))]
      refine congrArg (List.cons v) (ih _ _ ?_)
      intro x
      constructor
      · intro hx
        rcases List.mem_cons.mp hx with h | h
        · exact List.mem_cons.mpr (Or.inl h)
        · exact List.mem_cons.mpr (Or.inr ((hs x).mp h))
      · intro hx
        rcases List.mem_cons.mp hx with h | h
        · exact List.mem_cons.mpr (Or.inl h)
        · exact List.mem_cons.mpr (Or.inr ((hs x).mpr h))

theorem initDict_keys (vehicles : List Vehicle) :
    ∀ (acc : VDict),
      dictKeys (vehicles.foldl dictSetEmpty acc)
        = dictKeys acc ++ dedupByVidGo ((dictKeys acc).map (fun v => v.id)) vehicles := by
  induction vehicles with
  | nil => intro acc; simp [dedupByVidGo]
  | cons v vs ih =>
    intro acc
    simp only [List.foldl_cons]
    rw [ih (dictSetEmpty acc v)]
    by_cases hc : dictContains acc v.id
    · have hkeys : dictKeys (dictSetEmpty acc v) = dictKeys acc := by
        rw [dictKeys_setEmpty, if_pos hc]
      rw [hkeys]
      have hvmem : v.id ∈ (dictKeys acc).map (fun v => v.id) := by
        rcases (dictContains_eq acc v.id).mp hc with ⟨w, hw, hwid⟩
        exact List.mem_map.mpr ⟨w, hw, hwid⟩
      simp only [dedupByVidGo, if_pos hvmem]
    · have hkeys : dictKeys (dictSetEmpty acc v) = dictKeys acc ++ [v] := by
        rw [dictKeys_setEmpty, if_neg hc]
      rw [hkeys]
      have hvmem : ¬ v.id ∈ (dictKeys acc).map (fun v => v.id) := by
        intro hmem
        rcases List.mem_map.mp hmem with ⟨w, hw, hwid⟩
        exact hc ((dictContains_eq acc v.id).mpr ⟨w, hw, hwid⟩)
      simp only [dedupByVidGo, if_neg hvmem]
      rw [List.append_assoc, List.singleton_append]
      refine congrArg (fun l => dictKeys acc ++ (v :: l)) ?_
      refine dedupByVidGo_congr vs _ _ ?_
      intro x
      simp [List.mem_append, List.mem_cons, or_comm]

/-- Claim C10 — duplicate vehicle ids: the accumulator is keyed by
identifier-based equality (`Vehicle.__eq__`/`__hash__` compare `id`), so the
output plan contains exactly one `VehiclePlan` per distinct vehicle id, namely
the first input entry bearing that id, in first-occurrence order; trips routed
through either duplicate accumulate on that single entry. -/
theorem c10_duplicate_vehicles (resolve : String → String → String → Option DT)
    (kf : List (Int × Int) → Nat → List Nat) (request : CarpoolRequest)
    (resp : CarpoolResponse)
    (h : calculate resolve kf request = some resp) :
    resp.plan.map (fun vp => vp.vehicle) = dedupByVid request.vehicles := by
  rcases calculate_some resolve kf request resp h with ⟨df, out, hdf, hgsa, hcol⟩
  · rw [calculate_eq resolve kf request df out hdf hgsa hcol] at h
    rcases Option.map_eq_some'.mp h with ⟨plan, hassign, hresp⟩
    subst hresp
    obtain ⟨_, hkeys⟩ := assign_to_vehicle_go_spec _ request.vehicles _ plan hassign
    show plan.map (fun vp => vp.vehicle) = dedupByVid request.vehicles
    rw [hkeys, initDict_keys request.vehicles []]
    rfl

/-- Witness for `c10_duplicate_vehicles` at the duplicate-fleet request
`req4`: one plan entry per distinct id, with both trips accumulated on the
first `A` entry. -/
theorem c10_duplicate_vehicles_witness :
    calculate rvT kf0 req4 = some resp4 ∧
      resp4.plan.map (fun vp => vp.vehicle) = dedupByVid req4.vehicles :=
  ⟨by decide, c10_duplicate_vehicles rvT kf0 req4 resp4 (by decide)⟩

end CarpoolPoc

namespace CarpoolPoc

theorem dictGet_cons (e : Vehicle × List Trip) (rest : VDict) (x : String) :
    dictGet (e :: rest) x = if e.1.id = x then some e.2 else dictGet rest x := by
  by_cases hex : e.1.id = x <;> simp [dictGet, List.find?, hex]

theorem dictGet_appendTrip (vid x : String) (t : Trip) :
    ∀ (d : VDict), dictGet (dictAppendTrip d vid t) x
      = if x = vid then (dictGet d vid).map (fun ts => ts ++ [t]) else dictGet d x := by
  intro d
  induction d with
  | nil =>
    simp only [dictAppendTrip, dictGet, List.find?]
    split <;> rfl
  | cons e rest ih =>
    by_cases he : e.1.id = vid
    · have h1 : dictAppendTrip (e :: rest) vid t = (e.1, e.2 ++ [t]) :: rest := by
        simp [dictAppendTrip, he]
      by_cases hx : x = vid
      · subst hx
        have hex : e.1.id = x := he
        simp [h1, dictGet_cons, hex]
      · have hex : ¬ e.1.id = x := fun hc => hx (hc.symm.trans he)
        simp [h1, dictGet_cons, hex, hx]
    · have h1 : dictAppendTrip (e :: rest) vid t = e :: dictAppendTrip rest vid t := by
        simp [dictAppendTrip, he]
      by_cases hex : e.1.id = x
      · have hx : ¬ x = vid := fun hc => he (hex.trans hc)
        simp [h1, dictGet_cons, hex, hx]
      · simp [h1, dictGet_cons, hex, he, ih]

theorem dictGet_setTrips (vid x : String) (ts' : List Trip) :
    ∀ (d : VDict), dictGet (dictSetTrips d vid ts') x
      = if x = vid then (dictGet d vid).map (fun _ => ts') else dictGet d x := by
  intro d
  induction d with
  | nil =>
    simp only [dictSetTrips, dictGet, List.find?]
    split <;> rfl
  | cons e rest ih =>
    by_cases he : e.1.id = vid
    · have h1 : dictSetTrips (e :: rest) vid ts' = (e.1, ts') :: rest := by
        simp [dictSetTrips, he]
      by_cases hx : x = vid
      · subst hx
        have hex : e.1.id = x := he
        simp [h1, dictGet_cons, hex]
      · have hex : ¬ e.1.id = x := fun hc => hx (hc.symm.trans he)
        simp [h1, dictGet_cons, hex, hx]
    · have h1 : dictSetTrips (e :: rest) vid ts' = e :: dictSetTrips rest vid ts' := by
        simp [dictSetTrips, he]
      by_cases hex : e.1.id = x
      · have hx : ¬ x = vid := fun hc => he (hex.trans hc)
        simp [h1, dictGet_cons, hex, hx]
      · simp [h1, dictGet_cons, hex, he, ih]

theorem countTrips_appendTrip (d : VDict) (vid x : String) (t : Trip) :
    countTrips (dictAppendTrip d vid t) x
      = if x = vid ∧ dictContains d vid = true then countTrips d x + 1 else countTrips d x := by
  rw [countTrips, dictGet_appendTrip]
  by_cases hx : x = vid
  · subst hx
    cases hg : dictGet d x with
    | none =>
      have hc : dictContains d x = false := by
        by_contra hc
        simp only [Bool.not_eq_false] at hc
        rcases (dictContains_eq d x).mp hc with ⟨w, hw, hwid⟩
        rcases List.mem_map.mp hw with ⟨e, he, rfl⟩
        have : (d.find? (fun e => decide (e.1.id = x))).isSome = true := by
          apply List.find?_isSome.mpr
          exact ⟨e, he, by simp [hwid]⟩
        rw [dictGet] at hg
        rcases Option.isSome_iff_exists.mp this with ⟨e', he'⟩
        rw [he'] at hg
        simp at hg
      simp [hc, countTrips, hg]
    | some ts =>
      have hc : dictContains d x = true := by
        rw [dictGet] at hg
        rcases Option.map_eq_some'.mp hg with ⟨e, he, _⟩
        have hmem := List.mem_of_find?_eq_some he
        have hp := List.find?_some he
        simp only [decide_eq_true_eq] at hp
        exact (dictContains_eq d x).mpr ⟨e.1, List.mem_map_of_mem _ hmem, hp⟩
      simp [hc, countTrips, hg]
  · simp [hx, countTrips]

theorem countTrips_setTrips (d : VDict) (vid x : String) (ts₀ ts' : List Trip)
    (hget : dictGet d vid = some ts₀) (hlen : ts'.length = ts₀.length) :
    countTrips (dictSetTrips d vid ts') x = countTrips d x := by
  rw [countTrips, dictGet_setTrips]
  by_cases hx : x = vid
  · subst hx
    rw [hget]
    simp [countTrips, hget, hlen]
  · simp [hx, countTrips]

theorem placeInTrips_length (cap : Int) (b : Booking) :
    ∀ (ts ts' : List Trip), placeInTrips cap b ts = some ts' → ts'.length = ts.length := by
  intro ts
  induction ts with
  | nil => intro ts' h; simp [placeInTrips] at h
  | cons t rest ih =>
    intro ts' h
    simp only [placeInTrips] at h
    split at h
    · cases h; rfl
    · rcases Option.map_eq_some'.mp h with ⟨rest', hr, rfl⟩
      simp [ih rest' hr]

theorem placeInExisting_counts (b : Booking) :
    ∀ (vs : List Vehicle) (d d' : VDict), placeInExisting d b vs = some d' →
      ∀ x, countTrips d' x = countTrips d x := by
  intro vs
  induction vs with
  | nil => intro d d' h; simp [placeInExisting] at h
  | cons v rest ih =>
    intro d d' h x
    simp only [placeInExisting] at h
    cases hg : placeInTrips v.capacity b ((dictGet d v.id).getD []) with
    | none => rw [hg] at h; exact ih d d' h x
    | some ts =>
      rw [hg] at h
      cases h
      have hget : ∃ ts₀, dictGet d v.id = some ts₀ := by
        cases hdg : dictGet d v.id with
        | none => rw [hdg] at hg; simp [placeInTrips] at hg
        | some ts₀ => exact ⟨ts₀, rfl⟩
      rcases hget with ⟨ts₀, hts₀⟩
      rw [hts₀] at hg
      exact countTrips_setTrips d v.id x ts₀ ts hts₀
        (placeInTrips_length v.capacity b ts₀ ts (by simpa using hg))

end CarpoolPoc

namespace CarpoolPoc

theorem getD_eq_get {α : Type} [Inhabited α] :
    ∀ (l : List α) (i : Nat) (h : i < l.length), l.getD i default = l.get ⟨i, h⟩ := by
  intro l
  induction l with
  | nil => intro i h; exact absurd h (Nat.not_lt_zero i)
  | cons a t ih =>
    intro i h
    cases i with
    | zero => rfl
    | succ j => exact ih j (Nat.lt_of_succ_lt_succ h)

theorem findIdxGo_nil (result : VDict) (i : Nat) (min : Int) (mi : Option Nat) :
    findIdxGo result i [] min mi = mi := rfl

theorem findIdxGo_zero_head (result : VDict) (v : Vehicle) (vs2 : List Vehicle)
    (i : Nat) (min : Int) (mi : Option Nat) (h : countTrips result v.id = 0) :
    findIdxGo result i (v :: vs2) min mi = some i := by
  have hnil : (dictGet result v.id).getD [] = [] := by
    rw [countTrips] at h
    exact List.length_eq_zero.mp h
  simp [findIdxGo, hnil]

theorem findIdxGo_uniform (result : VDict) (c : Nat) (hc : 0 < c) :
    ∀ (vs : List Vehicle), (∀ v ∈ vs, countTrips result v.id = c) →
      ∀ (vs2 : List Vehicle) (i : Nat) (min : Int) (mi : Option Nat),
        findIdxGo result i (vs ++ vs2) min mi =
          if (c : Int) < min ∧ vs ≠ [] then
            findIdxGo result (i + vs.length) vs2 (c : Int) (some i)
          else findIdxGo result (i + vs.length) vs2 min mi := by
  intro vs
  induction vs with
  | nil =>
    intro _ vs2 i min mi
    simp [findIdxGo]
  | cons v vs ih =>
    intro hall vs2 i min mi
    have hcv : countTrips result v.id = c := hall v (List.mem_cons_self _ _)
    have hne : ((dictGet result v.id).getD []).isEmpty = false := by
      cases hts : (dictGet result v.id).getD [] with
      | nil =>
        rw [countTrips, hts] at hcv
        simp at hcv
        omega
      | cons x xs => rfl
    have hlen : (((dictGet result v.id).getD []).length : Int) = (c : Int) := by
      rw [countTrips] at hcv
      exact_mod_cast congrArg Nat.cast hcv
    have hstep : findIdxGo result i ((v :: vs) ++ vs2) min mi =
        if (c : Int) < min then findIdxGo result (i + 1) (vs ++ vs2) (c : Int) (some i)
        else findIdxGo result (i + 1) (vs ++ vs2) min mi := by
      simp only [List.cons_append, findIdxGo, hne, Bool.false_eq_true, if_false]
      rw [hlen]
      rfl
    rw [hstep]
    have htail := ih (fun x hx => hall x (List.mem_cons_of_mem _ hx)) vs2
    by_cases hlt : (c : Int) < min
    · rw [if_pos hlt]
      rw [htail (i + 1) (c : Int) (some i)]
      have hcc : ¬ ((c : Int) < (c : Int) ∧ vs ≠ []) := fun hx => absurd hx.1 (lt_irrefl _)
      rw [if_neg hcc]
      have hidx : i + 1 + vs.length = i + (v :: vs).length := by
        simp [List.length_cons]
        omega
      rw [hidx]
      have : ((c : Int) < min ∧ v :: vs ≠ []) := ⟨hlt, by simp⟩
      rw [if_pos this]
    · rw [if_neg hlt]
      rw [htail (i + 1) min mi]
      have hcc : ¬ ((c : Int) < min ∧ vs ≠ []) := fun hx => absurd hx.1 hlt
      rw [if_neg hcc]
      have hidx : i + 1 + vs.length = i + (v :: vs).length := by
        simp [List.length_cons]
        omega
      rw [hidx]
      have : ¬ ((c : Int) < min ∧ v :: vs ≠ []) := fun hx => absurd hx.1 hlt
      rw [if_neg this]

end CarpoolPoc

namespace CarpoolPoc

theorem count_take_of_shape {vehicles : List Vehicle} {d : VDict} {q m : Nat}
    (hshape : PosShape vehicles d q m) (hm : m ≤ vehicles.length) :
    ∀ v ∈ vehicles.take m, countTrips d v.id = q + 1 := by
  intro v hv
  rcases List.mem_iff_getElem.mp hv with ⟨j, hj, hvj⟩
  have hjm : j < m := by
    have h2 := hj
    rw [List.length_take] at h2
    omega
  have hjlen : j < vehicles.length := lt_of_lt_of_le hjm hm
  have hget : (vehicles.take m)[j] = vehicles[j] := List.getElem_take vehicles
  have hs := hshape j hjlen
  rw [if_pos hjm] at hs
  rw [← hvj, hget]
  simpa [List.get_eq_getElem] using hs

theorem count_drop_of_shape {vehicles : List Vehicle} {d : VDict} {q m : Nat}
    (hshape : PosShape vehicles d q m) :
    ∀ v ∈ vehicles.drop m, countTrips d v.id = q := by
  intro v hv
  rcases List.mem_iff_getElem.mp hv with ⟨j, hj, hvj⟩
  have hjlen : m + j < vehicles.length := by
    have h2 := hj
    rw [List.length_drop] at h2
    omega
  have hget : (vehicles.drop m)[j] = vehicles[m + j] := List.getElem_drop vehicles
  have hs := hshape (m + j) hjlen
  rw [if_neg (by omega)] at hs
  rw [← hvj, hget]
  simpa [List.get_eq_getElem] using hs

theorem find_idx_shape (vehicles : List Vehicle) (d : VDict) (q m : Nat)
    (hm : m < vehicles.length) (hshape : PosShape vehicles d q m)
    (hq : q < 999999998) :
    find_vehicle_idx_with_less_trips vehicles d = some m := by
  have htake := count_take_of_shape hshape (Nat.le_of_lt hm)
  have hdrop := count_drop_of_shape hshape
  have hlen_take : (vehicles.take m).length = m := by
    rw [List.length_take]
    omega
  have hdropne : vehicles.drop m ≠ [] := by
    intro hnil
    rw [List.drop_eq_nil_iff] at hnil
    omega
  rw [find_vehicle_idx_with_less_trips]
  have hsplit := List.take_append_drop m vehicles
  rw [← hsplit]
  rw [findIdxGo_uniform d (q + 1) (Nat.succ_pos q) (vehicles.take m) htake
    (vehicles.drop m) 0 999999999 none]
  rw [hlen_take, Nat.zero_add]
  have hheadcount : countTrips d (vehicles[m]).id = if m < m then q + 1 else q := by
    have hs := hshape m hm
    simpa [List.get_eq_getElem] using hs
  rw [if_neg (lt_irrefl m)] at hheadcount
  have hhead : vehicles.drop m = vehicles[m] :: vehicles.drop (m + 1) :=
    List.drop_eq_getElem_cons hm
  by_cases hq0 : q = 0
  · subst hq0
    have hzero : ∀ (mn : Int) (mi : Option Nat),
        findIdxGo d m (vehicles.drop m) mn mi = some m := by
      intro mn mi
      rw [hhead]
      exact findIdxGo_zero_head d (vehicles[m]) (vehicles.drop (m + 1)) m mn mi hheadcount
    split
    · exact hzero _ _
    · exact hzero _ _
  · have hqpos : 0 < q := Nat.pos_of_ne_zero hq0
    have hsecond : ∀ (mn : Int) (mi : Option Nat), (q : Int) < mn →
        findIdxGo d m (vehicles.drop m) mn mi = some m := by
      intro mn mi hlt
      have h2 := findIdxGo_uniform d q hqpos (vehicles.drop m) hdrop [] m mn mi
      rw [List.append_nil] at h2
      rw [h2, if_pos ⟨hlt, hdropne⟩]
      rfl
    by_cases hm0 : m = 0
    · subst hm0
      have hcond : ¬(((q + 1 : Nat) : Int) < 999999999 ∧ vehicles.take 0 ≠ []) := by
        intro hcc
        exact hcc.2 (List.take_zero vehicles)
      rw [if_neg hcond]
      exact hsecond 999999999 none (by exact_mod_cast Nat.lt_trans hq (by norm_num))
    · have hcond : ((q + 1 : Nat) : Int) < 999999999 ∧ vehicles.take m ≠ [] := by
        refine ⟨by exact_mod_cast Nat.succ_lt_succ hq, ?_⟩
        intro hnil
        rw [hnil] at hlen_take
        simp at hlen_take
        omega
      rw [if_pos hcond]
      exact hsecond ((q + 1 : Nat) : Int) (some 0)
        (by exact_mod_cast Nat.lt_succ_self q)

theorem countTrips_initDict (vehicles : List Vehicle) (vid : String) :
    countTrips (vehicles.foldl dictSetEmpty []) vid = 0 := by
  rw [countTrips]
  cases hg : dictGet (vehicles.foldl dictSetEmpty []) vid with
  | none => rfl
  | some ts =>
    have hval := initDict_values_nil vehicles [] (by intro e he; simp at he)
    rw [dictGet] at hg
    rcases Option.map_eq_some'.mp hg with ⟨e, he, rfl⟩
    have hmem := List.mem_of_find?_eq_some he
    simp [hval e hmem]

theorem ShapeAt_init (vehicles : List Vehicle) (hne : vehicles ≠ []) :
    ShapeAt vehicles (vehicles.foldl dictSetEmpty []) 0 0 := by
  refine ⟨List.length_pos.mpr hne, initDict_contains vehicles [], ?_⟩
  intro j hj
  rw [countTrips_initDict]
  simp

end CarpoolPoc

namespace CarpoolPoc

theorem appendTrip_shape {vehicles : List Vehicle} {d : VDict} {q m : Nat}
    (hnodup : (vehicles.map (fun v => v.id)).Nodup)
    (hsh : ShapeAt vehicles d q m) (t : Trip) :
    ∃ q2 m2,
      ShapeAt vehicles (dictAppendTrip d (vehicles.getD m default).id t) q2 m2 ∧
      m2 = (m + 1) % vehicles.length ∧
      q2 * vehicles.length + m2 = q * vehicles.length + m + 1 := by
  obtain ⟨hm, hcont, hshape⟩ := hsh
  have hgetD : vehicles.getD m default = vehicles[m] := by
    rw [getD_eq_get vehicles m hm]
    rfl
  rw [hgetD]
  have hkeys : ∀ v ∈ vehicles,
      dictContains (dictAppendTrip d (vehicles[m]).id t) v.id = true :=
    contains_all_of_keys_eq (dictKeys_appendTrip d (vehicles[m]).id t) vehicles hcont
  have hcm : dictContains d (vehicles[m]).id = true := by
    apply hcont
    exact List.getElem_mem hm
  have hinj : ∀ (j : Nat), (hj : j < vehicles.length) →
      (vehicles[j]).id = (vehicles[m]).id → j = m := by
    intro j hj he
    have hj2 : j < (vehicles.map (fun v => v.id)).length := by simpa using hj
    have hm2 : m < (vehicles.map (fun v => v.id)).length := by simpa using hm
    have hgm : (vehicles.map (fun v => v.id)).get ⟨j, hj2⟩
        = (vehicles.map (fun v => v.id)).get ⟨m, hm2⟩ := by
      simp only [List.get_eq_getElem, List.getElem_map]
      exact he
    have hfin := (List.Nodup.get_inj_iff hnodup).mp hgm
    simpa using hfin
  have hcount : ∀ (j : Nat), (hj : j < vehicles.length) →
      countTrips (dictAppendTrip d (vehicles[m]).id t) (vehicles[j]).id
        = if j = m then (if j < m then q + 1 else q) + 1
          else (if j < m then q + 1 else q) := by
    intro j hj
    have hbase : countTrips d (vehicles[j]).id = if j < m then q + 1 else q := by
      have hs := hshape j hj
      simpa [List.get_eq_getElem] using hs
    rw [countTrips_appendTrip]
    by_cases hjm : j = m
    · subst hjm
      rw [if_pos ⟨rfl, hcm⟩, hbase, if_pos rfl]
    · have hne : (vehicles[j]).id ≠ (vehicles[m]).id := fun he => hjm (hinj j hj he)
      rw [if_neg (fun hcc => hne hcc.1), hbase, if_neg hjm]
  rcases Nat.lt_or_ge (m + 1) vehicles.length with hlt | hge
  · refine ⟨q, m + 1, ⟨hlt, hkeys, ?_⟩, ?_, ?_⟩
    · intro j hj
      have hc := hcount j hj
      rw [List.get_eq_getElem, hc]
      split_ifs <;> omega
    · exact (Nat.mod_eq_of_lt hlt).symm
    · omega
  · have hn : m + 1 = vehicles.length := by omega
    refine ⟨q + 1, 0, ⟨by omega, hkeys, ?_⟩, ?_, ?_⟩
    · intro j hj
      have hc := hcount j hj
      rw [List.get_eq_getElem, hc]
      split_ifs <;> omega
    · rw [hn, Nat.mod_self]
    · have hring : (q + 1) * vehicles.length = q * vehicles.length + vehicles.length := by
        ring
      omega

theorem PackShape_fields {vehicles : List Vehicle} {s s2 : PackState} {q m : Nat}
    (hr : s2.result = s.result) (hi : s2.idx_vehicle = s.idx_vehicle)
    (h : PackShape vehicles s q m) : PackShape vehicles s2 q m := by
  refine ⟨?_, ?_⟩
  · rw [hr]
    exact h.1
  · rw [hi]
    exact h.2

theorem close_shape {vehicles : List Vehicle} {s : PackState} {q m : Nat}
    (hnodup : (vehicles.map (fun v => v.id)).Nodup)
    (hps : PackShape vehicles s q m) :
    ∃ q2 m2, PackShape vehicles (close_current_vehicle vehicles s) q2 m2 ∧
      q2 * vehicles.length + m2 ≤ q * vehicles.length + m + 1 := by
  obtain ⟨hsh, hidx⟩ := hps
  cases hct : s.current_trip with
  | none =>
    have hcl : close_current_vehicle vehicles s = s := by
      simp only [close_current_vehicle, hct]
    rw [hcl]
    exact ⟨q, m, ⟨hsh, hidx⟩, by omega⟩
  | some t =>
    have hcl : close_current_vehicle vehicles s =
        { result := dictAppendTrip s.result (vehicles.getD s.idx_vehicle default).id t
          idx_vehicle := (s.idx_vehicle + 1) % vehicles.length
          current_trip := none } := by
      simp only [close_current_vehicle, hct]
    rw [hcl, hidx]
    obtain ⟨q2, m2, hsh2, hm2, hsum⟩ := appendTrip_shape hnodup ⟨hsh.1, hsh.2⟩ t
    exact ⟨q2, m2, ⟨hsh2, hm2.symm⟩, by omega⟩

theorem pack_step_shape {vehicles : List Vehicle} {s : PackState} {q m : Nat}
    (hnodup : (vehicles.map (fun v => v.id)).Nodup) (mw : Int) (r : Row)
    (hps : PackShape vehicles s q m) :
    ∃ q2 m2, PackShape vehicles (pack_step vehicles mw s r) q2 m2 ∧
      q2 * vehicles.length + m2 ≤ q * vehicles.length + m + 1 := by
  cases hct : s.current_trip with
  | none =>
    have hp : pack_step vehicles mw s r =
        { s with current_trip := some { bookings := [r.raw], start_time := r.pickup_datetime } } := by
      simp only [pack_step, hct]
    rw [hp]
    exact ⟨q, m, PackShape_fields rfl rfl hps, by omega⟩
  | some t =>
    by_cases hfit : r.pickup_datetime.getD 0 - t.start_time.getD 0 ≤ mw ∧
        (vehicles.getD s.idx_vehicle default).capacity ≥
          t.total_passengers + r.raw.passenger_count
    · have hp : pack_step vehicles mw s r =
          { s with current_trip := some { t with bookings := t.bookings ++ [r.raw] } } := by
        simp only [pack_step, hct, if_pos hfit]
      rw [hp]
      exact ⟨q, m, PackShape_fields rfl rfl hps, by omega⟩
    · have hp : pack_step vehicles mw s r =
          { close_current_vehicle vehicles s with
            current_trip := some { bookings := [r.raw], start_time := r.pickup_datetime } } := by
        simp only [pack_step, hct, if_neg hfit]
      rw [hp]
      obtain ⟨q2, m2, hps2, hb⟩ := close_shape hnodup hps
      exact ⟨q2, m2, PackShape_fields rfl rfl hps2, hb⟩

theorem fill_step_shape {vehicles : List Vehicle} {s : PackState} {q m : Nat}
    (hnodup : (vehicles.map (fun v => v.id)).Nodup) (r : Row)
    (hps : PackShape vehicles s q m) :
    ∃ q2 m2, PackShape vehicles (fill_step vehicles s r) q2 m2 ∧
      q2 * vehicles.length + m2 ≤ q * vehicles.length + m + 1 := by
  cases hpl : placeInExisting s.result r.raw vehicles with
  | some d2 =>
    have hp : fill_step vehicles s r = { s with result := d2 } := by
      simp only [fill_step, hpl]
    rw [hp]
    obtain ⟨hsh, hidx⟩ := hps
    obtain ⟨hm, hcont, hshape⟩ := hsh
    have hkeys := (placeInExisting_spec r.raw vehicles s.result d2 hpl).2
    have hcounts := placeInExisting_counts r.raw vehicles s.result d2 hpl
    refine ⟨q, m, ⟨⟨hm, contains_all_of_keys_eq hkeys vehicles hcont, ?_⟩, hidx⟩, by omega⟩
    intro j hj
    rw [hcounts]
    exact hshape j hj
  | none =>
    have hp : fill_step vehicles s r =
        close_current_vehicle vehicles
          { s with current_trip := some { bookings := [r.raw], start_time := none } } := by
      simp only [fill_step, hpl]
    rw [hp]
    exact close_shape hnodup (PackShape_fields rfl rfl hps)

theorem foldl_pack_shape {vehicles : List Vehicle}
    (hnodup : (vehicles.map (fun v => v.id)).Nodup) (mw : Int) :
    ∀ (rows : List Row) (s : PackState) (q m : Nat), PackShape vehicles s q m →
      ∃ q2 m2, PackShape vehicles (rows.foldl (pack_step vehicles mw) s) q2 m2 ∧
        q2 * vehicles.length + m2 ≤ q * vehicles.length + m + rows.length := by
  intro rows
  induction rows with
  | nil =>
    intro s q m hps
    exact ⟨q, m, hps, by omega⟩
  | cons r rest ih =>
    intro s q m hps
    simp only [List.foldl_cons, List.length_cons]
    obtain ⟨q1, m1, hps1, hb1⟩ := pack_step_shape hnodup mw r hps
    obtain ⟨q2, m2, hps2, hb2⟩ := ih (pack_step vehicles mw s r) q1 m1 hps1
    exact ⟨q2, m2, hps2, by omega⟩

theorem foldl_fill_shape {vehicles : List Vehicle}
    (hnodup : (vehicles.map (fun v => v.id)).Nodup) :
    ∀ (rows : List Row) (s : PackState) (q m : Nat), PackShape vehicles s q m →
      ∃ q2 m2, PackShape vehicles (rows.foldl (fill_step vehicles) s) q2 m2 ∧
        q2 * vehicles.length + m2 ≤ q * vehicles.length + m + rows.length := by
  intro rows
  induction rows with
  | nil =>
    intro s q m hps
    exact ⟨q, m, hps, by omega⟩
  | cons r rest ih =>
    intro s q m hps
    simp only [List.foldl_cons, List.length_cons]
    obtain ⟨q1, m1, hps1, hb1⟩ := fill_step_shape hnodup r hps
    obtain ⟨q2, m2, hps2, hb2⟩ := ih (fill_step vehicles s r) q1 m1 hps1
    exact ⟨q2, m2, hps2, by omega⟩

end CarpoolPoc

namespace CarpoolPoc

theorem filter_pickup_length (df : List Row) :
    (df.filter (fun r => r.pickup_datetime.isSome)).length +
      (df.filter (fun r => r.pickup_datetime.isNone)).length = df.length := by
  have h := (filter_pickup_split df).length_eq
  rw [List.length_append] at h
  exact h

theorem assign_bookings_shape {vehicles : List Vehicle}
    (hnodup : (vehicles.map (fun v => v.id)).Nodup) (df : List Row)
    (d d2 : VDict) (q m : Nat) (mw : Int)
    (hsh : ShapeAt vehicles d q m) (hq : q < 999999998)
    (h : assign_bookings_to_vehicles df vehicles d mw = some d2) :
    ∃ q2 m2, ShapeAt vehicles d2 q2 m2 ∧
      q2 * vehicles.length + m2 ≤ q * vehicles.length + m + df.length + 1 := by
  obtain ⟨hm, hcont, hshape⟩ := hsh
  have hfind : find_vehicle_idx_with_less_trips vehicles d = some m :=
    find_idx_shape vehicles d q m hm hshape hq
  rw [assign_bookings_eq df vehicles d mw m hfind] at h
  injection h with h2
  have hps0 : PackShape vehicles (⟨d, m, none⟩ : PackState) q m :=
    ⟨⟨hm, hcont, hshape⟩, rfl⟩
  obtain ⟨q1, m1, hps1, hb1⟩ := foldl_pack_shape hnodup mw
    (sortedBy (fun r => r.pickup_datetime.getD 0)
      (df.filter (fun r => r.pickup_datetime.isSome)))
    (⟨d, m, none⟩ : PackState) q m hps0
  obtain ⟨qc, mc, hpsc, hbc⟩ := close_shape hnodup hps1
  obtain ⟨q2, m2, hps2, hb2⟩ := foldl_fill_shape hnodup
    (df.filter (fun r => r.pickup_datetime.isNone)) _ qc mc hpsc
  refine ⟨q2, m2, ?_, ?_⟩
  · rw [← h2]
    exact hps2.1
  · have hlen1 : (sortedBy (fun r => r.pickup_datetime.getD 0)
        (df.filter (fun r => r.pickup_datetime.isSome))).length
        = (df.filter (fun r => r.pickup_datetime.isSome)).length :=
      (sortedBy_perm _ _).length_eq
    have hlen2 := filter_pickup_length df
    omega

theorem packClusters_shape {vehicles : List Vehicle}
    (hnodup : (vehicles.map (fun v => v.id)).Nodup) (clustered : List Row) (mw : Int) :
    ∀ (cids : List Nat) (d : VDict) (q m : Nat),
      ShapeAt vehicles d q m →
      q * vehicles.length + m + packWeight clustered cids ≤ 999999998 →
      ∀ d2, packClusters clustered vehicles mw cids d = some d2 →
        ∃ q2 m2, ShapeAt vehicles d2 q2 m2 := by
  intro cids
  induction cids with
  | nil =>
    intro d q m hsh hb d2 h
    have hid : packClusters clustered vehicles mw [] d = some d := by
      simp only [packClusters]
    rw [hid] at h
    injection h with h2
    exact ⟨q, m, h2 ▸ hsh⟩
  | cons c cs ih =>
    intro d q m hsh hb d2 h
    cases ha : assign_bookings_to_vehicles
        (clustered.filter (fun r => decide (r.cluster_id = some c))) vehicles d mw with
    | none =>
      have hnone : packClusters clustered vehicles mw (c :: cs) d = none := by
        simp only [packClusters, ha]
      rw [hnone] at h
      exact Option.noConfusion h
    | some d1 =>
      have hsome : packClusters clustered vehicles mw (c :: cs) d =
          packClusters clustered vehicles mw cs d1 := by
        simp only [packClusters, ha]
      rw [hsome] at h
      have hwc : packWeight clustered (c :: cs) =
          (clustered.filter (fun r => decide (r.cluster_id = some c))).length + 1 +
            packWeight clustered cs := by
        simp only [packWeight, List.map_cons, List.sum_cons]
      have hm := hsh.1
      have hpos : 0 < vehicles.length := lt_of_le_of_lt (Nat.zero_le m) hm
      have hqle : q ≤ q * vehicles.length := by
        calc q = q * 1 := (Nat.mul_one q).symm
          _ ≤ q * vehicles.length := Nat.mul_le_mul_left q hpos
      have hq : q < 999999998 := by omega
      obtain ⟨q1, m1, hsh1, hb1⟩ :=
        assign_bookings_shape hnodup
          (clustered.filter (fun r => decide (r.cluster_id = some c))) d d1 q m mw hsh hq ha
      exact ih d1 q1 m1 hsh1 (by omega) d2 h

theorem balanced_of_shape {vehicles : List Vehicle} {d : VDict} {q m : Nat}
    (hsh : ShapeAt vehicles d q m) :
    balancedCounts (countsIn vehicles d) = true := by
  obtain ⟨hm, hcont2, hshape⟩ := hsh
  have hval : ∀ a ∈ countsIn vehicles d, a = q ∨ a = q + 1 := by
    intro a ha
    rw [countsIn] at ha
    rcases List.mem_map.mp ha with ⟨v, hv, hav⟩
    rcases List.mem_iff_getElem.mp hv with ⟨j, hj, hvj⟩
    have hs := hshape j hj
    rw [List.get_eq_getElem, hvj] at hs
    by_cases hjm : j < m
    · right
      rw [← hav, hs, if_pos hjm]
    · left
      rw [← hav, hs, if_neg hjm]
  simp only [balancedCounts, List.all_eq_true, decide_eq_true_eq]
  intro a ha b hb
  rcases hval a ha with h1 | h1 <;> rcases hval b hb with h2 | h2 <;> omega

/-- **C4** (amended): provided the vehicle identifiers are pairwise distinct
and the total packing work stays below the `999999999` sentinel of
`_find_vehicle_idx_with_less_trips`, after `packClusters` finishes packing the
clusters against the accumulator that starts empty for every vehicle, any two
per-vehicle trip counts differ by at most 1: the round-robin
(`_find_vehicle_idx_with_less_trips` plus the advancing `idx_vehicle`) keeps
the per-vehicle loads balanced. -/
theorem c4_round_robin_balance (clustered : List Row) (vehicles : List Vehicle)
    (mw : Int) (cids : List Nat) (d : VDict)
    (hnodup : (vehicles.map (fun v => v.id)).Nodup)
    (hw : packWeight clustered cids ≤ 999999998)
    (h : packClusters clustered vehicles mw cids (vehicles.foldl dictSetEmpty [])
      = some d) :
    balancedCounts (countsIn vehicles d) = true := by
  by_cases hne : vehicles = []
  · subst hne
    rfl
  · obtain ⟨q2, m2, hsh2⟩ := packClusters_shape hnodup clustered mw cids
      (vehicles.foldl dictSetEmpty []) 0 0 (ShapeAt_init vehicles hne)
      (by simpa using hw) d h
    exact balanced_of_shape hsh2

/-- Witness for C4: on two one-row clusters and two distinct-id vehicles the
hypotheses hold and the packed accumulator is balanced. -/
theorem c4_round_robin_balance_witness :
    ((c4vehiclesW.map (fun v => v.id)).Nodup ∧
      packWeight c4rowsW [0, 1] ≤ 999999998 ∧
      packClusters c4rowsW c4vehiclesW 0 [0, 1] (c4vehiclesW.foldl dictSetEmpty [])
        = some c4dW) ∧
    balancedCounts (countsIn c4vehiclesW c4dW) = true :=
  ⟨⟨by decide, by decide, by decide⟩,
    c4_round_robin_balance c4rowsW c4vehiclesW 0 [0, 1] c4dW
      (by decide) (by decide) (by decide)⟩

end CarpoolPoc

namespace CarpoolPoc

theorem uniqueInOrderGo_mem {α : Type} [DecidableEq α] :
    ∀ (l seen : List α) (x : α),
      x ∈ uniqueInOrderGo seen l ↔ x ∈ l ∧ x ∉ seen := by
  intro l
  induction l with
  | nil =>
    intro seen x
    simp [uniqueInOrderGo]
  | cons a rest ih =>
    intro seen x
    simp only [uniqueInOrderGo]
    by_cases ha : a ∈ seen
    · rw [if_pos ha, ih]
      constructor
      · rintro ⟨hx, hns⟩
        exact ⟨List.mem_cons_of_mem _ hx, hns⟩
      · rintro ⟨hx, hns⟩
        rcases List.mem_cons.mp hx with rfl | hx2
        · exact absurd ha hns
        · exact ⟨hx2, hns⟩
    · rw [if_neg ha]
      constructor
      · intro hx
        rcases List.mem_cons.mp hx with rfl | hx2
        · exact ⟨List.mem_cons_self _ _, ha⟩
        · rcases (ih (a :: seen) x).mp hx2 with ⟨hr, hns⟩
          exact ⟨List.mem_cons_of_mem _ hr, fun hs => hns (List.mem_cons_of_mem _ hs)⟩
      · rintro ⟨hx, hns⟩
        rcases List.mem_cons.mp hx with rfl | hx2
        · exact List.mem_cons_self _ _
        · by_cases hxa : x = a
          · subst hxa
            exact List.mem_cons_self _ _
          · apply List.mem_cons_of_mem
            exact (ih (a :: seen) x).mpr ⟨hx2, fun hs => (List.mem_cons.mp hs).elim hxa hns⟩

theorem uniqueInOrderGo_nodup {α : Type} [DecidableEq α] :
    ∀ (l seen : List α), (uniqueInOrderGo seen l).Nodup := by
  intro l
  induction l with
  | nil =>
    intro seen
    simp [uniqueInOrderGo]
  | cons a rest ih =>
    intro seen
    simp only [uniqueInOrderGo]
    by_cases ha : a ∈ seen
    · rw [if_pos ha]
      exact ih seen
    · rw [if_neg ha]
      refine List.Nodup.cons ?_ (ih (a :: seen))
      intro hmem
      rcases (uniqueInOrderGo_mem rest (a :: seen) a).mp hmem with ⟨_, hns⟩
      exact hns (List.mem_cons_self _ _)

theorem uniqueInOrderGo_pairwise {α : Type} [DecidableEq α] :
    ∀ (l seen : List α),
      (uniqueInOrderGo seen l).Pairwise (fun x y => l.indexOf x < l.indexOf y) := by
  intro l
  induction l with
  | nil =>
    intro seen
    simp [uniqueInOrderGo]
  | cons a rest ih =>
    intro seen
    simp only [uniqueInOrderGo]
    by_cases ha : a ∈ seen
    · rw [if_pos ha]
      apply List.Pairwise.imp_of_mem ?_ (ih seen)
      intro x y hx hy hlt
      have hxa : x ≠ a := fun he =>
        ((uniqueInOrderGo_mem rest seen x).mp hx).2 (by rw [he]; exact ha)
      have hya : y ≠ a := fun he =>
        ((uniqueInOrderGo_mem rest seen y).mp hy).2 (by rw [he]; exact ha)
      rw [List.indexOf_cons_ne rest (Ne.symm hxa), List.indexOf_cons_ne rest (Ne.symm hya)]
      omega
    · rw [if_neg ha]
      refine List.Pairwise.cons ?_ ?_
      · intro y hy
        have hmem := (uniqueInOrderGo_mem rest (a :: seen) y).mp hy
        have hya : y ≠ a := fun he =>
          hmem.2 (by rw [he]; exact List.mem_cons_self a seen)
        rw [List.indexOf_cons_self, List.indexOf_cons_ne rest (Ne.symm hya)]
        omega
      · apply List.Pairwise.imp_of_mem ?_ (ih (a :: seen))
        intro x y hx hy hlt
        have hxa : x ≠ a := fun he =>
          ((uniqueInOrderGo_mem rest (a :: seen) x).mp hx).2
            (by rw [he]; exact List.mem_cons_self a seen)
        have hya : y ≠ a := fun he =>
          ((uniqueInOrderGo_mem rest (a :: seen) y).mp hy).2
            (by rw [he]; exact List.mem_cons_self a seen)
        rw [List.indexOf_cons_ne rest (Ne.symm hxa), List.indexOf_cons_ne rest (Ne.symm hya)]
        omega

/-- **C7** (amended): the orchestrator's cluster loop runs exactly once per
distinct cluster id, taking the ids in order of first appearance among the
clustered rows (pandas `unique()`), not in ascending numeric order: the id
list it iterates is duplicate-free, contains exactly the cluster ids of the
rows, and is strictly ordered by first-appearance position. -/
theorem c7_cluster_loop_order (df : List Row) :
    (cluster_ids_order df).Nodup ∧
    (∀ c : Nat, c ∈ cluster_ids_order df ↔ ∃ r ∈ df, r.cluster_id = some c) ∧
    (cluster_ids_order df).Pairwise (fun a b =>
      ((df.filter (fun r => r.cluster_id.isSome)).filterMap
        (fun r => r.cluster_id)).indexOf a <
      ((df.filter (fun r => r.cluster_id.isSome)).filterMap
        (fun r => r.cluster_id)).indexOf b) := by
  refine ⟨uniqueInOrderGo_nodup _ [], ?_, uniqueInOrderGo_pairwise _ []⟩
  intro c
  rw [cluster_ids_order, uniqueInOrder, uniqueInOrderGo_mem]
  simp only [List.not_mem_nil, not_false_iff, and_true]
  rw [List.mem_filterMap]
  constructor
  · rintro ⟨r, hr, hc⟩
    exact ⟨r, (List.mem_filter.mp hr).1, hc⟩
  · rintro ⟨r, hr, hc⟩
    refine ⟨r, List.mem_filter.mpr ⟨hr, ?_⟩, hc⟩
    rw [hc]
    rfl

end CarpoolPoc

namespace CarpoolPoc

theorem value_counts_mem (l : List String) (addr : String) (h : addr ∈ l) :
    (addr, countOcc l addr) ∈ value_counts l := by
  rw [value_counts, mem_sortedBy]
  exact List.mem_map_of_mem _ ((uniqueInOrderGo_mem l [] addr).mpr ⟨h, by simp⟩)

theorem countOcc_pos_mem (l : List String) (addr : String)
    (h : 0 < countOcc l addr) : addr ∈ l := by
  rw [countOcc] at h
  cases hfl : l.filter (fun x => decide (x = addr)) with
  | nil => rw [hfl] at h; simp at h
  | cons x xs =>
    have hx : x ∈ l.filter (fun x => decide (x = addr)) := by
      rw [hfl]
      exact List.mem_cons_self _ _
    rcases List.mem_filter.mp hx with ⟨hxl, hxe⟩
    rw [decide_eq_true_eq] at hxe
    rw [← hxe]
    exact hxl

theorem stamped_uniform (df : List Row) (a : String) (cid : Nat) :
    ∀ r2 ∈ df.map (fun r =>
        if r.raw.dropoff_address = a then
          { r with cluster_id := some cid, group_key := some ("DROPOFF=" ++ a) }
        else r),
      r2.raw.dropoff_address = a → r2.cluster_id = some cid := by
  intro r2 hr2 hdrop
  rcases List.mem_map.mp hr2 with ⟨r, hr, hfr⟩
  by_cases hda : r.raw.dropoff_address = a
  · rw [if_pos hda] at hfr
    rw [← hfr]
  · rw [if_neg hda] at hfr
    subst hfr
    exact absurd hdrop hda

theorem assignDropoff_uniform_pres (addr : String) :
    ∀ (items : List (String × Nat)) (df : List Row) (cid : Nat),
      (∃ c, ∀ r ∈ df, r.raw.dropoff_address = addr → r.cluster_id = some c) →
      ∃ c, ∀ r ∈ (assignDropoff items df cid).1, r.raw.dropoff_address = addr →
        r.cluster_id = some c := by
  intro items
  induction items with
  | nil =>
    intro df cid h
    exact h
  | cons it rest ih =>
    intro df cid h
    obtain ⟨a, n⟩ := it
    by_cases hn : n > 1
    · have hd : assignDropoff ((a, n) :: rest) df cid =
          assignDropoff rest (df.map fun r =>
            if r.raw.dropoff_address = a then
              { r with cluster_id := some cid, group_key := some ("DROPOFF=" ++ a) }
            else r) (cid + 1) := by
        simp only [assignDropoff, if_pos hn]
      rw [hd]
      apply ih
      by_cases ha : a = addr
      · subst ha
        exact ⟨cid, stamped_uniform df a cid⟩
      · obtain ⟨c, hc⟩ := h
        refine ⟨c, ?_⟩
        intro r2 hr2 hdrop
        rcases List.mem_map.mp hr2 with ⟨r, hr, hfr⟩
        by_cases hda : r.raw.dropoff_address = a
        · rw [if_pos hda] at hfr
          have hdrop2 : r.raw.dropoff_address = addr := by
            rw [← hfr] at hdrop
            exact hdrop
          exact absurd (hda.symm.trans hdrop2) (fun hc2 => ha hc2)
        · rw [if_neg hda] at hfr
          subst hfr
          exact hc r hr hdrop
    · have hd : assignDropoff ((a, n) :: rest) df cid = assignDropoff rest df cid := by
        simp only [assignDropoff, if_neg hn]
      rw [hd]
      exact ih df cid h

theorem assignDropoff_uniform (addr : String) :
    ∀ (items : List (String × Nat)) (df : List Row) (cid : Nat) (cnt : Nat),
      (addr, cnt) ∈ items → 1 < cnt →
      ∃ c, ∀ r ∈ (assignDropoff items df cid).1, r.raw.dropoff_address = addr →
        r.cluster_id = some c := by
  intro items
  induction items with
  | nil =>
    intro df cid cnt hmem
    exact absurd hmem (List.not_mem_nil _)
  | cons it rest ih =>
    intro df cid cnt hmem hcnt
    obtain ⟨a, n⟩ := it
    rcases List.mem_cons.mp hmem with heq | hrest
    · injection heq with h1 h2
      subst h1
      subst h2
      have hd : assignDropoff ((addr, cnt) :: rest) df cid =
          assignDropoff rest (df.map fun r =>
            if r.raw.dropoff_address = addr then
              { r with cluster_id := some cid, group_key := some ("DROPOFF=" ++ addr) }
            else r) (cid + 1) := by
        simp only [assignDropoff, if_pos hcnt]
      rw [hd]
      exact assignDropoff_uniform_pres addr rest _ (cid + 1)
        ⟨cid, stamped_uniform df addr cid⟩
    · by_cases hn : n > 1
      · have hd : assignDropoff ((a, n) :: rest) df cid =
            assignDropoff rest (df.map fun r =>
              if r.raw.dropoff_address = a then
                { r with cluster_id := some cid, group_key := some ("DROPOFF=" ++ a) }
              else r) (cid + 1) := by
          simp only [assignDropoff, if_pos hn]
        rw [hd]
        exact ih _ (cid + 1) cnt hrest hcnt
      · have hd : assignDropoff ((a, n) :: rest) df cid = assignDropoff rest df cid := by
          simp only [assignDropoff, if_neg hn]
        rw [hd]
        exact ih df cid cnt hrest hcnt

theorem assignPickup_dropoff_pres (addr : String) :
    ∀ (items : List (String × Nat)) (df : List Row) (cid : Nat),
      (∃ c, ∀ r ∈ df, r.raw.dropoff_address = addr → r.cluster_id = some c) →
      ∃ c, ∀ r ∈ (assignPickup items df cid).1, r.raw.dropoff_address = addr →
        r.cluster_id = some c := by
  intro items
  induction items with
  | nil =>
    intro df cid h
    exact h
  | cons it rest ih =>
    intro df cid h
    obtain ⟨a, n⟩ := it
    by_cases hn : n > 1
    · by_cases hg : (df.any fun r =>
          r.cluster_id.isNone && decide (r.raw.pickup_address = a)) = true
      · have hd : assignPickup ((a, n) :: rest) df cid =
            assignPickup rest (df.map fun r =>
              if r.cluster_id.isNone && decide (r.raw.pickup_address = a) then
                { r with cluster_id := some cid, group_key := some ("PICKUP=" ++ a) }
              else r) (cid + 1) := by
          simp only [assignPickup, if_pos hn, if_pos hg]
        rw [hd]
        apply ih
        obtain ⟨c, hc⟩ := h
        refine ⟨c, ?_⟩
        intro r2 hr2 hdrop
        rcases List.mem_map.mp hr2 with ⟨r, hr, hfr⟩
        by_cases hcond : (r.cluster_id.isNone && decide (r.raw.pickup_address = a)) = true
        · rw [if_pos hcond] at hfr
          have hdrop2 : r.raw.dropoff_address = addr := by
            rw [← hfr] at hdrop
            exact hdrop
          have hsome := hc r hr hdrop2
          rw [Bool.and_eq_true, hsome] at hcond
          simp at hcond
        · rw [if_neg hcond] at hfr
          subst hfr
          exact hc r hr hdrop
      · have hd : assignPickup ((a, n) :: rest) df cid = assignPickup rest df cid := by
          simp only [assignPickup, if_pos hn, if_neg hg]
        rw [hd]
        exact ih df cid h
    · have hd : assignPickup ((a, n) :: rest) df cid = assignPickup rest df cid := by
        simp only [assignPickup, if_neg hn]
      rw [hd]
      exact ih df cid h

theorem c5_dropoff_cohesion (df : List Row) (out : List Row × Bool) (r1 r2 : Row)
    (hout : group_same_addresses df = some out)
    (h1 : r1 ∈ out.1) (h2 : r2 ∈ out.1)
    (hdd : r1.raw.dropoff_address = r2.raw.dropoff_address)
    (hcnt : 1 < countOcc (df.map (fun r => r.raw.dropoff_address))
      r1.raw.dropoff_address) :
    r1.cluster_id = r2.cluster_id ∧ r1.cluster_id.isSome = true := by
  have haddr : r1.raw.dropoff_address ∈ df.map (fun r => r.raw.dropoff_address) :=
    countOcc_pos_mem _ _ (lt_trans Nat.zero_lt_one hcnt)
  have hitem := value_counts_mem (df.map (fun r => r.raw.dropoff_address))
    r1.raw.dropoff_address haddr
  rcases group_same_addresses_cases df out hout with ⟨he, _⟩ | ⟨_, hncol, _⟩
  · simp only [he] at h1 h2
    obtain ⟨c, hc⟩ := assignPickup_dropoff_pres r1.raw.dropoff_address
      (value_counts (df.map (fun r => r.raw.pickup_address))) _ _
      (assignDropoff_uniform r1.raw.dropoff_address
        (value_counts (df.map (fun r => r.raw.dropoff_address))) df 1 _ hitem hcnt)
    constructor
    · rw [hc r1 h1 rfl, hc r2 h2 hdd.symm]
    · rw [hc r1 h1 rfl]
      rfl
  · exact absurd (assignDropoff_cid_stamp r1.raw.dropoff_address _ hcnt _ df 1 hitem) hncol

end CarpoolPoc

namespace CarpoolPoc

theorem c5_stamp_mem (df : List Row) (a : String) (cid : Nat) :
    ∀ r2 ∈ df.map (fun r =>
        if r.cluster_id.isNone && decide (r.raw.pickup_address = a) then
          { r with cluster_id := some cid, group_key := some ("PICKUP=" ++ a) }
        else r),
      ∃ r ∈ df, (r2 = r ∧ (r.cluster_id.isNone = false ∨ r.raw.pickup_address ≠ a)) ∨
        (r.cluster_id.isNone = true ∧ r.raw.pickup_address = a ∧
          r2 = { r with cluster_id := some cid, group_key := some ("PICKUP=" ++ a) }) := by
  intro r2 hr2
  rcases List.mem_map.mp hr2 with ⟨r, hr, hfr⟩
  refine ⟨r, hr, ?_⟩
  by_cases hcond : (r.cluster_id.isNone && decide (r.raw.pickup_address = a)) = true
  · rw [if_pos hcond] at hfr
    rw [Bool.and_eq_true, decide_eq_true_eq] at hcond
    exact Or.inr ⟨hcond.1, hcond.2, hfr.symm⟩
  · rw [if_neg hcond] at hfr
    left
    refine ⟨hfr.symm, ?_⟩
    cases hb : r.cluster_id.isNone with
    | false => exact Or.inl rfl
    | true =>
      right
      intro hpa
      exact hcond (by rw [Bool.and_eq_true, decide_eq_true_eq]; exact ⟨hb, hpa⟩)

theorem isSome_of_isNone_false (o : Option Nat) (h : o.isNone = false) :
    o.isSome = true := by
  cases o with
  | none => simp at h
  | some k => rfl

theorem not_isNone_and_isSome (o : Option Nat) (h1 : o.isNone = true)
    (h2 : o.isSome = true) : False := by
  cases o <;> simp_all


theorem c5_step_addr (addr : String) (lo : Nat) (df : List Row) (cid : Nat)
    (hlo : lo ≤ cid)
    (hinv : (∀ r ∈ df, r.raw.pickup_address = addr → ∀ k, r.cluster_id = some k → k < lo) ∨
      (∃ c, (∀ r ∈ df, r.raw.pickup_address = addr → ∀ k, r.cluster_id = some k →
          lo ≤ k → k = c) ∧
        (∀ r ∈ df, r.raw.pickup_address = addr → r.cluster_id.isSome = true))) :
    ∃ c, (∀ r2 ∈ df.map (fun r =>
          if r.cluster_id.isNone && decide (r.raw.pickup_address = addr) then
            { r with cluster_id := some cid, group_key := some ("PICKUP=" ++ addr) }
          else r),
        r2.raw.pickup_address = addr → ∀ k, r2.cluster_id = some k → lo ≤ k → k = c) ∧
      (∀ r2 ∈ df.map (fun r =>
          if r.cluster_id.isNone && decide (r.raw.pickup_address = addr) then
            { r with cluster_id := some cid, group_key := some ("PICKUP=" ++ addr) }
          else r),
        r2.raw.pickup_address = addr → r2.cluster_id.isSome = true) := by
  rcases hinv with hL | ⟨c, hu, hs⟩
  · refine ⟨cid, ?_, ?_⟩
    · intro r2 hr2 hpick k hk hlek
      rcases c5_stamp_mem df addr cid r2 hr2 with ⟨r, hr, hcase⟩
      rcases hcase with ⟨heq, _⟩ | ⟨h1, h2, heq⟩
      · rw [heq] at hpick hk
        exact absurd hlek (Nat.not_le.mpr (hL r hr hpick k hk))
      · subst heq
        have hk2 : (some cid : Option Nat) = some k := hk
        injection hk2 with hk3
        exact hk3.symm
    · intro r2 hr2 hpick
      rcases c5_stamp_mem df addr cid r2 hr2 with ⟨r, hr, hcase⟩
      rcases hcase with ⟨heq, hside⟩ | ⟨h1, h2, heq⟩
      · rw [heq] at hpick ⊢
        rcases hside with hF | hpa
        · exact isSome_of_isNone_false r.cluster_id hF
        · exact absurd hpick hpa
      · subst heq
        rfl
  · refine ⟨c, ?_, ?_⟩
    · intro r2 hr2 hpick k hk hlek
      rcases c5_stamp_mem df addr cid r2 hr2 with ⟨r, hr, hcase⟩
      rcases hcase with ⟨heq, _⟩ | ⟨h1, h2, heq⟩
      · rw [heq] at hpick hk
        exact hu r hr hpick k hk hlek
      · exact (not_isNone_and_isSome r.cluster_id h1 (hs r hr h2)).elim
    · intro r2 hr2 hpick
      rcases c5_stamp_mem df addr cid r2 hr2 with ⟨r, hr, hcase⟩
      rcases hcase with ⟨heq, _⟩ | ⟨h1, h2, heq⟩
      · rw [heq] at hpick ⊢
        exact hs r hr hpick
      · exact (not_isNone_and_isSome r.cluster_id h1 (hs r hr h2)).elim

theorem c5_step_right (addr : String) (lo : Nat) (df : List Row) (a : String) (cid : Nat)
    (hR : ∃ c, (∀ r ∈ df, r.raw.pickup_address = addr → ∀ k, r.cluster_id = some k →
        lo ≤ k → k = c) ∧
      (∀ r ∈ df, r.raw.pickup_address = addr → r.cluster_id.isSome = true)) :
    ∃ c, (∀ r2 ∈ df.map (fun r =>
          if r.cluster_id.isNone && decide (r.raw.pickup_address = a) then
            { r with cluster_id := some cid, group_key := some ("PICKUP=" ++ a) }
          else r),
        r2.raw.pickup_address = addr → ∀ k, r2.cluster_id = some k → lo ≤ k → k = c) ∧
      (∀ r2 ∈ df.map (fun r =>
          if r.cluster_id.isNone && decide (r.raw.pickup_address = a) then
            { r with cluster_id := some cid, group_key := some ("PICKUP=" ++ a) }
          else r),
        r2.raw.pickup_address = addr → r2.cluster_id.isSome = true) := by
  obtain ⟨c, hu, hs⟩ := hR
  refine ⟨c, ?_, ?_⟩
  · intro r2 hr2 hpick k hk hlek
    rcases c5_stamp_mem df a cid r2 hr2 with ⟨r, hr, hcase⟩
    rcases hcase with ⟨heq, _⟩ | ⟨h1, h2, heq⟩
    · rw [heq] at hpick hk
      exact hu r hr hpick k hk hlek
    · subst heq
      have hpick2 : r.raw.pickup_address = addr := hpick
      exact (not_isNone_and_isSome r.cluster_id h1 (hs r hr hpick2)).elim
  · intro r2 hr2 hpick
    rcases c5_stamp_mem df a cid r2 hr2 with ⟨r, hr, hcase⟩
    rcases hcase with ⟨heq, _⟩ | ⟨h1, h2, heq⟩
    · rw [heq] at hpick ⊢
      exact hs r hr hpick
    · subst heq
      have hpick2 : r.raw.pickup_address = addr := hpick
      exact (not_isNone_and_isSome r.cluster_id h1 (hs r hr hpick2)).elim

theorem c5_step_left_ne (addr : String) (lo : Nat) (df : List Row) (a : String) (cid : Nat)
    (ha : a ≠ addr)
    (hL : ∀ r ∈ df, r.raw.pickup_address = addr → ∀ k, r.cluster_id = some k → k < lo) :
    ∀ r2 ∈ df.map (fun r =>
        if r.cluster_id.isNone && decide (r.raw.pickup_address = a) then
          { r with cluster_id := some cid, group_key := some ("PICKUP=" ++ a) }
        else r),
      r2.raw.pickup_address = addr → ∀ k, r2.cluster_id = some k → k < lo := by
  intro r2 hr2 hpick k hk
  rcases c5_stamp_mem df a cid r2 hr2 with ⟨r, hr, hcase⟩
  rcases hcase with ⟨heq, _⟩ | ⟨h1, h2, heq⟩
  · rw [heq] at hpick hk
    exact hL r hr hpick k hk
  · subst heq
    have hpick2 : r.raw.pickup_address = addr := hpick
    exact absurd (h2.symm.trans hpick2) ha

end CarpoolPoc

namespace CarpoolPoc

theorem c5_pickup_inv (addr : String) (lo : Nat) :
    ∀ (items : List (String × Nat)) (df : List Row) (cid : Nat),
      lo ≤ cid →
      ((∀ r ∈ df, r.raw.pickup_address = addr → ∀ k, r.cluster_id = some k → k < lo) ∨
        (∃ c, (∀ r ∈ df, r.raw.pickup_address = addr → ∀ k, r.cluster_id = some k →
            lo ≤ k → k = c) ∧
          (∀ r ∈ df, r.raw.pickup_address = addr → r.cluster_id.isSome = true))) →
      ((∀ r ∈ (assignPickup items df cid).1, r.raw.pickup_address = addr →
          ∀ k, r.cluster_id = some k → k < lo) ∨
        (∃ c, (∀ r ∈ (assignPickup items df cid).1, r.raw.pickup_address = addr →
            ∀ k, r.cluster_id = some k → lo ≤ k → k = c) ∧
          (∀ r ∈ (assignPickup items df cid).1, r.raw.pickup_address = addr →
            r.cluster_id.isSome = true))) := by
  intro items
  induction items with
  | nil =>
    intro df cid _ hinv
    exact hinv
  | cons it rest ih =>
    intro df cid hlo hinv
    obtain ⟨a, n⟩ := it
    by_cases hn : n > 1
    · by_cases hg : (df.any fun r =>
          r.cluster_id.isNone && decide (r.raw.pickup_address = a)) = true
      · have hd : assignPickup ((a, n) :: rest) df cid =
            assignPickup rest (df.map fun r =>
              if r.cluster_id.isNone && decide (r.raw.pickup_address = a) then
                { r with cluster_id := some cid, group_key := some ("PICKUP=" ++ a) }
              else r) (cid + 1) := by
          simp only [assignPickup, if_pos hn, if_pos hg]
        rw [hd]
        apply ih _ (cid + 1) (Nat.le_trans hlo (Nat.le_succ cid))
        by_cases ha : a = addr
        · subst ha
          exact Or.inr (c5_step_addr a lo df cid hlo hinv)
        · rcases hinv with hL | hR
          · exact Or.inl (c5_step_left_ne addr lo df a cid ha hL)
          · exact Or.inr (c5_step_right addr lo df a cid hR)
      · have hd : assignPickup ((a, n) :: rest) df cid = assignPickup rest df cid := by
          simp only [assignPickup, if_pos hn, if_neg hg]
        rw [hd]
        exact ih df cid hlo hinv
    · have hd : assignPickup ((a, n) :: rest) df cid = assignPickup rest df cid := by
        simp only [assignPickup, if_neg hn]
      rw [hd]
      exact ih df cid hlo hinv

theorem c5_pickup_right_pres (addr : String) (lo : Nat) :
    ∀ (items : List (String × Nat)) (df : List Row) (cid : Nat),
      (∃ c, (∀ r ∈ df, r.raw.pickup_address = addr → ∀ k, r.cluster_id = some k →
          lo ≤ k → k = c) ∧
        (∀ r ∈ df, r.raw.pickup_address = addr → r.cluster_id.isSome = true)) →
      ∃ c, (∀ r ∈ (assignPickup items df cid).1, r.raw.pickup_address = addr →
          ∀ k, r.cluster_id = some k → lo ≤ k → k = c) ∧
        (∀ r ∈ (assignPickup items df cid).1, r.raw.pickup_address = addr →
          r.cluster_id.isSome = true) := by
  intro items
  induction items with
  | nil =>
    intro df cid hR
    exact hR
  | cons it rest ih =>
    intro df cid hR
    obtain ⟨a, n⟩ := it
    by_cases hn : n > 1
    · by_cases hg : (df.any fun r =>
          r.cluster_id.isNone && decide (r.raw.pickup_address = a)) = true
      · have hd : assignPickup ((a, n) :: rest) df cid =
            assignPickup rest (df.map fun r =>
              if r.cluster_id.isNone && decide (r.raw.pickup_address = a) then
                { r with cluster_id := some cid, group_key := some ("PICKUP=" ++ a) }
              else r) (cid + 1) := by
          simp only [assignPickup, if_pos hn, if_pos hg]
        rw [hd]
        exact ih _ (cid + 1) (c5_step_right addr lo df a cid hR)
      · have hd : assignPickup ((a, n) :: rest) df cid = assignPickup rest df cid := by
          simp only [assignPickup, if_pos hn, if_neg hg]
        rw [hd]
        exact ih df cid hR
    · have hd : assignPickup ((a, n) :: rest) df cid = assignPickup rest df cid := by
        simp only [assignPickup, if_neg hn]
      rw [hd]
      exact ih df cid hR

theorem c5_guard_false_right (addr : String) (lo : Nat) (df : List Row)
    (hg : ¬((df.any fun r =>
      r.cluster_id.isNone && decide (r.raw.pickup_address = addr)) = true))
    (hinv : (∀ r ∈ df, r.raw.pickup_address = addr → ∀ k, r.cluster_id = some k → k < lo) ∨
      (∃ c, (∀ r ∈ df, r.raw.pickup_address = addr → ∀ k, r.cluster_id = some k →
          lo ≤ k → k = c) ∧
        (∀ r ∈ df, r.raw.pickup_address = addr → r.cluster_id.isSome = true))) :
    ∃ c, (∀ r ∈ df, r.raw.pickup_address = addr → ∀ k, r.cluster_id = some k →
        lo ≤ k → k = c) ∧
      (∀ r ∈ df, r.raw.pickup_address = addr → r.cluster_id.isSome = true) := by
  have hsome : ∀ r ∈ df, r.raw.pickup_address = addr → r.cluster_id.isSome = true := by
    intro r hr hpick
    by_contra hns
    apply hg
    rw [List.any_eq_true]
    refine ⟨r, hr, ?_⟩
    rw [Bool.and_eq_true, decide_eq_true_eq]
    refine ⟨?_, hpick⟩
    cases hcl : r.cluster_id with
    | none => rfl
    | some k =>
      rw [hcl] at hns
      exact absurd rfl hns
  rcases hinv with hL | ⟨c, hu, _⟩
  · refine ⟨0, ?_, hsome⟩
    intro r hr hpick k hk hlek
    exact absurd hlek (Nat.not_le.mpr (hL r hr hpick k hk))
  · exact ⟨c, hu, hsome⟩

theorem c5_pickup_exists (addr : String) (lo : Nat) (cnt : Nat) (hcnt : 1 < cnt) :
    ∀ (items : List (String × Nat)) (df : List Row) (cid : Nat),
      lo ≤ cid → (addr, cnt) ∈ items →
      ((∀ r ∈ df, r.raw.pickup_address = addr → ∀ k, r.cluster_id = some k → k < lo) ∨
        (∃ c, (∀ r ∈ df, r.raw.pickup_address = addr → ∀ k, r.cluster_id = some k →
            lo ≤ k → k = c) ∧
          (∀ r ∈ df, r.raw.pickup_address = addr → r.cluster_id.isSome = true))) →
      ∀ r ∈ (assignPickup items df cid).1, r.raw.pickup_address = addr →
        r.cluster_id.isSome = true := by
  intro items
  induction items with
  | nil =>
    intro df cid _ hmem
    exact absurd hmem (List.not_mem_nil _)
  | cons it rest ih =>
    intro df cid hlo hmem hinv
    obtain ⟨a, n⟩ := it
    rcases List.mem_cons.mp hmem with heq | hrest
    · injection heq with h1 h2
      subst h1
      subst h2
      by_cases hg : (df.any fun r =>
          r.cluster_id.isNone && decide (r.raw.pickup_address = addr)) = true
      · have hd : assignPickup ((addr, cnt) :: rest) df cid =
            assignPickup rest (df.map fun r =>
              if r.cluster_id.isNone && decide (r.raw.pickup_address = addr) then
                { r with cluster_id := some cid, group_key := some ("PICKUP=" ++ addr) }
              else r) (cid + 1) := by
          simp only [assignPickup, if_pos hcnt, if_pos hg]
        rw [hd]
        obtain ⟨c2, _, hB⟩ := c5_pickup_right_pres addr lo rest _ (cid + 1)
          (c5_step_addr addr lo df cid hlo hinv)
        exact hB
      · have hd : assignPickup ((addr, cnt) :: rest) df cid = assignPickup rest df cid := by
          simp only [assignPickup, if_pos hcnt, if_neg hg]
        rw [hd]
        obtain ⟨c2, _, hB⟩ := c5_pickup_right_pres addr lo rest df cid
          (c5_guard_false_right addr lo df hg hinv)
        exact hB
    · by_cases hn : n > 1
      · by_cases hg : (df.any fun r =>
            r.cluster_id.isNone && decide (r.raw.pickup_address = a)) = true
        · have hd : assignPickup ((a, n) :: rest) df cid =
              assignPickup rest (df.map fun r =>
                if r.cluster_id.isNone && decide (r.raw.pickup_address = a) then
                  { r with cluster_id := some cid, group_key := some ("PICKUP=" ++ a) }
                else r) (cid + 1) := by
            simp only [assignPickup, if_pos hn, if_pos hg]
          rw [hd]
          apply ih _ (cid + 1) (Nat.le_trans hlo (Nat.le_succ cid)) hrest
          by_cases ha : a = addr
          · subst ha
            exact Or.inr (c5_step_addr a lo df cid hlo hinv)
          · rcases hinv with hL | hR
            · exact Or.inl (c5_step_left_ne addr lo df a cid ha hL)
            · exact Or.inr (c5_step_right addr lo df a cid hR)
        · have hd : assignPickup ((a, n) :: rest) df cid = assignPickup rest df cid := by
            simp only [assignPickup, if_pos hn, if_neg hg]
          rw [hd]
          exact ih df cid hlo hrest hinv
      · have hd : assignPickup ((a, n) :: rest) df cid = assignPickup rest df cid := by
          simp only [assignPickup, if_neg hn]
        rw [hd]
        exact ih df cid hlo hrest hinv

theorem assignDropoff_ids_lt :
    ∀ (items : List (String × Nat)) (df : List Row) (cid : Nat),
      (∀ r ∈ df, ∀ k, r.cluster_id = some k → k < cid) →
      ∀ r ∈ (assignDropoff items df cid).1, ∀ k, r.cluster_id = some k →
        k < (assignDropoff items df cid).2 := by
  intro items
  induction items with
  | nil =>
    intro df cid h
    exact h
  | cons it rest ih =>
    intro df cid h
    obtain ⟨a, n⟩ := it
    by_cases hn : n > 1
    · have hd : assignDropoff ((a, n) :: rest) df cid =
          assignDropoff rest (df.map fun r =>
            if r.raw.dropoff_address = a then
              { r with cluster_id := some cid, group_key := some ("DROPOFF=" ++ a) }
            else r) (cid + 1) := by
        simp only [assignDropoff, if_pos hn]
      rw [hd]
      apply ih
      intro r2 hr2 k hk
      rcases List.mem_map.mp hr2 with ⟨r, hr, hfr⟩
      by_cases hda : r.raw.dropoff_address = a
      · rw [if_pos hda] at hfr
        rw [← hfr] at hk
        have hk2 : (some cid : Option Nat) = some k := hk
        injection hk2 with hk3
        omega
      · rw [if_neg hda] at hfr
        rw [← hfr] at hk
        have := h r hr k hk
        omega
    · have hd : assignDropoff ((a, n) :: rest) df cid = assignDropoff rest df cid := by
        simp only [assignDropoff, if_neg hn]
      rw [hd]
      exact ih df cid h

end CarpoolPoc

namespace CarpoolPoc

theorem dictSub_refl (d : VDict) : dictSub d d :=
  fun e he t ht => ⟨e, he, t, ht, fun _ hb => hb⟩

theorem dictSub_trans {d1 d2 d3 : VDict} (h12 : dictSub d1 d2) (h23 : dictSub d2 d3) :
    dictSub d1 d3 := by
  intro e he t ht
  obtain ⟨e2, he2, t2, ht2, hb2⟩ := h12 e he t ht
  obtain ⟨e3, he3, t3, ht3, hb3⟩ := h23 e2 he2 t2 ht2
  exact ⟨e3, he3, t3, ht3, fun b hb => hb3 b (hb2 b hb)⟩

theorem dictSub_appendTrip (vid : String) (t : Trip) :
    ∀ (d : VDict), dictSub d (dictAppendTrip d vid t) := by
  intro d
  induction d with
  | nil =>
    intro e he
    exact absurd he (List.not_mem_nil e)
  | cons e0 rest ih =>
    intro e he t2 ht2
    by_cases h0 : e0.1.id = vid
    · have hd : dictAppendTrip (e0 :: rest) vid t = (e0.1, e0.2 ++ [t]) :: rest := by
        simp [dictAppendTrip, h0]
      rw [hd]
      rcases List.mem_cons.mp he with heq | hrest
      · subst heq
        exact ⟨(e.1, e.2 ++ [t]), List.mem_cons_self _ _, t2,
          List.mem_append_left _ ht2, fun b hb => hb⟩
      · exact ⟨e, List.mem_cons_of_mem _ hrest, t2, ht2, fun b hb => hb⟩
    · have hd : dictAppendTrip (e0 :: rest) vid t = e0 :: dictAppendTrip rest vid t := by
        simp [dictAppendTrip, h0]
      rw [hd]
      rcases List.mem_cons.mp he with heq | hrest
      · subst heq
        exact ⟨e, List.mem_cons_self _ _, t2, ht2, fun b hb => hb⟩
      · obtain ⟨e2, he2, t3, ht3, hb3⟩ := ih e hrest t2 ht2
        exact ⟨e2, List.mem_cons_of_mem _ he2, t3, ht3, hb3⟩

theorem placeInTrips_sub (cap : Int) (b : Booking) :
    ∀ (ts ts2 : List Trip), placeInTrips cap b ts = some ts2 →
      ∀ t ∈ ts, ∃ t2 ∈ ts2, ∀ x ∈ t.bookings, x ∈ t2.bookings := by
  intro ts
  induction ts with
  | nil =>
    intro ts2 h
    simp [placeInTrips] at h
  | cons t0 rest ih =>
    intro ts2 h t ht
    simp only [placeInTrips] at h
    split at h
    · cases h
      rcases List.mem_cons.mp ht with heq | hrest
      · subst heq
        refine ⟨{ t with bookings := t.bookings ++ [b] }, List.mem_cons_self _ _, ?_⟩
        intro x hx
        exact List.mem_append_left _ hx
      · exact ⟨t, List.mem_cons_of_mem _ hrest, fun x hx => hx⟩
    · rcases Option.map_eq_some'.mp h with ⟨rest2, hr2, heq2⟩
      subst heq2
      rcases List.mem_cons.mp ht with heq | hrest
      · subst heq
        exact ⟨t, List.mem_cons_self _ _, fun x hx => hx⟩
      · obtain ⟨t2, ht2, hx2⟩ := ih rest2 hr2 t hrest
        exact ⟨t2, List.mem_cons_of_mem _ ht2, hx2⟩

theorem dictSetTrips_sub (vid : String) (ts2 : List Trip) :
    ∀ (d : VDict),
      (∀ t ∈ (dictGet d vid).getD [], ∃ t2 ∈ ts2, ∀ x ∈ t.bookings, x ∈ t2.bookings) →
      dictSub d (dictSetTrips d vid ts2) := by
  intro d
  induction d with
  | nil =>
    intro h e he
    exact absurd he (List.not_mem_nil e)
  | cons e0 rest ih =>
    intro h e he t ht
    by_cases h0 : e0.1.id = vid
    · have hget : dictGet (e0 :: rest) vid = some e0.2 := by
        rw [dictGet_cons, if_pos h0]
      have hd : dictSetTrips (e0 :: rest) vid ts2 = (e0.1, ts2) :: rest := by
        simp [dictSetTrips, h0]
      rw [hd]
      rcases List.mem_cons.mp he with heq | hrest
      · subst heq
        rw [hget] at h
        obtain ⟨t2, ht2, hx⟩ := h t (by simpa using ht)
        exact ⟨(e.1, ts2), List.mem_cons_self _ _, t2, ht2, hx⟩
      · exact ⟨e, List.mem_cons_of_mem _ hrest, t, ht, fun x hx => hx⟩
    · have hget : dictGet (e0 :: rest) vid = dictGet rest vid := by
        rw [dictGet_cons, if_neg h0]
      have hd : dictSetTrips (e0 :: rest) vid ts2 = e0 :: dictSetTrips rest vid ts2 := by
        simp [dictSetTrips, h0]
      rw [hd]
      rcases List.mem_cons.mp he with heq | hrest
      · subst heq
        exact ⟨e, List.mem_cons_self _ _, t, ht, fun x hx => hx⟩
      · rw [hget] at h
        obtain ⟨e2, he2, t2, ht2, hx⟩ := ih h e hrest t ht
        exact ⟨e2, List.mem_cons_of_mem _ he2, t2, ht2, hx⟩

theorem placeInExisting_sub (b : Booking) :
    ∀ (vs : List Vehicle) (d d2 : VDict), placeInExisting d b vs = some d2 →
      dictSub d d2 := by
  intro vs
  induction vs with
  | nil =>
    intro d d2 h
    simp [placeInExisting] at h
  | cons v rest ih =>
    intro d d2 h
    simp only [placeInExisting] at h
    cases hg : placeInTrips v.capacity b ((dictGet d v.id).getD []) with
    | none =>
      rw [hg] at h
      exact ih d d2 h
    | some ts =>
      rw [hg] at h
      cases h
      exact dictSetTrips_sub v.id ts d (placeInTrips_sub v.capacity b _ ts hg)

theorem close_sub (vehicles : List Vehicle) (s : PackState) :
    dictSub s.result (close_current_vehicle vehicles s).result := by
  cases hct : s.current_trip with
  | none =>
    have hcl : close_current_vehicle vehicles s = s := by
      simp only [close_current_vehicle, hct]
    rw [hcl]
    exact dictSub_refl s.result
  | some t =>
    have hcl : close_current_vehicle vehicles s =
        { result := dictAppendTrip s.result (vehicles.getD s.idx_vehicle default).id t
          idx_vehicle := (s.idx_vehicle + 1) % vehicles.length
          current_trip := none } := by
      simp only [close_current_vehicle, hct]
    rw [hcl]
    exact dictSub_appendTrip _ t s.result

theorem pack_step_sub (vehicles : List Vehicle) (mw : Int) (s : PackState) (r : Row) :
    dictSub s.result (pack_step vehicles mw s r).result := by
  cases hct : s.current_trip with
  | none =>
    have hp : pack_step vehicles mw s r =
        { s with current_trip := some { bookings := [r.raw], start_time := r.pickup_datetime } } := by
      simp only [pack_step, hct]
    rw [hp]
    exact dictSub_refl s.result
  | some t =>
    by_cases hfit : r.pickup_datetime.getD 0 - t.start_time.getD 0 ≤ mw ∧
        (vehicles.getD s.idx_vehicle default).capacity ≥
          t.total_passengers + r.raw.passenger_count
    · have hp : pack_step vehicles mw s r =
          { s with current_trip := some { t with bookings := t.bookings ++ [r.raw] } } := by
        simp only [pack_step, hct, if_pos hfit]
      rw [hp]
      exact dictSub_refl s.result
    · have hp : pack_step vehicles mw s r =
          { close_current_vehicle vehicles s with
            current_trip := some { bookings := [r.raw], start_time := r.pickup_datetime } } := by
        simp only [pack_step, hct, if_neg hfit]
      rw [hp]
      exact close_sub vehicles s

theorem fill_step_sub (vehicles : List Vehicle) (s : PackState) (r : Row) :
    dictSub s.result (fill_step vehicles s r).result := by
  cases hpl : placeInExisting s.result r.raw vehicles with
  | some d2 =>
    have hp : fill_step vehicles s r = { s with result := d2 } := by
      simp only [fill_step, hpl]
    rw [hp]
    exact placeInExisting_sub r.raw vehicles s.result d2 hpl
  | none =>
    have hp : fill_step vehicles s r =
        close_current_vehicle vehicles
          { s with current_trip := some { bookings := [r.raw], start_time := none } } := by
      simp only [fill_step, hpl]
    rw [hp]
    exact close_sub vehicles
      { s with current_trip := some { bookings := [r.raw], start_time := none } }

theorem foldl_pack_sub (vehicles : List Vehicle) (mw : Int) :
    ∀ (rows : List Row) (s : PackState),
      dictSub s.result ((rows.foldl (pack_step vehicles mw) s)).result := by
  intro rows
  induction rows with
  | nil =>
    intro s
    exact dictSub_refl s.result
  | cons r rest ih =>
    intro s
    simp only [List.foldl_cons]
    exact dictSub_trans (pack_step_sub vehicles mw s r) (ih (pack_step vehicles mw s r))

theorem foldl_fill_sub (vehicles : List Vehicle) :
    ∀ (rows : List Row) (s : PackState),
      dictSub s.result ((rows.foldl (fill_step vehicles) s)).result := by
  intro rows
  induction rows with
  | nil =>
    intro s
    exact dictSub_refl s.result
  | cons r rest ih =>
    intro s
    simp only [List.foldl_cons]
    exact dictSub_trans (fill_step_sub vehicles s r) (ih (fill_step vehicles s r))

theorem assign_bookings_sub (df : List Row) (vehicles : List Vehicle) (d d2 : VDict)
    (mw : Int) (h : assign_bookings_to_vehicles df vehicles d mw = some d2) :
    dictSub d d2 := by
  cases hfind : find_vehicle_idx_with_less_trips vehicles d with
  | none =>
    have hnone : assign_bookings_to_vehicles df vehicles d mw = none := by
      simp only [assign_bookings_to_vehicles, hfind]
    rw [hnone] at h
    exact Option.noConfusion h
  | some i =>
    rw [assign_bookings_eq df vehicles d mw i hfind] at h
    injection h with h1
    rw [← h1]
    refine dictSub_trans ?_ (foldl_fill_sub vehicles _ _)
    refine dictSub_trans ?_ (close_sub vehicles _)
    exact foldl_pack_sub vehicles mw _ (⟨d, i, none⟩ : PackState)

theorem packClusters_sub (clustered : List Row) (vehicles : List Vehicle) (mw : Int) :
    ∀ (cs : List Nat) (d d2 : VDict),
      packClusters clustered vehicles mw cs d = some d2 → dictSub d d2 := by
  intro cs
  induction cs with
  | nil =>
    intro d d2 h
    have hid : packClusters clustered vehicles mw [] d = some d := by
      simp only [packClusters]
    rw [hid] at h
    injection h with h1
    rw [← h1]
    exact dictSub_refl d
  | cons c cs2 ih =>
    intro d d2 h
    cases ha : assign_bookings_to_vehicles
        (clustered.filter (fun r => decide (r.cluster_id = some c))) vehicles d mw with
    | none =>
      have hnone : packClusters clustered vehicles mw (c :: cs2) d = none := by
        simp only [packClusters, ha]
      rw [hnone] at h
      exact Option.noConfusion h
    | some d1 =>
      have hsome : packClusters clustered vehicles mw (c :: cs2) d =
          packClusters clustered vehicles mw cs2 d1 := by
        simp only [packClusters, ha]
      rw [hsome] at h
      exact dictSub_trans (assign_bookings_sub _ vehicles d d1 mw ha) (ih d1 d2 h)

theorem dictHasTripWith_of_sub {d d2 : VDict} {S : List Booking}
    (hsub : dictSub d d2) (h : dictHasTripWith d S) : dictHasTripWith d2 S := by
  obtain ⟨e, he, t, ht, hb⟩ := h
  obtain ⟨e2, he2, t2, ht2, hx⟩ := hsub e he t ht
  exact ⟨e2, he2, t2, ht2, fun b hbS => hx b (hb b hbS)⟩

theorem dictHasTripWith_append (vid : String) (t : Trip) (S : List Booking)
    (hb : ∀ b ∈ S, b ∈ t.bookings) :
    ∀ (d : VDict), dictContains d vid = true →
      dictHasTripWith (dictAppendTrip d vid t) S := by
  intro d
  induction d with
  | nil =>
    intro hc
    simp [dictContains] at hc
  | cons e0 rest ih =>
    intro hc
    by_cases h0 : e0.1.id = vid
    · have hd : dictAppendTrip (e0 :: rest) vid t = (e0.1, e0.2 ++ [t]) :: rest := by
        simp [dictAppendTrip, h0]
      rw [hd]
      exact ⟨(e0.1, e0.2 ++ [t]), List.mem_cons_self _ _, t,
        List.mem_append_right _ (List.mem_singleton.mpr rfl), hb⟩
    · have hd : dictAppendTrip (e0 :: rest) vid t = e0 :: dictAppendTrip rest vid t := by
        simp [dictAppendTrip, h0]
      rw [hd]
      have hc2 : dictContains rest vid = true := by
        simp only [dictContains, List.any_cons, Bool.or_eq_true, decide_eq_true_eq] at hc
        rcases hc with hca | hcb
        · exact absurd hca h0
        · rw [dictContains]
          exact hcb
      obtain ⟨e2, he2, t2, ht2, hx⟩ := ih hc2
      exact ⟨e2, List.mem_cons_of_mem _ he2, t2, ht2, hx⟩

theorem planHasTripWith_of_dict (d : VDict) (S : List Booking)
    (h : dictHasTripWith d S) :
    planHasTripWith (d.map (fun e => { vehicle := e.1, trips := e.2 })) S := by
  obtain ⟨e, he, t, ht, hb⟩ := h
  exact ⟨{ vehicle := e.1, trips := e.2 }, List.mem_map_of_mem _ he, t, ht, hb⟩

theorem foldl_distribute_sub (vehicles : List Vehicle) :
    ∀ (rows : List Row) (p : VDict × Nat),
      dictSub p.1 ((rows.foldl (distribute_step vehicles) p)).1 := by
  intro rows
  induction rows with
  | nil =>
    intro p
    exact dictSub_refl p.1
  | cons r rest ih =>
    intro p
    simp only [List.foldl_cons]
    refine dictSub_trans ?_ (ih (distribute_step vehicles p r))
    exact dictSub_appendTrip _ _ p.1

end CarpoolPoc

namespace CarpoolPoc

theorem pack_fold_single (vehicles : List Vehicle) (mw : Int) (t0 : DT) :
    ∀ (rows : List Row) (d0 : VDict) (i : Nat) (t : Trip) (p0 : DT),
      t.start_time = some p0 → t0 ≤ p0 →
      (∀ r ∈ rows, ∃ p, r.pickup_datetime = some p ∧ t0 ≤ p ∧ p - t0 ≤ mw) →
      (∀ r ∈ rows, 0 ≤ r.raw.passenger_count) →
      t.total_passengers + (rows.map (fun r => r.raw.passenger_count)).sum ≤
        (vehicles.getD i default).capacity →
      rows.foldl (pack_step vehicles mw) (⟨d0, i, some t⟩ : PackState) =
        (⟨d0, i, some { t with bookings := t.bookings ++ rows.map (fun r => r.raw) }⟩
          : PackState) := by
  intro rows
  induction rows with
  | nil =>
    intro d0 i t p0 hst hp0 hwin hcnt hcap
    simp
  | cons r rest ih =>
    intro d0 i t p0 hst hp0 hwin hcnt hcap
    obtain ⟨p, hp, htp, hpw⟩ := hwin r (List.mem_cons_self _ _)
    have hfit : r.pickup_datetime.getD 0 - t.start_time.getD 0 ≤ mw ∧
        (vehicles.getD i default).capacity ≥
          t.total_passengers + r.raw.passenger_count := by
      constructor
      · rw [hp, hst]
        simp only [Option.getD_some]
        exact le_trans (sub_le_sub_left hp0 p) hpw
      · have hsum : 0 ≤ (rest.map (fun r => r.raw.passenger_count)).sum :=
          List.sum_nonneg (by
            intro x hx
            rcases List.mem_map.mp hx with ⟨r2, hr2, hfx⟩
            rw [← hfx]
            exact hcnt r2 (List.mem_cons_of_mem _ hr2))
        have hmc : (List.map (fun r => r.raw.passenger_count) (r :: rest)).sum =
            r.raw.passenger_count + (rest.map (fun r => r.raw.passenger_count)).sum := by
          simp
        rw [hmc] at hcap
        omega
    have hstep : pack_step vehicles mw (⟨d0, i, some t⟩ : PackState) r =
        (⟨d0, i, some { t with bookings := t.bookings ++ [r.raw] }⟩ : PackState) := by
      simp only [pack_step, if_pos hfit]
    have hcap2 : ({ t with bookings := t.bookings ++ [r.raw] } : Trip).total_passengers +
        (rest.map (fun r => r.raw.passenger_count)).sum ≤
        (vehicles.getD i default).capacity := by
      rw [total_passengers_append]
      have hmc2 : (List.map (fun r => r.raw.passenger_count) (r :: rest)).sum =
          r.raw.passenger_count + (rest.map (fun r => r.raw.passenger_count)).sum := by
        simp
      rw [hmc2] at hcap
      omega
    have ht2 := ih d0 i { t with bookings := t.bookings ++ [r.raw] } p0 hst hp0
      (fun r2 hr2 => hwin r2 (List.mem_cons_of_mem _ hr2))
      (fun r2 hr2 => hcnt r2 (List.mem_cons_of_mem _ hr2)) hcap2
    simp only [List.foldl_cons]
    rw [hstep, ht2]
    simp [List.append_assoc]

theorem assign_bookings_single (vehicles : List Vehicle) (mw : Int) (t0 : DT)
    (rows : List Row) (d0 d1 : VDict)
    (hcont : ∀ v ∈ vehicles, dictContains d0 v.id = true)
    (hne : rows ≠ [])
    (hwin : ∀ r ∈ rows, ∃ p, r.pickup_datetime = some p ∧ t0 ≤ p ∧ p - t0 ≤ mw)
    (hcnt : ∀ r ∈ rows, 0 ≤ r.raw.passenger_count)
    (hcap : ∀ v ∈ vehicles, (rows.map (fun r => r.raw.passenger_count)).sum ≤ v.capacity)
    (h : assign_bookings_to_vehicles rows vehicles d0 mw = some d1) :
    dictHasTripWith d1 (rows.map (fun r => r.raw)) := by
  cases hfind : find_vehicle_idx_with_less_trips vehicles d0 with
  | none =>
    have hnone : assign_bookings_to_vehicles rows vehicles d0 mw = none := by
      simp only [assign_bookings_to_vehicles, hfind]
    rw [hnone] at h
    exact Option.noConfusion h
  | some i =>
    have hi : i < vehicles.length := find_vehicle_idx_lt vehicles d0 i hfind
    rw [assign_bookings_eq rows vehicles d0 mw i hfind] at h
    injection h with h1
    have hfs : rows.filter (fun r => r.pickup_datetime.isSome) = rows := by
      apply List.filter_eq_self.mpr
      intro r hr
      rcases hwin r hr with ⟨p, hp, _, _⟩
      simp [hp]
    have hfn : rows.filter (fun r => r.pickup_datetime.isNone) = [] := by
      apply List.filter_eq_nil_iff.mpr
      intro r hr
      rcases hwin r hr with ⟨p, hp, _, _⟩
      simp [hp]
    rw [hfs, hfn] at h1
    have hvi : vehicles.getD i default ∈ vehicles := by
      rw [getD_eq_get vehicles i hi]
      exact List.get_mem vehicles i hi
    cases hs : sortedBy (fun r => r.pickup_datetime.getD 0) rows with
    | nil =>
      exfalso
      have hlen := (sortedBy_perm (fun r => r.pickup_datetime.getD 0) rows).length_eq
      rw [hs] at hlen
      cases hrows : rows with
      | nil => exact hne hrows
      | cons x xs =>
        rw [hrows] at hlen
        simp at hlen
    | cons r0 tail =>
      have hr0 : r0 ∈ rows := mem_sortedBy.mp (by rw [hs]; exact List.mem_cons_self _ _)
      obtain ⟨p0, hp0, ht0, hw0⟩ := hwin r0 hr0
      have hsummap : ((sortedBy (fun r => r.pickup_datetime.getD 0) rows).map
          (fun r => r.raw.passenger_count)).sum =
          (rows.map (fun r => r.raw.passenger_count)).sum :=
        ((sortedBy_perm (fun r => r.pickup_datetime.getD 0) rows).map
          (fun r => r.raw.passenger_count)).sum_eq
      rw [hs] at h1 hsummap
      have hstep1 : pack_step vehicles mw (⟨d0, i, none⟩ : PackState) r0 =
          (⟨d0, i, some { bookings := [r0.raw], start_time := r0.pickup_datetime }⟩
            : PackState) := by
        simp only [pack_step]
      have hwtail : ∀ r ∈ tail, ∃ p, r.pickup_datetime = some p ∧ t0 ≤ p ∧ p - t0 ≤ mw := by
        intro r hr
        apply hwin
        apply mem_sortedBy.mp
        rw [hs]
        exact List.mem_cons_of_mem _ hr
      have hctail : ∀ r ∈ tail, 0 ≤ r.raw.passenger_count := by
        intro r hr
        apply hcnt
        apply mem_sortedBy.mp
        rw [hs]
        exact List.mem_cons_of_mem _ hr
      have hcap2 : ({ bookings := [r0.raw], start_time := r0.pickup_datetime }
            : Trip).total_passengers +
          (tail.map (fun r => r.raw.passenger_count)).sum ≤
          (vehicles.getD i default).capacity := by
        have hexp : ({ bookings := [r0.raw], start_time := r0.pickup_datetime }
            : Trip).total_passengers = r0.raw.passenger_count := by
          simp [Trip.total_passengers]
        rw [hexp]
        have hmc : (List.map (fun r => r.raw.passenger_count) (r0 :: tail)).sum =
            r0.raw.passenger_count + (tail.map (fun r => r.raw.passenger_count)).sum := by
          simp
        rw [hmc] at hsummap
        have := hcap (vehicles.getD i default) hvi
        omega
      have hfold := pack_fold_single vehicles mw t0 tail d0 i
        { bookings := [r0.raw], start_time := r0.pickup_datetime } p0
        (by rw [hp0]) ht0 hwtail hctail hcap2
      rw [List.foldl_cons, hstep1, hfold] at h1
      simp only [close_current_vehicle, List.foldl_nil] at h1
      rw [← h1]
      refine dictHasTripWith_append (vehicles.getD i default).id _ _ ?_ d0
        (hcont _ hvi)
      intro b hb
      rcases List.mem_map.mp hb with ⟨r, hr, hfb⟩
      have hrs : r ∈ r0 :: tail := by
        rw [← hs]
        exact mem_sortedBy.mpr hr
      show b ∈ [r0.raw] ++ tail.map (fun r => r.raw)
      rcases List.mem_cons.mp hrs with heq | htail
      · subst heq
        rw [← hfb]
        exact List.mem_append_left _ (List.mem_singleton.mpr rfl)
      · rw [← hfb]
        exact List.mem_append_right _ (List.mem_map_of_mem _ htail)

end CarpoolPoc

namespace CarpoolPoc

theorem packClusters_single (vehicles : List Vehicle) (clustered : List Row) (mw : Int)
    (c : Nat) (t0 : DT)
    (hne : clustered.filter (fun r => decide (r.cluster_id = some c)) ≠ [])
    (hwin : ∀ r ∈ clustered.filter (fun r => decide (r.cluster_id = some c)),
      ∃ p, r.pickup_datetime = some p ∧ t0 ≤ p ∧ p - t0 ≤ mw)
    (hcnt : ∀ r ∈ clustered.filter (fun r => decide (r.cluster_id = some c)),
      0 ≤ r.raw.passenger_count)
    (hcap : ∀ v ∈ vehicles,
      ((clustered.filter (fun r => decide (r.cluster_id = some c))).map
        (fun r => r.raw.passenger_count)).sum ≤ v.capacity) :
    ∀ (cs : List Nat) (d0 d2 : VDict),
      (∀ v ∈ vehicles, dictContains d0 v.id = true) →
      c ∈ cs →
      packClusters clustered vehicles mw cs d0 = some d2 →
      dictHasTripWith d2
        ((clustered.filter (fun r => decide (r.cluster_id = some c))).map
          (fun r => r.raw)) := by
  intro cs
  induction cs with
  | nil =>
    intro d0 d2 _ hmem
    exact absurd hmem (List.not_mem_nil _)
  | cons c2 cs2 ih =>
    intro d0 d2 hcont hmem h
    cases ha : assign_bookings_to_vehicles
        (clustered.filter (fun r => decide (r.cluster_id = some c2))) vehicles d0 mw with
    | none =>
      have hnone : packClusters clustered vehicles mw (c2 :: cs2) d0 = none := by
        simp only [packClusters, ha]
      rw [hnone] at h
      exact Option.noConfusion h
    | some d1 =>
      have hsome : packClusters clustered vehicles mw (c2 :: cs2) d0 =
          packClusters clustered vehicles mw cs2 d1 := by
        simp only [packClusters, ha]
      rw [hsome] at h
      rcases List.mem_cons.mp hmem with heq | hrest
      · subst heq
        have hhas := assign_bookings_single vehicles mw t0 _ d0 d1 hcont hne hwin hcnt
          hcap ha
        exact dictHasTripWith_of_sub (packClusters_sub clustered vehicles mw cs2 d1 d2 h)
          hhas
      · have hkeys := assign_bookings_keys _ vehicles d0 mw d1 ha
        exact ih d1 d2 (contains_all_of_keys_eq hkeys vehicles hcont) hrest h

/-- **C5** (amended): (i) whenever `group_same_addresses` completes (rather
than raising `KeyError('cluster_id')`), any two of its rows whose shared
dropoff address occurs more than once get one (assigned) cluster id; (ii) on
an unclustered frame, a row whose pickup address occurs more than once always
leaves a completing `group_same_addresses` with a cluster id (such a run
necessarily created the `cluster_id` column: otherwise the pickup loop's read
raises); (iii) any two rows sharing a pickup address whose ids were assigned
by the pickup pass (at or above the dropoff pass's next id) carry the same id;
(iv) whenever the frame's `cluster_id` column exists, every row of a cluster
has a resolved pickup instant within `max_wait_minutes` of a common lower
bound, all passenger counts are nonnegative and their total fits every
vehicle's capacity, the whole cluster lands in a single trip of the final
plan.  Capacity alone (the claim's "capacity permitting") is NOT sufficient:
the wait window can split a same-address cluster across trips. -/
theorem c5_cluster_cohesion :
    (∀ (df : List Row) (out : List Row × Bool) (r1 r2 : Row),
      group_same_addresses df = some out →
      r1 ∈ out.1 → r2 ∈ out.1 →
      r1.raw.dropoff_address = r2.raw.dropoff_address →
      1 < countOcc (df.map (fun r => r.raw.dropoff_address)) r1.raw.dropoff_address →
      r1.cluster_id = r2.cluster_id ∧ r1.cluster_id.isSome = true) ∧
    (∀ (df : List Row) (out : List Row × Bool) (r : Row),
      (∀ r0 ∈ df, r0.cluster_id = none) →
      group_same_addresses df = some out →
      r ∈ out.1 →
      1 < countOcc (df.map (fun x => x.raw.pickup_address)) r.raw.pickup_address →
      r.cluster_id.isSome = true) ∧
    (∀ (df : List Row) (out : List Row × Bool) (r1 r2 : Row),
      (∀ r0 ∈ df, r0.cluster_id = none) →
      group_same_addresses df = some out →
      r1 ∈ out.1 → r2 ∈ out.1 →
      r1.raw.pickup_address = r2.raw.pickup_address →
      ∀ k1 k2, r1.cluster_id = some k1 → r2.cluster_id = some k2 →
      (assignDropoff (value_counts (df.map (fun x => x.raw.dropoff_address))) df 1).2 ≤ k1 →
      (assignDropoff (value_counts (df.map (fun x => x.raw.dropoff_address))) df 1).2 ≤ k2 →
      k1 = k2) ∧
    (∀ (df : List Row) (vehicles : List Vehicle) (mw : Int) (plan : List VehiclePlan)
      (c : Nat) (t0 : DT),
      assign_to_vehicle df true vehicles mw = some plan →
      df.filter (fun r => decide (r.cluster_id = some c)) ≠ [] →
      (∀ r ∈ df.filter (fun r => decide (r.cluster_id = some c)),
        ∃ p, r.pickup_datetime = some p ∧ t0 ≤ p ∧ p - t0 ≤ mw) →
      (∀ r ∈ df.filter (fun r => decide (r.cluster_id = some c)),
        0 ≤ r.raw.passenger_count) →
      (∀ v ∈ vehicles,
        ((df.filter (fun r => decide (r.cluster_id = some c))).map
          (fun r => r.raw.passenger_count)).sum ≤ v.capacity) →
      planHasTripWith plan
        ((df.filter (fun r => decide (r.cluster_id = some c))).map (fun r => r.raw))) := by
  refine ⟨?_, ?_, ?_, ?_⟩
  · intro df out r1 r2 hout h1 h2 hdd hcnt
    exact c5_dropoff_cohesion df out r1 r2 hout h1 h2 hdd hcnt
  · intro df out r hnone hout hr hcnt
    have haddr : r.raw.pickup_address ∈ df.map (fun x => x.raw.pickup_address) :=
      countOcc_pos_mem _ _ (lt_trans Nat.zero_lt_one hcnt)
    have hitem := value_counts_mem (df.map (fun x => x.raw.pickup_address))
      r.raw.pickup_address haddr
    rcases group_same_addresses_cases df out hout with ⟨he, _⟩ | ⟨_, _, hpuf⟩
    · simp only [he] at hr
      have hL : ∀ r2 ∈ (assignDropoff (value_counts
            (df.map (fun x => x.raw.dropoff_address))) df 1).1,
          r2.raw.pickup_address = r.raw.pickup_address →
          ∀ k, r2.cluster_id = some k →
            k < (assignDropoff
              (value_counts (df.map (fun x => x.raw.dropoff_address))) df 1).2 := by
        intro r2 hr2 _ k hk
        exact assignDropoff_ids_lt
          (value_counts (df.map (fun x => x.raw.dropoff_address))) df 1
          (fun r0 h0 k0 hk0 => by
            rw [hnone r0 h0] at hk0
            exact Option.noConfusion hk0) r2 hr2 k hk
      exact c5_pickup_exists r.raw.pickup_address
        (assignDropoff (value_counts (df.map (fun x => x.raw.dropoff_address))) df 1).2
        _ hcnt _ _ _ (Nat.le_refl _) hitem (Or.inl hL) r hr rfl
    · have hany : (value_counts (df.map (fun x => x.raw.pickup_address))).any
          (fun p => decide (1 < p.2)) = true :=
        List.any_eq_true.mpr ⟨_, hitem, by simpa using hcnt⟩
      rw [hpuf] at hany
      exact Bool.noConfusion hany
  · intro df out r1 r2 hnone hout h1 h2 hpp k1 k2 hk1 hk2 hlo1 hlo2
    have hvac : ∀ r0 ∈ df, ∀ k0 : Nat, r0.cluster_id = some k0 → False := by
      intro r0 h0 k0 hk0
      rw [hnone r0 h0] at hk0
      exact Option.noConfusion hk0
    rcases group_same_addresses_cases df out hout with ⟨he, _⟩ | ⟨he, _, _⟩
    · simp only [he] at h1 h2
      have hL : ∀ r0 ∈ (assignDropoff (value_counts
            (df.map (fun x => x.raw.dropoff_address))) df 1).1,
          r0.raw.pickup_address = r1.raw.pickup_address →
          ∀ k, r0.cluster_id = some k →
            k < (assignDropoff
              (value_counts (df.map (fun x => x.raw.dropoff_address))) df 1).2 := by
        intro r0 hr0 _ k hk
        exact assignDropoff_ids_lt
          (value_counts (df.map (fun x => x.raw.dropoff_address))) df 1
          (fun r3 h3 k3 hk3 => (hvac r3 h3 k3 hk3).elim) r0 hr0 k hk
      rcases c5_pickup_inv r1.raw.pickup_address
          (assignDropoff (value_counts (df.map (fun x => x.raw.dropoff_address))) df 1).2
          (value_counts (df.map (fun x => x.raw.pickup_address))) _ _
          (Nat.le_refl _) (Or.inl hL) with hLf | ⟨cu, hu, _⟩
      · exact absurd (hLf r1 h1 rfl k1 hk1) (Nat.not_lt.mpr hlo1)
      · rw [hu r1 h1 rfl k1 hk1 hlo1, hu r2 h2 hpp.symm k2 hk2 hlo2]
    · simp only [he] at h1
      have hlt := assignDropoff_ids_lt
        (value_counts (df.map (fun x => x.raw.dropoff_address))) df 1
        (fun r3 h3 k3 hk3 => (hvac r3 h3 k3 hk3).elim) r1 h1 k1 hk1
      omega
  · intro df vehicles mw plan c t0 h hne hwin hcnt hcap
    rw [assign_to_vehicle_col] at h
    cases hpc : packClusters (df.filter (fun r => r.cluster_id.isSome))
        (sortedBy (fun v => -v.capacity) vehicles) mw (cluster_ids_order df)
        (vehicles.foldl dictSetEmpty []) with
    | none =>
      have hx : assign_to_vehicle_go df vehicles mw = none := by
        simp only [assign_to_vehicle_go, hpc]
      rw [hx] at h
      exact Option.noConfusion h
    | some result1 =>
      cases hidx : find_vehicle_idx_with_less_trips
          (sortedBy (fun v => -v.capacity) vehicles) result1 with
      | none =>
        have hx : assign_to_vehicle_go df vehicles mw = none := by
          simp only [assign_to_vehicle_go, hpc, hidx]
        rw [hx] at h
        exact Option.noConfusion h
      | some i =>
        rw [assign_to_vehicle_go_eq df vehicles mw result1 i hpc hidx] at h
        injection h with h1
        have hff : (df.filter (fun r => r.cluster_id.isSome)).filter
            (fun r => decide (r.cluster_id = some c)) =
            df.filter (fun r => decide (r.cluster_id = some c)) := by
          rw [List.filter_filter]
          apply List.filter_congr
          intro r _
          cases hc2 : r.cluster_id <;> simp
        have hcmem : c ∈ cluster_ids_order df := by
          cases hfc : df.filter (fun r => decide (r.cluster_id = some c)) with
          | nil => exact absurd hfc hne
          | cons r0 rest0 =>
            have hr0 : r0 ∈ df.filter (fun r => decide (r.cluster_id = some c)) := by
              rw [hfc]
              exact List.mem_cons_self _ _
            rcases List.mem_filter.mp hr0 with ⟨hr0df, hr0c⟩
            rw [decide_eq_true_eq] at hr0c
            apply (uniqueInOrderGo_mem _ [] c).mpr
            refine ⟨?_, by simp⟩
            rw [List.mem_filterMap]
            refine ⟨r0, ?_, hr0c⟩
            rw [List.mem_filter]
            refine ⟨hr0df, ?_⟩
            rw [hr0c]
            rfl
        have hcont0 : ∀ v ∈ sortedBy (fun v => -v.capacity) vehicles,
            dictContains (vehicles.foldl dictSetEmpty []) v.id = true := by
          intro v hv
          exact initDict_contains vehicles [] v (mem_sortedBy.mp hv)
        have hhas := packClusters_single (sortedBy (fun v => -v.capacity) vehicles)
          (df.filter (fun r => r.cluster_id.isSome)) mw c t0
          (by rw [hff]; exact hne)
          (by rw [hff]; exact hwin)
          (by rw [hff]; exact hcnt)
          (by
            rw [hff]
            intro v hv
            exact hcap v (mem_sortedBy.mp hv))
          (cluster_ids_order df) (vehicles.foldl dictSetEmpty []) result1
          hcont0 hcmem hpc
        rw [hff] at hhas
        have hsub := foldl_distribute_sub (sortedBy (fun v => -v.capacity) vehicles)
          (sortedBy (fun r => r.raw.passenger_count)
            (df.filter (fun r => r.cluster_id.isNone))) (result1, i)
        have hhas2 := dictHasTripWith_of_sub hsub hhas
        rw [← h1]
        exact planHasTripWith_of_dict _ _ hhas2

/-- Witness for C5 at the concrete frames: `group_same_addresses` completes on
`c5dfW` and its shared-dropoff rows come out with one id; on `c5dfW2` (whose
dropoff pair creates the `cluster_id` column) the shared-pickup rows are
clustered with one id (2, above the dropoff pass's final counter); and the
two-row cluster of `c5dfW3` lands in a single trip of the plan. -/
theorem c5_cluster_cohesion_witness :
    (group_same_addresses c5dfW = some c5outW ∧ c5r1W ∈ c5outW.1 ∧
      1 < countOcc (c5dfW.map (fun r => r.raw.dropoff_address)) c5r1W.raw.dropoff_address ∧
      c5r1W.cluster_id = c5r2W.cluster_id ∧ c5r1W.cluster_id.isSome = true) ∧
    (group_same_addresses c5dfW2 = some c5outW2 ∧ c5rP0W ∈ c5outW2.1 ∧
      1 < countOcc (c5dfW2.map (fun x => x.raw.pickup_address)) c5rP0W.raw.pickup_address ∧
      c5rP0W.cluster_id.isSome = true) ∧
    (c5rP0W.cluster_id = some 2 ∧ c5rP1W.cluster_id = some 2 ∧
      (assignDropoff (value_counts (c5dfW2.map (fun x => x.raw.dropoff_address))) c5dfW2 1).2
        ≤ 2 ∧ (2 : Nat) = 2) ∧
    (assign_to_vehicle c5dfW3 true c5vehW 30 = some c5planW ∧
      planHasTripWith c5planW
        ((c5dfW3.filter (fun r => decide (r.cluster_id = some 1))).map (fun r => r.raw))) :=
  ⟨⟨by decide, by decide, by decide,
      c5_cluster_cohesion.1 c5dfW c5outW c5r1W c5r2W (by decide) (by decide) (by decide)
        (by decide) (by decide)⟩,
    ⟨by decide, by decide, by decide,
      c5_cluster_cohesion.2.1 c5dfW2 c5outW2 c5rP0W (by decide) (by decide) (by decide)
        (by decide)⟩,
    ⟨by decide, by decide, by decide,
      c5_cluster_cohesion.2.2.1 c5dfW2 c5outW2 c5rP0W c5rP1W (by decide) (by decide)
        (by decide) (by decide) (by decide) 2 2 (by decide) (by decide) (by decide)
        (by decide)⟩,
    ⟨by decide,
      c5_cluster_cohesion.2.2.2 c5dfW3 c5vehW 30 c5planW 1 540 (by decide) (by decide)
        (by
          intro r hr
          have hfl : c5dfW3.filter (fun r => decide (r.cluster_id = some 1)) = c5dfW3 := by
            decide
          rw [hfl] at hr
          have h2 : r = c5dfW3.get ⟨0, by decide⟩ ∨ r = c5dfW3.get ⟨1, by decide⟩ := by
            rcases List.mem_cons.mp hr with h3 | h4
            · exact Or.inl h3
            · rcases List.mem_cons.mp h4 with h5 | h6
              · exact Or.inr h5
              · exact absurd h6 (List.not_mem_nil r)
          rcases h2 with heq | heq
          · subst heq
            exact ⟨540, rfl, by decide, by decide⟩
          · subst heq
            exact ⟨550, rfl, by decide, by decide⟩)
        (by decide) (by decide)⟩⟩

end CarpoolPoc

namespace CarpoolPoc

theorem assignDropoff_ids_ge (lo : Nat) :
    ∀ (items : List (String × Nat)) (df : List Row) (cid : Nat),
      lo ≤ cid → (∀ r ∈ df, ∀ k, r.cluster_id = some k → lo ≤ k) →
      (∀ r ∈ (assignDropoff items df cid).1, ∀ k, r.cluster_id = some k → lo ≤ k) ∧
        lo ≤ (assignDropoff items df cid).2 := by
  intro items
  induction items with
  | nil =>
    intro df cid hlo h
    exact ⟨h, hlo⟩
  | cons it rest ih =>
    intro df cid hlo h
    obtain ⟨a, n⟩ := it
    by_cases hn : n > 1
    · have hd : assignDropoff ((a, n) :: rest) df cid =
          assignDropoff rest (df.map fun r =>
            if r.raw.dropoff_address = a then
              { r with cluster_id := some cid, group_key := some ("DROPOFF=" ++ a) }
            else r) (cid + 1) := by
        simp only [assignDropoff, if_pos hn]
      rw [hd]
      apply ih _ (cid + 1) (Nat.le_trans hlo (Nat.le_succ cid))
      intro r2 hr2 k hk
      rcases List.mem_map.mp hr2 with ⟨r, hr, hfr⟩
      by_cases hda : r.raw.dropoff_address = a
      · rw [if_pos hda] at hfr
        rw [← hfr] at hk
        have hk2 : (some cid : Option Nat) = some k := hk
        injection hk2 with hk3
        omega
      · rw [if_neg hda] at hfr
        rw [← hfr] at hk
        exact h r hr k hk
    · have hd : assignDropoff ((a, n) :: rest) df cid = assignDropoff rest df cid := by
        simp only [assignDropoff, if_neg hn]
      rw [hd]
      exact ih df cid hlo h

theorem assignPickup_ids_ge (lo : Nat) :
    ∀ (items : List (String × Nat)) (df : List Row) (cid : Nat),
      lo ≤ cid → (∀ r ∈ df, ∀ k, r.cluster_id = some k → lo ≤ k) →
      (∀ r ∈ (assignPickup items df cid).1, ∀ k, r.cluster_id = some k → lo ≤ k) := by
  intro items
  induction items with
  | nil =>
    intro df cid _ h
    exact h
  | cons it rest ih =>
    intro df cid hlo h
    obtain ⟨a, n⟩ := it
    by_cases hn : n > 1
    · by_cases hg : (df.any fun r =>
          r.cluster_id.isNone && decide (r.raw.pickup_address = a)) = true
      · have hd : assignPickup ((a, n) :: rest) df cid =
            assignPickup rest (df.map fun r =>
              if r.cluster_id.isNone && decide (r.raw.pickup_address = a) then
                { r with cluster_id := some cid, group_key := some ("PICKUP=" ++ a) }
              else r) (cid + 1) := by
          simp only [assignPickup, if_pos hn, if_pos hg]
        rw [hd]
        apply ih _ (cid + 1) (Nat.le_trans hlo (Nat.le_succ cid))
        intro r2 hr2 k hk
        rcases List.mem_map.mp hr2 with ⟨r, hr, hfr⟩
        by_cases hcond : (r.cluster_id.isNone && decide (r.raw.pickup_address = a)) = true
        · rw [if_pos hcond] at hfr
          rw [← hfr] at hk
          have hk2 : (some cid : Option Nat) = some k := hk
          injection hk2 with hk3
          omega
        · rw [if_neg hcond] at hfr
          rw [← hfr] at hk
          exact h r hr k hk
      · have hd : assignPickup ((a, n) :: rest) df cid = assignPickup rest df cid := by
          simp only [assignPickup, if_pos hn, if_neg hg]
        rw [hd]
        exact ih df cid hlo h
    · have hd : assignPickup ((a, n) :: rest) df cid = assignPickup rest df cid := by
        simp only [assignPickup, if_neg hn]
      rw [hd]
      exact ih df cid hlo h

theorem assignPickup_ids_lt :
    ∀ (items : List (String × Nat)) (df : List Row) (cid : Nat),
      (∀ r ∈ df, ∀ k, r.cluster_id = some k → k < cid) →
      ∀ r ∈ (assignPickup items df cid).1, ∀ k, r.cluster_id = some k →
        k < (assignPickup items df cid).2 := by
  intro items
  induction items with
  | nil =>
    intro df cid h
    exact h
  | cons it rest ih =>
    intro df cid h
    obtain ⟨a, n⟩ := it
    by_cases hn : n > 1
    · by_cases hg : (df.any fun r =>
          r.cluster_id.isNone && decide (r.raw.pickup_address = a)) = true
      · have hd : assignPickup ((a, n) :: rest) df cid =
            assignPickup rest (df.map fun r =>
              if r.cluster_id.isNone && decide (r.raw.pickup_address = a) then
                { r with cluster_id := some cid, group_key := some ("PICKUP=" ++ a) }
              else r) (cid + 1) := by
          simp only [assignPickup, if_pos hn, if_pos hg]
        rw [hd]
        apply ih
        intro r2 hr2 k hk
        rcases List.mem_map.mp hr2 with ⟨r, hr, hfr⟩
        by_cases hcond : (r.cluster_id.isNone && decide (r.raw.pickup_address = a)) = true
        · rw [if_pos hcond] at hfr
          rw [← hfr] at hk
          have hk2 : (some cid : Option Nat) = some k := hk
          injection hk2 with hk3
          omega
        · rw [if_neg hcond] at hfr
          rw [← hfr] at hk
          have := h r hr k hk
          omega
      · have hd : assignPickup ((a, n) :: rest) df cid = assignPickup rest df cid := by
          simp only [assignPickup, if_pos hn, if_neg hg]
        rw [hd]
        exact ih df cid h
    · have hd : assignPickup ((a, n) :: rest) df cid = assignPickup rest df cid := by
        simp only [assignPickup, if_neg hn]
      rw [hd]
      exact ih df cid h

theorem assignPickup_keeps :
    ∀ (items : List (String × Nat)) (df : List Row) (cid : Nat),
      ∀ r ∈ df, ∀ k, r.cluster_id = some k →
        r ∈ (assignPickup items df cid).1 := by
  intro items
  induction items with
  | nil =>
    intro df cid r hr _ _
    exact hr
  | cons it rest ih =>
    intro df cid r hr k hk
    obtain ⟨a, n⟩ := it
    by_cases hn : n > 1
    · by_cases hg : (df.any fun r =>
          r.cluster_id.isNone && decide (r.raw.pickup_address = a)) = true
      · have hd : assignPickup ((a, n) :: rest) df cid =
            assignPickup rest (df.map fun r =>
              if r.cluster_id.isNone && decide (r.raw.pickup_address = a) then
                { r with cluster_id := some cid, group_key := some ("PICKUP=" ++ a) }
              else r) (cid + 1) := by
          simp only [assignPickup, if_pos hn, if_pos hg]
        rw [hd]
        have hcond : (r.cluster_id.isNone && decide (r.raw.pickup_address = a)) = false := by
          rw [hk]
          rfl
        refine ih _ (cid + 1) r ?_ k hk
        refine List.mem_map.mpr ⟨r, hr, ?_⟩
        simp [hcond]
      · have hd : assignPickup ((a, n) :: rest) df cid = assignPickup rest df cid := by
          simp only [assignPickup, if_pos hn, if_neg hg]
        rw [hd]
        exact ih df cid r hr k hk
    · have hd : assignPickup ((a, n) :: rest) df cid = assignPickup rest df cid := by
        simp only [assignPickup, if_neg hn]
      rw [hd]
      exact ih df cid r hr k hk

theorem assignPickup_low_ids :
    ∀ (items : List (String × Nat)) (df : List Row) (cid : Nat),
      ∀ r2 ∈ (assignPickup items df cid).1, ∀ k, r2.cluster_id = some k →
        k < cid → r2 ∈ df := by
  intro items
  induction items with
  | nil =>
    intro df cid r2 hr2 _ _ _
    exact hr2
  | cons it rest ih =>
    intro df cid r2 hr2 k hk hklt
    obtain ⟨a, n⟩ := it
    by_cases hn : n > 1
    · by_cases hg : (df.any fun r =>
          r.cluster_id.isNone && decide (r.raw.pickup_address = a)) = true
      · have hd : assignPickup ((a, n) :: rest) df cid =
            assignPickup rest (df.map fun r =>
              if r.cluster_id.isNone && decide (r.raw.pickup_address = a) then
                { r with cluster_id := some cid, group_key := some ("PICKUP=" ++ a) }
              else r) (cid + 1) := by
          simp only [assignPickup, if_pos hn, if_pos hg]
        rw [hd] at hr2
        have hr2b := ih _ (cid + 1) r2 hr2 k hk (by omega)
        rcases List.mem_map.mp hr2b with ⟨r, hr, hfr⟩
        by_cases hcond : (r.cluster_id.isNone && decide (r.raw.pickup_address = a)) = true
        · rw [if_pos hcond] at hfr
          rw [← hfr] at hk
          have hk2 : (some cid : Option Nat) = some k := hk
          injection hk2 with hk3
          omega
        · rw [if_neg hcond] at hfr
          rw [← hfr]
          exact hr
      · have hd : assignPickup ((a, n) :: rest) df cid = assignPickup rest df cid := by
          simp only [assignPickup, if_pos hn, if_neg hg]
        rw [hd] at hr2
        exact ih df cid r2 hr2 k hk hklt
    · have hd : assignPickup ((a, n) :: rest) df cid = assignPickup rest df cid := by
        simp only [assignPickup, if_neg hn]
      rw [hd] at hr2
      exact ih df cid r2 hr2 k hk hklt

end CarpoolPoc

namespace CarpoolPoc

theorem assignDropoff_unif :
    ∀ (items : List (String × Nat)) (df : List Row) (cid : Nat),
      (∀ r ∈ df, ∀ k, r.cluster_id = some k → k < cid) →
      (∀ r1 ∈ df, ∀ r2 ∈ df, ∀ k, r1.cluster_id = some k → r2.cluster_id = some k →
        r1.group_key = r2.group_key) →
      ∀ r1 ∈ (assignDropoff items df cid).1, ∀ r2 ∈ (assignDropoff items df cid).1,
        ∀ k, r1.cluster_id = some k → r2.cluster_id = some k →
          r1.group_key = r2.group_key := by
  intro items
  induction items with
  | nil =>
    intro df cid _ hunif
    exact hunif
  | cons it rest ih =>
    intro df cid hbound hunif
    obtain ⟨a, n⟩ := it
    by_cases hn : n > 1
    · have hd : assignDropoff ((a, n) :: rest) df cid =
          assignDropoff rest (df.map fun r =>
            if r.raw.dropoff_address = a then
              { r with cluster_id := some cid, group_key := some ("DROPOFF=" ++ a) }
            else r) (cid + 1) := by
        simp only [assignDropoff, if_pos hn]
      rw [hd]
      apply ih
      · intro r2 hr2 k hk
        rcases List.mem_map.mp hr2 with ⟨r, hr, hfr⟩
        by_cases hda : r.raw.dropoff_address = a
        · rw [if_pos hda] at hfr
          rw [← hfr] at hk
          have hk2 : (some cid : Option Nat) = some k := hk
          injection hk2 with hk3
          omega
        · rw [if_neg hda] at hfr
          rw [← hfr] at hk
          have := hbound r hr k hk
          omega
      · intro r1 hr1 r2 hr2 k hk1 hk2
        rcases List.mem_map.mp hr1 with ⟨s1, hs1, hf1⟩
        rcases List.mem_map.mp hr2 with ⟨s2, hs2, hf2⟩
        by_cases hd1 : s1.raw.dropoff_address = a
        · rw [if_pos hd1] at hf1
          by_cases hd2 : s2.raw.dropoff_address = a
          · rw [if_pos hd2] at hf2
            rw [← hf1, ← hf2]
          · rw [if_neg hd2] at hf2
            rw [← hf1] at hk1
            have hk1b : (some cid : Option Nat) = some k := hk1
            injection hk1b with hk1c
            rw [← hf2] at hk2
            have := hbound s2 hs2 k hk2
            omega
        · rw [if_neg hd1] at hf1
          by_cases hd2 : s2.raw.dropoff_address = a
          · rw [if_pos hd2] at hf2
            rw [← hf2] at hk2
            have hk2b : (some cid : Option Nat) = some k := hk2
            injection hk2b with hk2c
            rw [← hf1] at hk1
            have := hbound s1 hs1 k hk1
            omega
          · rw [if_neg hd2] at hf2
            rw [← hf1] at hk1 ⊢
            rw [← hf2] at hk2 ⊢
            exact hunif s1 hs1 s2 hs2 k hk1 hk2
    · have hd : assignDropoff ((a, n) :: rest) df cid = assignDropoff rest df cid := by
        simp only [assignDropoff, if_neg hn]
      rw [hd]
      exact ih df cid hbound hunif

theorem assignPickup_unif :
    ∀ (items : List (String × Nat)) (df : List Row) (cid : Nat),
      (∀ r ∈ df, ∀ k, r.cluster_id = some k → k < cid) →
      (∀ r1 ∈ df, ∀ r2 ∈ df, ∀ k, r1.cluster_id = some k → r2.cluster_id = some k →
        r1.group_key = r2.group_key) →
      ∀ r1 ∈ (assignPickup items df cid).1, ∀ r2 ∈ (assignPickup items df cid).1,
        ∀ k, r1.cluster_id = some k → r2.cluster_id = some k →
          r1.group_key = r2.group_key := by
  intro items
  induction items with
  | nil =>
    intro df cid _ hunif
    exact hunif
  | cons it rest ih =>
    intro df cid hbound hunif
    obtain ⟨a, n⟩ := it
    by_cases hn : n > 1
    · by_cases hg : (df.any fun r =>
          r.cluster_id.isNone && decide (r.raw.pickup_address = a)) = true
      · have hd : assignPickup ((a, n) :: rest) df cid =
            assignPickup rest (df.map fun r =>
              if r.cluster_id.isNone && decide (r.raw.pickup_address = a) then
                { r with cluster_id := some cid, group_key := some ("PICKUP=" ++ a) }
              else r) (cid + 1) := by
          simp only [assignPickup, if_pos hn, if_pos hg]
        rw [hd]
        apply ih
        · intro r2 hr2 k hk
          rcases List.mem_map.mp hr2 with ⟨r, hr, hfr⟩
          by_cases hcond : (r.cluster_id.isNone && decide (r.raw.pickup_address = a)) = true
          · rw [if_pos hcond] at hfr
            rw [← hfr] at hk
            have hk2 : (some cid : Option Nat) = some k := hk
            injection hk2 with hk3
            omega
          · rw [if_neg hcond] at hfr
            rw [← hfr] at hk
            have := hbound r hr k hk
            omega
        · intro r1 hr1 r2 hr2 k hk1 hk2
          rcases List.mem_map.mp hr1 with ⟨s1, hs1, hf1⟩
          rcases List.mem_map.mp hr2 with ⟨s2, hs2, hf2⟩
          by_cases hc1 : (s1.cluster_id.isNone && decide (s1.raw.pickup_address = a)) = true
          · rw [if_pos hc1] at hf1
            by_cases hc2 : (s2.cluster_id.isNone && decide (s2.raw.pickup_address = a)) = true
            · rw [if_pos hc2] at hf2
              rw [← hf1, ← hf2]
            · rw [if_neg hc2] at hf2
              rw [← hf1] at hk1
              have hk1b : (some cid : Option Nat) = some k := hk1
              injection hk1b with hk1c
              rw [← hf2] at hk2
              have := hbound s2 hs2 k hk2
              omega
          · rw [if_neg hc1] at hf1
            by_cases hc2 : (s2.cluster_id.isNone && decide (s2.raw.pickup_address = a)) = true
            · rw [if_pos hc2] at hf2
              rw [← hf2] at hk2
              have hk2b : (some cid : Option Nat) = some k := hk2
              injection hk2b with hk2c
              rw [← hf1] at hk1
              have := hbound s1 hs1 k hk1
              omega
            · rw [if_neg hc2] at hf2
              rw [← hf1] at hk1 ⊢
              rw [← hf2] at hk2 ⊢
              exact hunif s1 hs1 s2 hs2 k hk1 hk2
      · have hd : assignPickup ((a, n) :: rest) df cid = assignPickup rest df cid := by
          simp only [assignPickup, if_pos hn, if_neg hg]
        rw [hd]
        exact ih df cid hbound hunif
    · have hd : assignPickup ((a, n) :: rest) df cid = assignPickup rest df cid := by
        simp only [assignPickup, if_neg hn]
      rw [hd]
      exact ih df cid hbound hunif

end CarpoolPoc

namespace CarpoolPoc

theorem lookup_mem_fst : ∀ (l : List (Nat × Nat)) (x lab : Nat),
    l.lookup x = some lab → x ∈ l.map Prod.fst := by
  intro l
  induction l with
  | nil =>
    intro x lab h
    simp [List.lookup] at h
  | cons p rest ih =>
    intro x lab h
    obtain ⟨k2, v⟩ := p
    rw [List.lookup] at h
    by_cases hk : (x == k2) = true
    · rw [Nat.beq_eq_true_eq] at hk
      rw [hk]
      exact List.mem_map_of_mem Prod.fst (List.mem_cons_self (k2, v) rest)
    · rw [Bool.not_eq_true] at hk
      rw [hk] at h
      exact List.mem_cons_of_mem _ (ih x lab h)

theorem foldl_max_le : ∀ (l : List Nat) (a : Nat),
    a ≤ l.foldl max a ∧ ∀ x ∈ l, x ≤ l.foldl max a := by
  intro l
  induction l with
  | nil =>
    intro a
    refine ⟨Nat.le_refl a, ?_⟩
    intro x hx
    simp at hx
  | cons y t ih =>
    intro a
    simp only [List.foldl_cons]
    constructor
    · exact le_trans (le_max_left a y) (ih (max a y)).1
    · intro x hx
      rcases List.mem_cons.mp hx with heq | ht
    

      · rw [heq]
        exact le_trans (le_max_right a y) (ih (max a y)).1
      · exact (ih (max a y)).2 x ht

theorem maxClusterId_spec (df : List Row) :
    ∀ r ∈ df, ∀ k, r.cluster_id = some k → k ≤ maxClusterId df := by
  intro r hr k hk
  rw [maxClusterId]
  exact (foldl_max_le (df.filterMap (fun x => x.cluster_id)) 0).2 k
    (List.mem_filterMap.mpr ⟨r, hr, hk⟩)

theorem geo_eq_guard (kf : List (Int × Int) → Nat → List Nat) (df : List Row) (n : Nat)
    (h : (df.filter (fun r => r.cluster_id.isNone)).isEmpty = true ∨
      (df.filter (fun r => r.cluster_id.isNone)).length < n) :
    geoStamp kf df n = df := by
  rcases h with h1 | h2
  · simp only [geoStamp, h1, if_true]
  · simp only [geoStamp]
    split
    · rfl
    · simp [h2]

theorem geo_eq_main (kf : List (Int × Int) → Nat → List Nat) (df : List Row) (n : Nat)
    (h1 : (df.filter (fun r => r.cluster_id.isNone)).isEmpty = false)
    (h2 : ¬ (df.filter (fun r => r.cluster_id.isNone)).length < n) :
    geoStamp kf df n = df.map (fun r =>
      match (((df.filter (fun r => r.cluster_id.isNone)).map (fun r => r.idx)).zip
          (kf ((df.filter (fun r => r.cluster_id.isNone)).map
            (fun r => (r.raw.pickup_latitude, r.raw.pickup_longitude))) n)).lookup r.idx with
      | some lab =>
        { r with
          cluster_id := some ((if (df.filterMap (fun r => r.cluster_id)).isEmpty then 1
            else maxClusterId df + 1) + lab),
          group_key := some ("GEO-" ++ toString lab) }
      | none => r) := by
  simp only [geoStamp, h1, Bool.false_eq_true, if_false, if_neg h2]

theorem c6_geo_cases (kf : List (Int × Int) → Nat → List Nat) (df : List Row) (n : Nat) :
    ∀ r2 ∈ geoStamp kf df n,
      r2 ∈ df ∨
      ∃ r ∈ df, ∃ lab : Nat,
        (((df.filter (fun r => r.cluster_id.isNone)).map (fun r => r.idx)).zip
          (kf ((df.filter (fun r => r.cluster_id.isNone)).map
            (fun r => (r.raw.pickup_latitude, r.raw.pickup_longitude))) n)).lookup r.idx
          = some lab ∧
        r2 = { r with
          cluster_id := some ((if (df.filterMap (fun r => r.cluster_id)).isEmpty then 1
            else maxClusterId df + 1) + lab),
          group_key := some ("GEO-" ++ toString lab) } := by
  intro r2 hr2
  by_cases h1 : (df.filter (fun r => r.cluster_id.isNone)).isEmpty = true
  · rw [geo_eq_guard kf df n (Or.inl h1)] at hr2
    exact Or.inl hr2
  · by_cases h2 : (df.filter (fun r => r.cluster_id.isNone)).length < n
    · rw [geo_eq_guard kf df n (Or.inr h2)] at hr2
      exact Or.inl hr2
    · have h1f : (df.filter (fun r => r.cluster_id.isNone)).isEmpty = false := by
        cases hE : (df.filter (fun r => r.cluster_id.isNone)).isEmpty with
        | false => rfl
        | true => exact absurd hE h1
      rw [geo_eq_main kf df n h1f h2] at hr2
      rcases List.mem_map.mp hr2 with ⟨r, hr, hfr⟩
      cases hlk : (((df.filter (fun r => r.cluster_id.isNone)).map (fun r => r.idx)).zip
          (kf ((df.filter (fun r => r.cluster_id.isNone)).map
            (fun r => (r.raw.pickup_latitude, r.raw.pickup_longitude))) n)).lookup r.idx with
      | none =>
        rw [hlk] at hfr
        left
        rw [← hfr]
        exact hr
      | some lab =>
        rw [hlk] at hfr
        right
        exact ⟨r, hr, lab, hlk, hfr.symm⟩

theorem c6_geo_keeps (kf : List (Int × Int) → Nat → List Nat) (df : List Row) (n : Nat)
    (hidx : (df.map (fun r => r.idx)).Nodup) :
    ∀ r ∈ df, ∀ k, r.cluster_id = some k → r ∈ geoStamp kf df n := by
  intro r hr k hk
  by_cases h1 : (df.filter (fun r => r.cluster_id.isNone)).isEmpty = true
  · rw [geo_eq_guard kf df n (Or.inl h1)]
    exact hr
  · by_cases h2 : (df.filter (fun r => r.cluster_id.isNone)).length < n
    · rw [geo_eq_guard kf df n (Or.inr h2)]
      exact hr
    · have h1f : (df.filter (fun r => r.cluster_id.isNone)).isEmpty = false := by
        cases hE : (df.filter (fun r => r.cluster_id.isNone)).isEmpty with
        | false => rfl
        | true => exact absurd hE h1
      rw [geo_eq_main kf df n h1f h2]
      have hlk : (((df.filter (fun r => r.cluster_id.isNone)).map (fun r => r.idx)).zip
          (kf ((df.filter (fun r => r.cluster_id.isNone)).map
            (fun r => (r.raw.pickup_latitude, r.raw.pickup_longitude))) n)).lookup r.idx
          = none := by
        cases hlk2 : (((df.filter (fun r => r.cluster_id.isNone)).map (fun r => r.idx)).zip
            (kf ((df.filter (fun r => r.cluster_id.isNone)).map
              (fun r => (r.raw.pickup_latitude, r.raw.pickup_longitude))) n)).lookup r.idx with
        | none => rfl
        | some lab =>
          exfalso
          have hmemf := lookup_mem_fst _ r.idx lab hlk2
          rcases List.mem_map.mp hmemf with ⟨pr, hpr, hfst⟩
          have hkey := (List.of_mem_zip hpr).1
          rw [hfst] at hkey
          rcases List.mem_map.mp hkey with ⟨rna, hrna, hrnaidx⟩
          rcases List.mem_filter.mp hrna with ⟨hrnadf, hrnanone⟩
          have hsame : rna = r := by
            apply List.inj_on_of_nodup_map hidx hrnadf hr
            exact hrnaidx
          rw [hsame] at hrnanone
          exact not_isNone_and_isSome r.cluster_id hrnanone (by rw [hk]; rfl)
      refine List.mem_map.mpr ⟨r, hr, ?_⟩
      rw [hlk]

theorem c6_geo_offset (kf : List (Int × Int) → Nat → List Nat) (df : List Row) (n : Nat) :
    ∀ r2 ∈ geoStamp kf df n, ∀ k2, r2.cluster_id = some k2 →
      (∃ r ∈ df, r.cluster_id = some k2) ∨
      (maxClusterId df < k2 ∧ ∃ lab : Nat,
        k2 = (if (df.filterMap (fun r => r.cluster_id)).isEmpty then 1
          else maxClusterId df + 1) + lab ∧
        r2.group_key = some ("GEO-" ++ toString lab)) := by
  intro r2 hr2 k2 hk2
  rcases c6_geo_cases kf df n r2 hr2 with hleft | ⟨r, hr, lab, hlk, heq⟩
  · exact Or.inl ⟨r2, hleft, hk2⟩
  · right
    subst heq
    have hk2b : some ((if (df.filterMap (fun r => r.cluster_id)).isEmpty then 1
        else maxClusterId df + 1) + lab) = some k2 := hk2
    injection hk2b with hk2c
    constructor
    · by_cases hE : (df.filterMap (fun r => r.cluster_id)).isEmpty = true
      · rw [if_pos hE] at hk2c
        have hmax : maxClusterId df = 0 := by
          rw [maxClusterId, List.isEmpty_iff.mp hE]
          rfl
        omega
      · rw [if_neg hE] at hk2c
        omega
    · exact ⟨lab, hk2c.symm, rfl⟩

theorem c6_geo_unif (kf : List (Int × Int) → Nat → List Nat) (df : List Row) (n : Nat)
    (hidx : (df.map (fun r => r.idx)).Nodup)
    (hunif : ∀ r1 ∈ df, ∀ r2 ∈ df, ∀ k, r1.cluster_id = some k →
      r2.cluster_id = some k → r1.group_key = r2.group_key) :
    ∀ r1 ∈ geoStamp kf df n, ∀ r2 ∈ geoStamp kf df n,
      ∀ k, r1.cluster_id = some k → r2.cluster_id = some k →
        r1.group_key = r2.group_key := by
  have hmixed : ∀ (ra : Row), ra ∈ df → ∀ (rb : Row) (lab : Nat) (k : Nat),
      ra.cluster_id = some k →
      (({ rb with
        cluster_id := some ((if (df.filterMap (fun r => r.cluster_id)).isEmpty then 1
          else maxClusterId df + 1) + lab),
        group_key := some ("GEO-" ++ toString lab) } : Row).cluster_id = some k) →
      False := by
    intro ra hra rb lab k hka hkb
    have hkb2 : some ((if (df.filterMap (fun r => r.cluster_id)).isEmpty then 1
        else maxClusterId df + 1) + lab) = some k := hkb
    injection hkb2 with hkb3
    have hle := maxClusterId_spec df ra hra k hka
    have hEne : (df.filterMap (fun r => r.cluster_id)).isEmpty = false := by
      cases hE : (df.filterMap (fun r => r.cluster_id)).isEmpty with
      | false => rfl
      | true =>
        exfalso
        have : k ∈ df.filterMap (fun r => r.cluster_id) :=
          List.mem_filterMap.mpr ⟨ra, hra, hka⟩
        rw [List.isEmpty_iff.mp hE] at this
        exact absurd this (List.not_mem_nil k)
    rw [hEne] at hkb3
    simp only [Bool.false_eq_true, if_false] at hkb3
    omega
  intro r1 hr1 r2 hr2 k hk1 hk2
  rcases c6_geo_cases kf df n r1 hr1 with hl1 | ⟨s1, hs1, l1, hlk1, he1⟩
  · rcases c6_geo_cases kf df n r2 hr2 with hl2 | ⟨s2, hs2, l2, hlk2, he2⟩
    · exact hunif r1 hl1 r2 hl2 k hk1 hk2
    · subst he2
      exact (hmixed r1 hl1 s2 l2 k hk1 hk2).elim
  · rcases c6_geo_cases kf df n r2 hr2 with hl2 | ⟨s2, hs2, l2, hlk2, he2⟩
    · subst he1
      exact (hmixed r2 hl2 s1 l1 k hk2 hk1).elim
    · subst he1
      subst he2
      have hk1b : some ((if (df.filterMap (fun r => r.cluster_id)).isEmpty then 1
          else maxClusterId df + 1) + l1) = some k := hk1
      have hk2b : some ((if (df.filterMap (fun r => r.cluster_id)).isEmpty then 1
          else maxClusterId df + 1) + l2) = some k := hk2
      injection hk1b with hk1c
      injection hk2b with hk2c
      have hll : l1 = l2 := by omega
      rw [hll]

end CarpoolPoc

namespace CarpoolPoc

/-- **C6**: the cluster-id allocation discipline.  On an unclustered frame the
address passes assign ids in `[1, next_id)` with the dropoff block strictly
below the dropoff pass's final counter; the pickup pass never touches an
already assigned row and only ever hands out ids at or above its starting
counter; one id never names two different groups (rows with equal ids carry
equal group keys), before and after the geo pass; and every id the geo pass
produces is either an id that already existed or exceeds every existing id,
being exactly the zero-based k-means label offset by the next available
cluster id (`max + 1`, or `1` on a fully unclustered frame). -/
theorem c6_cluster_id_allocation :
    (∀ (df : List Row) (out : List Row × Bool), (∀ r0 ∈ df, r0.cluster_id = none) →
      group_same_addresses df = some out →
      ∀ r ∈ out.1, ∀ k, r.cluster_id = some k →
        1 ≤ k ∧ k < (assignPickup (value_counts (df.map (fun x => x.raw.pickup_address)))
          (assignDropoff (value_counts (df.map (fun x => x.raw.dropoff_address))) df 1).1
          (assignDropoff (value_counts (df.map (fun x => x.raw.dropoff_address))) df 1).2).2) ∧
    (∀ (df : List Row), (∀ r0 ∈ df, r0.cluster_id = none) →
      ∀ r ∈ (assignDropoff (value_counts (df.map (fun x => x.raw.dropoff_address))) df 1).1,
        ∀ k, r.cluster_id = some k →
          k < (assignDropoff (value_counts (df.map (fun x => x.raw.dropoff_address))) df 1).2) ∧
    (∀ (items : List (String × Nat)) (df0 : List Row) (cid : Nat),
      ∀ r ∈ df0, ∀ k, r.cluster_id = some k → r ∈ (assignPickup items df0 cid).1) ∧
    (∀ (items : List (String × Nat)) (df0 : List Row) (cid : Nat),
      ∀ r2 ∈ (assignPickup items df0 cid).1, ∀ k, r2.cluster_id = some k →
        k < cid → r2 ∈ df0) ∧
    (∀ (df : List Row) (out : List Row × Bool), (∀ r0 ∈ df, r0.cluster_id = none) →
      group_same_addresses df = some out →
      ∀ r1 ∈ out.1, ∀ r2 ∈ out.1,
        ∀ k, r1.cluster_id = some k → r2.cluster_id = some k →
          r1.group_key = r2.group_key) ∧
    (∀ (kf : List (Int × Int) → Nat → List Nat) (df : List Row) (n : Nat) (dfo : List Row),
      (df.map (fun r => r.idx)).Nodup →
      group_close_coordinates kf df true n = some dfo →
      ∀ r ∈ df, ∀ k, r.cluster_id = some k → r ∈ dfo) ∧
    (∀ (kf : List (Int × Int) → Nat → List Nat) (df : List Row) (n : Nat) (dfo : List Row),
      group_close_coordinates kf df true n = some dfo →
      ∀ r2 ∈ dfo, ∀ k2, r2.cluster_id = some k2 →
        (∃ r ∈ df, r.cluster_id = some k2) ∨
        (maxClusterId df < k2 ∧ ∃ lab : Nat,
          k2 = (if (df.filterMap (fun r => r.cluster_id)).isEmpty then 1
            else maxClusterId df + 1) + lab ∧
          r2.group_key = some ("GEO-" ++ toString lab))) ∧
    (∀ (kf : List (Int × Int) → Nat → List Nat) (df : List Row) (n : Nat) (dfo : List Row),
      (df.map (fun r => r.idx)).Nodup →
      (∀ r1 ∈ df, ∀ r2 ∈ df, ∀ k, r1.cluster_id = some k → r2.cluster_id = some k →
        r1.group_key = r2.group_key) →
      group_close_coordinates kf df true n = some dfo →
      ∀ r1 ∈ dfo, ∀ r2 ∈ dfo,
        ∀ k, r1.cluster_id = some k → r2.cluster_id = some k →
          r1.group_key = r2.group_key) := by
  refine ⟨?_, ?_, ?_, ?_, ?_, ?_, ?_, ?_⟩
  · intro df out hnone hout r hr k hk
    have hvac : ∀ r0 ∈ df, ∀ k0 : Nat, r0.cluster_id = some k0 → False := by
      intro r0 h0 k0 hk0
      rw [hnone r0 h0] at hk0
      exact Option.noConfusion hk0
    have hdge := assignDropoff_ids_ge 1
      (value_counts (df.map (fun x => x.raw.dropoff_address))) df 1 (Nat.le_refl 1)
      (fun r0 h0 k0 hk0 => (hvac r0 h0 k0 hk0).elim)
    have hdlt := assignDropoff_ids_lt
      (value_counts (df.map (fun x => x.raw.dropoff_address))) df 1
      (fun r0 h0 k0 hk0 => (hvac r0 h0 k0 hk0).elim)
    rcases group_same_addresses_cases df out hout with ⟨he, _⟩ | ⟨he, hncol, _⟩
    · simp only [he] at hr
      constructor
      · exact assignPickup_ids_ge 1 _ _ _ hdge.2 hdge.1 r hr k hk
      · exact assignPickup_ids_lt _ _ _ hdlt r hr k hk
    · simp only [he] at hr
      have hge := hdge.1 r hr k hk
      have hlt := hdlt r hr k hk
      omega
  · intro df hnone r hr k hk
    have hvac : ∀ r0 ∈ df, ∀ k0 : Nat, r0.cluster_id = some k0 → False := by
      intro r0 h0 k0 hk0
      rw [hnone r0 h0] at hk0
      exact Option.noConfusion hk0
    exact assignDropoff_ids_lt
      (value_counts (df.map (fun x => x.raw.dropoff_address))) df 1
      (fun r0 h0 k0 hk0 => (hvac r0 h0 k0 hk0).elim) r hr k hk
  · intro items df0 cid r hr k hk
    exact assignPickup_keeps items df0 cid r hr k hk
  · intro items df0 cid r2 hr2 k hk hklt
    exact assignPickup_low_ids items df0 cid r2 hr2 k hk hklt
  · intro df out hnone hout r1 h1 r2 h2 k hk1 hk2
    have hvac : ∀ r0 ∈ df, ∀ k0 : Nat, r0.cluster_id = some k0 → False := by
      intro r0 h0 k0 hk0
      rw [hnone r0 h0] at hk0
      exact Option.noConfusion hk0
    have hdge := assignDropoff_ids_ge 1
      (value_counts (df.map (fun x => x.raw.dropoff_address))) df 1 (Nat.le_refl 1)
      (fun r0 h0 k0 hk0 => (hvac r0 h0 k0 hk0).elim)
    have hdlt := assignDropoff_ids_lt
      (value_counts (df.map (fun x => x.raw.dropoff_address))) df 1
      (fun r0 h0 k0 hk0 => (hvac r0 h0 k0 hk0).elim)
    rcases group_same_addresses_cases df out hout with ⟨he, _⟩ | ⟨he, hncol, _⟩
    · simp only [he] at h1 h2
      have hdunif := assignDropoff_unif
        (value_counts (df.map (fun x => x.raw.dropoff_address))) df 1
        (fun r0 h0 k0 hk0 => (hvac r0 h0 k0 hk0).elim)
        (fun ra hra rb hrb k0 hka hkb => (hvac ra hra k0 hka).elim)
      exact assignPickup_unif _ _ _ hdlt hdunif r1 h1 r2 h2 k hk1 hk2
    · simp only [he] at h1
      have hge := hdge.1 r1 h1 k hk1
      have hlt := hdlt r1 h1 k hk1
      exact absurd hlt (by omega)
  · intro kf df n dfo hidx hout r hr k hk
    rw [group_close_coordinates_col] at hout
    rw [← Option.some.inj hout]
    exact c6_geo_keeps kf df n hidx r hr k hk
  · intro kf df n dfo hout r2 hr2 k2 hk2
    rw [group_close_coordinates_col] at hout
    rw [← Option.some.inj hout] at hr2
    exact c6_geo_offset kf df n r2 hr2 k2 hk2
  · intro kf df n dfo hidx hunif hout r1 h1 r2 h2 k hk1 hk2
    rw [group_close_coordinates_col] at hout
    rw [← Option.some.inj hout] at h1 h2
    exact c6_geo_unif kf df n hidx hunif r1 h1 r2 h2 k hk1 hk2

/-- Witness for C6 on the concrete frames: the dropoff cluster of `c5dfW`
gets id 1 inside the allocated block, clustered rows survive the pickup and
geo passes, equal ids carry equal group keys, and the geo pass hands the
unclustered rows of `c6dfaW` the id `2 = max + 1` with key `GEO-0`. -/
theorem c6_cluster_id_allocation_witness :
    (group_same_addresses c5dfW = some c5outW ∧ c5r1W ∈ c5outW.1 ∧
      ((1 : Nat) ≤ 1 ∧
      1 < (assignPickup (value_counts (c5dfW.map (fun x => x.raw.pickup_address)))
        (assignDropoff (value_counts (c5dfW.map (fun x => x.raw.dropoff_address))) c5dfW 1).1
        (assignDropoff (value_counts (c5dfW.map (fun x => x.raw.dropoff_address))) c5dfW 1).2).2)) ∧
    (1 < (assignDropoff (value_counts (c5dfW.map (fun x => x.raw.dropoff_address))) c5dfW 1).2) ∧
    c5r1W ∈ (assignPickup [("Z", 2)] [c5r1W] 7).1 ∧
    c5r1W ∈ [c5r1W] ∧
    c5r1W.group_key = c5r2W.group_key ∧
    (group_close_coordinates c6kfW c6dfaW true 2 = some c6outW ∧ c5r1W ∈ c6outW) ∧
    ((∃ r ∈ c6dfaW, r.cluster_id = some 2) ∨
      (maxClusterId c6dfaW < 2 ∧ ∃ lab : Nat,
        2 = (if (c6dfaW.filterMap (fun r => r.cluster_id)).isEmpty then 1
          else maxClusterId c6dfaW + 1) + lab ∧
        c6g1W.group_key = some ("GEO-" ++ toString lab))) ∧
    c6g1W.group_key = c6g2W.group_key :=
  ⟨⟨by decide, by decide,
     c6_cluster_id_allocation.1 c5dfW c5outW (by decide) (by decide) c5r1W (by decide)
       1 (by decide)⟩,
   c6_cluster_id_allocation.2.1 c5dfW (by decide) c5r1W (by decide) 1 (by decide),
   c6_cluster_id_allocation.2.2.1 [("Z", 2)] [c5r1W] 7 c5r1W (by decide) 1 (by decide),
   c6_cluster_id_allocation.2.2.2.1 [("Z", 2)] [c5r1W] 7 c5r1W (by decide) 1 (by decide)
     (by decide),
   c6_cluster_id_allocation.2.2.2.2.1 c5dfW c5outW (by decide) (by decide) c5r1W (by decide)
     c5r2W (by decide) 1 (by decide) (by decide),
   ⟨by decide,
     c6_cluster_id_allocation.2.2.2.2.2.1 c6kfW c6dfaW 2 c6outW (by decide) (by decide)
       c5r1W (by decide) 1 (by decide)⟩,
   c6_cluster_id_allocation.2.2.2.2.2.2.1 c6kfW c6dfaW 2 c6outW (by decide) c6g1W
     (by decide) 2 (by decide),
   c6_cluster_id_allocation.2.2.2.2.2.2.2 c6kfW c6dfaW 2 c6outW (by decide)
     (fun r1 h1 r2 h2 k hk1 hk2 => by
       have hone : ∀ r3 ∈ c6dfaW, ∀ k3 : Nat, r3.cluster_id = some k3 → r3 = c5r1W := by
         intro r3 h3 k3 hk3
         simp only [c6dfaW, List.mem_cons, List.not_mem_nil, or_false] at h3
         rcases h3 with he | he | he
         · exact he
         · rw [he] at hk3
           exact Option.noConfusion hk3
         · rw [he] at hk3
           exact Option.noConfusion hk3
       rw [hone r1 h1 k hk1, hone r2 h2 k hk2])
     (by decide) c6g1W (by decide) c6g2W (by decide) 2 (by decide) (by decide)⟩

end CarpoolPoc
